import Mathlib

/-!
# Process-identifier management (`kern/thread/pid.c`)

A shallow embedding of the pid table of the kernel: the record type
`pidinfo`, the module-scope table `pidinfo[PROCS_MAX]` with its cursor
`nextpid` and its live count `nprocs`, and the operations of `pid.c`.

Conventions of the embedding.

* `pid_t` and `int` are `Int`.
* The constants that `pid.c` takes from headers (`PROCS_MAX`, `PID_MIN`,
  `PID_MAX`, `INVALID_PID`, `BOOTUP_PID`, the errno values, `WNOHANG`, the
  signal numbers) are the fields of `Consts`; every definition takes them as
  a parameter.
* Every public operation acquires `pidlock` on entry and releases it on
  every return, and the helpers `pi_get`, `pi_put`, `pi_drop`,
  `inc_nextpid` are only called with the lock held; an operation is one
  atomic transformation of the table, with `curthread->t_pid` passed in as
  `caller`.
* A failed `KASSERT`, a `panic`, a dereference of `NULL`, an array index
  outside the table, a use of a record after `pi_drop` freed it and a shift
  by an amount outside `0..30` are results of type `Fault`.
* `cv_wait` suspends the caller: a call that reaches it ends in the outcome
  `blocked`, and `pid_join_resume` is the rest of `pid_join` after the wake-up.

The open-file entries and the file table of `kern/syscall/file.c` are embedded
in the namespace `FileTable`, whose definitions follow those of `Pid`.
-/

namespace Pid

/-- Header constants used by `pid.c`. -/
structure Consts where
  PROCS_MAX : Nat
  PID_MIN : Int
  PID_MAX : Int
  INVALID_PID : Int
  BOOTUP_PID : Int
  EINVAL : Int
  ESRCH : Int
  EDEADLK : Int
  ECHILD : Int
  EAGAIN : Int
  ENOMEM : Int
  EUNIMP : Int
  WNOHANG : Int
  SIGHUP : Int
  SIGINT : Int
  SIGQUIT : Int
  SIGKILL : Int
  SIGTERM : Int
  SIGSTOP : Int
  SIGCONT : Int
  SIGWINCH : Int
  SIGINFO : Int

/-- Ways in which an operation fails to return. -/
inductive Fault where
  | kassert
  | panic
  | nullDeref
  | badIndex
  | dangling
  | badShift
  deriving DecidableEq, Repr

/-- The record `struct pidinfo`; the condition variable `pi_cv` carries no
data of its own and is not represented. -/
structure pidinfo where
  pi_pid : Int
  pi_ppid : Int
  pi_exited : Bool
  pi_exitstatus : Int
  pi_signal : Int
  deriving DecidableEq, Repr

/-- The module-scope variables `pidinfo[]`, `nextpid`, `nprocs`. -/
structure PidState where
  pidinfo : List (Option pidinfo)
  nextpid : Int
  nprocs : Int
  deriving DecidableEq, Repr

/-- What an `int`-returning operation hands back: the return value, the
value stored through its out-pointer (if it stored one) and the table. -/
structure Ret where
  ret : Int
  out : Option Int
  st : PidState
  deriving DecidableEq, Repr

/-- The index `pid % PROCS_MAX` of a non-negative pid. -/
def slot (c : Consts) (pid : Int) : Nat := pid.toNat % c.PROCS_MAX

/-- The read `pidinfo[pid % PROCS_MAX]`. -/
def slot_read (c : Consts) (s : PidState) (pid : Int) : Except Fault (Option pidinfo) :=
  if pid < 0 then .error .badIndex
  else match s.pidinfo[slot c pid]? with
    | none => .error .badIndex
    | some v => .ok v

/-- The write `pidinfo[pid % PROCS_MAX] = v`. -/
def slot_write (c : Consts) (s : PidState) (pid : Int) (v : Option pidinfo) :
    Except Fault PidState :=
  if pid < 0 then .error .badIndex
  else if slot c pid < s.pidinfo.length then
    .ok { s with pidinfo := s.pidinfo.set (slot c pid) v }
  else .error .badIndex

/-- The function `pidinfo_create`: `mem = none` is a failed `kmalloc` or `cv_create`,
`mem = some g` a successful one in which the field `pi_signal`, which the
function does not initialise, holds `g`. -/
def pidinfo_create (c : Consts) (pid ppid : Int) (mem : Option Int) :
    Except Fault (Option pidinfo) :=
  if pid = c.INVALID_PID then .error .kassert
  else match mem with
    | none => .ok none
    | some g => .ok (some { pi_pid := pid, pi_ppid := ppid, pi_exited := false,
                            pi_exitstatus := 0xbaad, pi_signal := g })

/-- The function `pidinfo_destroy`. -/
def pidinfo_destroy (c : Consts) (pi : pidinfo) : Except Fault Unit :=
  if pi.pi_exited ≠ true then .error .kassert
  else if pi.pi_ppid ≠ c.INVALID_PID then .error .kassert
  else .ok ()

/-- The function `pid_bootstrap`, once `lock_create` has succeeded; `mem` is as in
`pidinfo_create`. -/
def pid_bootstrap (c : Consts) (mem : Option Int) : Except Fault PidState := do
  let s0 : PidState := { pidinfo := List.replicate c.PROCS_MAX none, nextpid := 0, nprocs := 0 }
  let pi ← pidinfo_create c c.BOOTUP_PID c.INVALID_PID mem
  if c.BOOTUP_PID < 0 ∨ (c.PROCS_MAX : Int) ≤ c.BOOTUP_PID then throw .badIndex
  let s1 : PidState := { s0 with pidinfo := s0.pidinfo.set c.BOOTUP_PID.toNat pi }
  if pi = none then throw .panic
  return { s1 with nextpid := c.PID_MIN, nprocs := 1 }

/-- The function `pi_get`. -/
def pi_get (c : Consts) (s : PidState) (pid : Int) : Except Fault (Option pidinfo) := do
  if pid < 0 then throw .kassert
  if pid = c.INVALID_PID then throw .kassert
  let pi ← slot_read c s pid
  match pi with
  | none => return none
  | some r => if r.pi_pid ≠ pid then return none else return some r

/-- The function `pi_put`. -/
def pi_put (c : Consts) (s : PidState) (pid : Int) (pi : pidinfo) : Except Fault PidState := do
  if pid = c.INVALID_PID then throw .kassert
  let old ← slot_read c s pid
  if old ≠ none then throw .kassert
  let s1 ← slot_write c s pid (some pi)
  return { s1 with nprocs := s1.nprocs + 1 }

/-- The function `pi_drop`. -/
def pi_drop (c : Consts) (s : PidState) (pid : Int) : Except Fault PidState := do
  let pi ← slot_read c s pid
  match pi with
  | none => throw .kassert
  | some r =>
    if r.pi_pid ≠ pid then throw .kassert
    pidinfo_destroy c r
    let s1 ← slot_write c s pid none
    return { s1 with nprocs := s1.nprocs - 1 }

/-- The function `inc_nextpid`, on the cursor. -/
def inc_nextpid (c : Consts) (nextpid : Int) : Int :=
  if nextpid + 1 > c.PID_MAX then c.PID_MIN else nextpid + 1

/-- The candidate scan of `pid_alloc`: `budget` is `PROCS_MAX*2+5 - count`. -/
def alloc_scan (c : Consts) (s : PidState) : Nat → Int → Except Fault Int
  | 0, nextpid => do
    let pi ← slot_read c s nextpid
    if pi ≠ none then throw .kassert
    return nextpid
  | budget + 1, nextpid => do
    let pi ← slot_read c s nextpid
    if pi ≠ none then alloc_scan c s budget (inc_nextpid c nextpid)
    else return nextpid

/-- The function `pid_alloc`; `out` is the value stored in `*retval`. -/
def pid_alloc (c : Consts) (s : PidState) (caller : Int) (mem : Option Int) :
    Except Fault Ret := do
  if caller = c.INVALID_PID then throw .kassert
  if s.nprocs = (c.PROCS_MAX : Int) then return { ret := c.EAGAIN, out := none, st := s }
  let pid ← alloc_scan c s (c.PROCS_MAX * 2 + 5) s.nextpid
  let s1 : PidState := { s with nextpid := pid }
  let pi ← pidinfo_create c pid caller mem
  match pi with
  | none => return { ret := c.ENOMEM, out := none, st := s1 }
  | some r =>
    let s2 ← pi_put c s1 pid r
    let s3 : PidState := { s2 with nextpid := inc_nextpid c s2.nextpid }
    return { ret := 0, out := some pid, st := s3 }

/-- The function `pid_unalloc`. -/
def pid_unalloc (c : Consts) (s : PidState) (caller : Int) (theirpid : Int) :
    Except Fault PidState := do
  if ¬ (theirpid ≥ c.PID_MIN ∧ theirpid ≤ c.PID_MAX) then throw .kassert
  let them ← pi_get c s theirpid
  match them with
  | none => throw .kassert
  | some r =>
    if r.pi_exited ≠ false then throw .kassert
    if r.pi_ppid ≠ caller then throw .kassert
    let s1 ← slot_write c s theirpid
      (some { r with pi_exitstatus := 0xdead, pi_exited := true, pi_ppid := c.INVALID_PID })
    pi_drop c s1 theirpid

/-- The function `pid_detach`. -/
def pid_detach (c : Consts) (s : PidState) (caller : Int) (childpid : Int) :
    Except Fault Ret := do
  if childpid = c.INVALID_PID ∨ childpid = c.BOOTUP_PID then
    return { ret := -c.EINVAL, out := none, st := s }
  let pi ← pi_get c s childpid
  let currpi ← pi_get c s caller
  match pi with
  | none => return { ret := -c.ESRCH, out := none, st := s }
  | some r =>
    if r.pi_ppid = c.INVALID_PID then return { ret := -c.EINVAL, out := none, st := s }
    match currpi with
    | none => throw .nullDeref
    | some cur =>
      if cur.pi_pid ≠ r.pi_ppid then return { ret := -c.EINVAL, out := none, st := s }
      let s1 ← slot_write c s childpid (some { r with pi_ppid := c.INVALID_PID })
      if r.pi_exited = true then
        let s2 ← pi_drop c s1 r.pi_pid
        return { ret := 0, out := none, st := s2 }
      else
        return { ret := 0, out := none, st := s1 }

/-- The `for` loop of `pid_exit` over the pids still to visit; `me` is
`curthread->t_pid`, whose record `my_pi` points to.  The loop releases
`pidlock` around each call of `pid_detach`; calls that other threads make in
those windows are not part of this definition. -/
def exit_loop (c : Consts) (me : Int) : List Int → PidState → Except Fault PidState
  | [], s => .ok s
  | pid :: rest, s => do
    let child ← pi_get c s pid
    match child with
    | none => exit_loop c me rest s
    | some ch =>
      let my_pi ← pi_get c s me
      match my_pi with
      | none => throw .dangling
      | some mine =>
        if ch.pi_ppid = mine.pi_pid then
          let r ← pid_detach c s me ch.pi_pid
          exit_loop c me rest r.st
        else exit_loop c me rest s

/-- The values `PID_MIN, PID_MIN+1, ..., PID_MAX` of the loop variable. -/
def pid_range (c : Consts) : List Int :=
  (List.range (c.PID_MAX - c.PID_MIN + 1).toNat).map (fun (k : Nat) => c.PID_MIN + (k : Int))

/-- The end of `pid_exit`, after the loop: the status is stored in the record
`my_pi` points to, which is then dropped if it is detached (`cv_broadcast`
otherwise, which does not touch the table). -/
def exit_self (c : Consts) (s : PidState) (caller : Int) (status : Int) :
    Except Fault PidState := do
  let my_pi ← pi_get c s caller
  match my_pi with
  | none => throw .dangling
  | some mine =>
    let s2 ← slot_write c s caller (some { mine with pi_exitstatus := status, pi_exited := true })
    if mine.pi_ppid = c.INVALID_PID then pi_drop c s2 mine.pi_pid
    else return s2

/-- The function `pid_exit`. -/
def pid_exit (c : Consts) (s : PidState) (caller : Int) (status : Int) (dodetach : Bool) :
    Except Fault PidState := do
  let my_pi ← pi_get c s caller
  if my_pi = none then throw .kassert
  let s1 ← if dodetach then exit_loop c caller (pid_range c) s else pure s
  exit_self c s1 caller status

/-- How a call of `pid_join` or `pid_wait` ends: it returns, or it is
suspended in `cv_wait`. -/
inductive JoinResult where
  | returned (r : Ret)
  | blocked (st : PidState)
  deriving DecidableEq, Repr

/-- The function `pid_join`; `status_nonnull` says whether the pointer `status` is
non-`NULL`, and `out` is the value stored in `*status`. -/
def pid_join (c : Consts) (s : PidState) (caller : Int) (targetpid : Int)
    (status_nonnull : Bool) (flags : Int) : Except Fault JoinResult := do
  if targetpid = c.INVALID_PID ∨ targetpid = c.BOOTUP_PID then
    return .returned { ret := -c.EINVAL, out := none, st := s }
  let pi ← pi_get c s targetpid
  let currpi ← pi_get c s caller
  match pi with
  | none => return .returned { ret := -c.ESRCH, out := none, st := s }
  | some r =>
    if r.pi_ppid = c.INVALID_PID then
      return .returned { ret := -c.EINVAL, out := none, st := s }
    match currpi with
    | none => throw .nullDeref
    | some cur =>
      if r.pi_pid = cur.pi_pid then
        return .returned { ret := -c.EDEADLK, out := none, st := s }
      if flags ≠ c.WNOHANG then
        if r.pi_exited = false then return .blocked s
        else
          return .returned { ret := targetpid,
                             out := if status_nonnull then some r.pi_exitstatus else none,
                             st := s }
      else return .returned { ret := 0, out := none, st := s }

/-- The rest of a blocking `pid_join` once `cv_wait` has returned, run on
the table `s` found at that moment: `pi` still points at the record that was
in the target's slot. -/
def pid_join_resume (c : Consts) (s : PidState) (targetpid : Int) (status_nonnull : Bool) :
    Except Fault Ret := do
  let pi ← pi_get c s targetpid
  match pi with
  | none => throw .dangling
  | some r =>
    return { ret := targetpid,
             out := if status_nonnull then some r.pi_exitstatus else none,
             st := s }

/-- The function `pid_wait`. -/
def pid_wait (c : Consts) (s : PidState) (caller : Int) (targetpid : Int)
    (status_nonnull : Bool) (flags : Int) : Except Fault JoinResult := do
  if flags ≠ 0 ∧ flags ≠ c.WNOHANG then
    return .returned { ret := -c.EINVAL, out := none, st := s }
  let targetpi ← pi_get c s targetpid
  match targetpi with
  | none => throw .nullDeref
  | some r =>
    if r.pi_ppid ≠ caller then
      return .returned { ret := -c.ECHILD, out := none, st := s }
    pid_join c s caller targetpid status_nonnull flags

/-- The function `pi_unset_signal`: `pi_signal &= ~(1 << sig)`. -/
def pi_unset_signal (c : Consts) (s : PidState) (pid : Int) (sig : Int) :
    Except Fault PidState := do
  let target ← pi_get c s pid
  match target with
  | none => throw .kassert
  | some r =>
    if sig < 0 ∨ 31 ≤ sig then throw .badShift
    slot_write c s pid
      (some { r with pi_signal := Int.land r.pi_signal (Int.lnot (2 ^ sig.toNat)) })

/-- The function `pid_kill`. -/
def pid_kill (c : Consts) (s : PidState) (pid : Int) (sig : Int) : Except Fault Ret := do
  let target ← pi_get c s pid
  match target with
  | none => return { ret := c.ESRCH, out := none, st := s }
  | some r =>
    if sig = 0 then return { ret := 0, out := none, st := s }
    if sig > 32 ∨ sig < 1 then return { ret := c.EINVAL, out := none, st := s }
    if sig = c.SIGCONT then
      let s1 ← pi_unset_signal c s pid c.SIGSTOP
      return { ret := 0, out := none, st := s1 }
    else if sig = c.SIGSTOP ∨ sig = c.SIGWINCH ∨ sig = c.SIGHUP ∨ sig = c.SIGKILL ∨
        sig = c.SIGINT ∨ sig = c.SIGQUIT ∨ sig = c.SIGINFO ∨ sig = c.SIGTERM then
      let s1 ← slot_write c s pid (some { r with pi_signal := 1 })
      return { ret := 0, out := none, st := s1 }
    else return { ret := c.EUNIMP, out := none, st := s }

/-- The function `manage_signal`: `some v` is a call `thread_exit(v)`, `none` a plain
return. -/
def manage_signal (c : Consts) (s : PidState) (pid : Int) : Except Fault (Option Int) := do
  let pi ← pi_get c s pid
  match pi with
  | none => throw .nullDeref
  | some r => if r.pi_signal > 0 then return some r.pi_signal else return none

/-- The table a call of `pid_join` or `pid_wait` leaves behind. -/
def JoinResult.st : JoinResult → PidState
  | .returned r => r.st
  | .blocked s => s

/-- A process that can make a call: its record is in the table and it has
not exited. -/
def Live (c : Consts) (s : PidState) (pid : Int) : Prop :=
  ∃ r, pi_get c s pid = .ok (some r) ∧ r.pi_exited = false

/-- The tables the kernel can be in: the one `pid_bootstrap` builds, and
every table a returning call of an operation of `pid.c`, made by a live
process, produces from such a table. -/
inductive Reachable (c : Consts) : PidState → Prop where
  | boot (g : Int) (s : PidState) :
      pid_bootstrap c (some g) = .ok s → Reachable c s
  | alloc (s : PidState) (caller : Int) (mem : Option Int) (r : Ret) :
      Reachable c s → Live c s caller → pid_alloc c s caller mem = .ok r → Reachable c r.st
  | unalloc (s : PidState) (caller theirpid : Int) (s1 : PidState) :
      Reachable c s → Live c s caller → pid_unalloc c s caller theirpid = .ok s1 →
      Reachable c s1
  | detach (s : PidState) (caller childpid : Int) (r : Ret) :
      Reachable c s → Live c s caller → pid_detach c s caller childpid = .ok r →
      Reachable c r.st
  | exit (s : PidState) (caller status : Int) (dodetach : Bool) (s1 : PidState) :
      Reachable c s → Live c s caller → pid_exit c s caller status dodetach = .ok s1 →
      Reachable c s1
  | join (s : PidState) (caller targetpid : Int) (nn : Bool) (flags : Int) (j : JoinResult) :
      Reachable c s → Live c s caller → pid_join c s caller targetpid nn flags = .ok j →
      Reachable c j.st
  | wait (s : PidState) (caller targetpid : Int) (nn : Bool) (flags : Int) (j : JoinResult) :
      Reachable c s → Live c s caller → pid_wait c s caller targetpid nn flags = .ok j →
      Reachable c j.st
  | kill (s : PidState) (caller pid sig : Int) (r : Ret) :
      Reachable c s → Live c s caller → pid_kill c s pid sig = .ok r → Reachable c r.st

/-- The assumptions on the header constants: the table is not empty, the
boot pid indexes it, the two reserved pids differ and lie below the range
`PID_MIN..PID_MAX`, which is non-empty and non-negative, and the errno
values are positive. -/
def Consts.wf (c : Consts) : Prop :=
  0 < c.PROCS_MAX ∧ 0 ≤ c.BOOTUP_PID ∧ c.BOOTUP_PID < c.PROCS_MAX ∧
  c.INVALID_PID ≠ c.BOOTUP_PID ∧ c.INVALID_PID < c.PID_MIN ∧ c.BOOTUP_PID < c.PID_MIN ∧
  0 ≤ c.PID_MIN ∧ c.PID_MIN ≤ c.PID_MAX ∧
  0 < c.EINVAL ∧ 0 < c.ESRCH ∧ 0 < c.EDEADLK ∧ 0 < c.ECHILD ∧ 0 < c.EAGAIN ∧
  0 < c.ENOMEM ∧ 0 < c.EUNIMP

instance (c : Consts) : Decidable c.wf := by unfold Consts.wf; infer_instance

/-- A small instance of the constants, used to evaluate the operations. -/
def demo : Consts :=
  { PROCS_MAX := 4, PID_MIN := 2, PID_MAX := 9, INVALID_PID := 0, BOOTUP_PID := 1,
    EINVAL := 8, ESRCH := 15, EDEADLK := 18, ECHILD := 16, EAGAIN := 4, ENOMEM := 3,
    EUNIMP := 2, WNOHANG := 1, SIGHUP := 1, SIGINT := 2, SIGQUIT := 3, SIGKILL := 9,
    SIGTERM := 15, SIGSTOP := 17, SIGCONT := 19, SIGWINCH := 28, SIGINFO := 29 }

/-- What holds of a record `r` found in slot `i` of a table the kernel can be
in: it sits in the slot of its pid; it is the boot record, which has no
parent, or its pid is in `PID_MIN..PID_MAX`; it is not both exited and
detached; and it is not its own parent. -/
def RecOk (c : Consts) (i : Nat) (r : pidinfo) : Prop :=
  slot c r.pi_pid = i ∧
  ((r.pi_pid = c.BOOTUP_PID ∧ r.pi_ppid = c.INVALID_PID) ∨
    (c.PID_MIN ≤ r.pi_pid ∧ r.pi_pid ≤ c.PID_MAX)) ∧
  ¬ (r.pi_exited = true ∧ r.pi_ppid = c.INVALID_PID) ∧
  r.pi_ppid ≠ r.pi_pid

/-- The number of non-empty slots. -/
def occupied (s : PidState) : Nat := s.pidinfo.countP Option.isSome

/-- The invariant of the table: it has `PROCS_MAX` slots, every record in it
is as `RecOk` says, the cursor is in `PID_MIN..PID_MAX` and `nprocs` counts
the non-empty slots. -/
structure Inv (c : Consts) (s : PidState) : Prop where
  len : s.pidinfo.length = c.PROCS_MAX
  recs : ∀ i r, s.pidinfo[i]? = some (some r) → RecOk c i r
  cursor : c.PID_MIN ≤ s.nextpid ∧ s.nextpid ≤ c.PID_MAX
  count : s.nprocs = (occupied s : Int)

/-- The table `s` with `v` stored in slot `i`. -/
def PidState.store (s : PidState) (i : Nat) (v : Option Pid.pidinfo) : PidState :=
  { s with pidinfo := s.pidinfo.set i v }

/-- The table `s` with slot `i` emptied and the live count lowered by one. -/
def PidState.reclaim (s : PidState) (i : Nat) : PidState :=
  { s with pidinfo := s.pidinfo.set i none, nprocs := s.nprocs - 1 }

/-- The record `r` with its parent cleared. -/
def pidinfo.detached (c : Consts) (r : pidinfo) : pidinfo :=
  { r with pi_ppid := c.INVALID_PID }

/-- The record `r` marked as exited with `status`. -/
def pidinfo.exited_with (r : pidinfo) (status : Int) : pidinfo :=
  { r with pi_exitstatus := status, pi_exited := true }

/-- What the loop of `pid_exit` makes of a slot once it has visited the pids
in `L`: a record of such a pid whose parent is `me` is gone if it had exited
and has its parent cleared otherwise. -/
def disown_in (c : Consts) (me : Int) (L : List Int) : Option pidinfo → Option pidinfo
  | none => none
  | some r =>
    if r.pi_ppid = me ∧ r.pi_pid ∈ L then
      (if r.pi_exited = true then none else some (r.detached c))
    else some r

/-- What the whole loop of `pid_exit` makes of a slot. -/
def disown (c : Consts) (me : Int) : Option pidinfo → Option pidinfo
  | none => none
  | some r =>
    if r.pi_ppid = me then (if r.pi_exited = true then none else some (r.detached c))
    else some r

/-- Whether a slot holds a child of `me` that has exited. -/
def is_exited_child (me : Int) : Option pidinfo → Bool
  | none => false
  | some r => decide (r.pi_ppid = me) && r.pi_exited

/-- The number of children of `me` that have exited. -/
def exited_children (s : PidState) (me : Int) : Nat :=
  s.pidinfo.countP (is_exited_child me)

/-- The table the loop of `pid_exit` run by `me` leaves. -/
def PidState.disowned (c : Consts) (s : PidState) (me : Int) : PidState :=
  { pidinfo := s.pidinfo.map (disown c me), nextpid := s.nextpid,
    nprocs := s.nprocs - (exited_children s me : Int) }

/-- The boot record of `demo`. -/
def demo_bootrec : pidinfo :=
  { pi_pid := 1, pi_ppid := 0, pi_exited := false, pi_exitstatus := 0xbaad, pi_signal := 0 }

/-- The table of `demo` after `pid_bootstrap`. -/
def demo_boot : PidState :=
  { pidinfo := [none, some demo_bootrec, none, none], nextpid := 2, nprocs := 1 }

/-- The table of `demo` after the boot process has allocated pid 2. -/
def demo_child : PidState :=
  { pidinfo := [none, some demo_bootrec, some ⟨2, 1, false, 0xbaad, 0⟩, none],
    nextpid := 3, nprocs := 2 }

/-- The table of `demo` after process 2 has then called `pid_exit(7, false)`. -/
def demo_exited_child : PidState :=
  { pidinfo := [none, some demo_bootrec, some ⟨2, 1, true, 7, 0⟩, none],
    nextpid := 3, nprocs := 2 }

/-- The table of `demo` after the boot process has then detached its live
child 2. -/
def demo_detached_child : PidState :=
  { pidinfo := [none, some demo_bootrec, some ⟨2, 0, false, 0xbaad, 0⟩, none],
    nextpid := 3, nprocs := 2 }

/-- The table of `demo` after the boot process has allocated pid 2 and
process 2 has allocated pid 3. -/
def demo_grandchild : PidState :=
  { pidinfo := [none, some demo_bootrec, some ⟨2, 1, false, 0xbaad, 0⟩,
      some ⟨3, 2, false, 0xbaad, 0⟩],
    nextpid := 4, nprocs := 3 }

/-- The table of `demo` after the detached process 2 has allocated pid 3. -/
def demo_detached_family : PidState :=
  { pidinfo := [none, some demo_bootrec, some ⟨2, 0, false, 0xbaad, 0⟩,
      some ⟨3, 2, false, 0xbaad, 0⟩],
    nextpid := 4, nprocs := 3 }

/-- The table of `demo` in which process 2 is detached and its child 3 has
called `pid_exit(5, false)`. -/
def demo_detached_parent : PidState :=
  { pidinfo := [none, some demo_bootrec, some ⟨2, 0, false, 0xbaad, 0⟩,
      some ⟨3, 2, true, 5, 0⟩],
    nextpid := 4, nprocs := 3 }

/-- The table of `demo` in which process 2 is detached and has two children:
3, which has called `pid_exit(5, false)`, and 4, which is running. -/
def demo_two_children : PidState :=
  { pidinfo := [some ⟨4, 2, false, 0xbaad, 0⟩, some demo_bootrec,
      some ⟨2, 0, false, 0xbaad, 0⟩, some ⟨3, 2, true, 5, 0⟩],
    nextpid := 5, nprocs := 4 }

/-- The further assumption that the pids `PID_MIN..PID_MAX` reach every slot:
there are at least `PROCS_MAX` of them. -/
def Consts.covers (c : Consts) : Prop :=
  (c.PROCS_MAX : Int) ≤ c.PID_MAX - c.PID_MIN + 1

instance (c : Consts) : Decidable c.covers := by unfold Consts.covers; infer_instance

/-- The pid the scan of `pid_alloc` looks at after `k` calls of `inc_nextpid`,
starting from the cursor `n`. -/
def candidate (c : Consts) (n : Int) : Nat → Int
  | 0 => n
  | k + 1 => inc_nextpid c (candidate c n k)

/-- The table of `demo` after the boot process has allocated pids 2 and 3. -/
def demo_siblings : PidState :=
  { pidinfo := [none, some demo_bootrec, some ⟨2, 1, false, 0xbaad, 0⟩,
      some ⟨3, 1, false, 0xbaad, 0⟩],
    nextpid := 4, nprocs := 3 }

/-- The table of `demo` after the boot process has allocated pids 2, 3 and 4:
every slot is taken. -/
def demo_full : PidState :=
  { pidinfo := [some ⟨4, 1, false, 0xbaad, 0⟩, some demo_bootrec,
      some ⟨2, 1, false, 0xbaad, 0⟩, some ⟨3, 1, false, 0xbaad, 0⟩],
    nextpid := 5, nprocs := 4 }

/-- The relation `AllocRun c s n s1`: the table `s1` results from `s` by `n` calls of
`pid_alloc` in a row, made by live processes, each granted storage and each
returning `0`. -/
inductive AllocRun (c : Consts) : PidState → Nat → PidState → Prop where
  | zero (s : PidState) : AllocRun c s 0 s
  | succ (s s1 : PidState) (n : Nat) (caller g : Int) (r : Ret) :
      AllocRun c s n s1 → Live c s1 caller → pid_alloc c s1 caller (some g) = .ok r →
      r.ret = 0 → AllocRun c s (n + 1) r.st

/-- The record `r` with `v` in its field `pi_signal`. -/
def pidinfo.with_signal (r : pidinfo) (v : Int) : pidinfo :=
  { r with pi_signal := v }

/-- The assumptions on the signal numbers: each of the nine that `pid_kill`
names is in `1..32`, `SIGCONT` is none of the other eight, and `SIGSTOP` is
at most 30, so that `1 << SIGSTOP` is defined. -/
def Consts.sig_wf (c : Consts) : Prop :=
  (1 ≤ c.SIGHUP ∧ c.SIGHUP ≤ 32) ∧ (1 ≤ c.SIGINT ∧ c.SIGINT ≤ 32) ∧
  (1 ≤ c.SIGQUIT ∧ c.SIGQUIT ≤ 32) ∧ (1 ≤ c.SIGKILL ∧ c.SIGKILL ≤ 32) ∧
  (1 ≤ c.SIGTERM ∧ c.SIGTERM ≤ 32) ∧ (1 ≤ c.SIGSTOP ∧ c.SIGSTOP ≤ 30) ∧
  (1 ≤ c.SIGCONT ∧ c.SIGCONT ≤ 32) ∧ (1 ≤ c.SIGWINCH ∧ c.SIGWINCH ≤ 32) ∧
  (1 ≤ c.SIGINFO ∧ c.SIGINFO ≤ 32) ∧
  c.SIGCONT ≠ c.SIGHUP ∧ c.SIGCONT ≠ c.SIGINT ∧ c.SIGCONT ≠ c.SIGQUIT ∧
  c.SIGCONT ≠ c.SIGKILL ∧ c.SIGCONT ≠ c.SIGTERM ∧ c.SIGCONT ≠ c.SIGSTOP ∧
  c.SIGCONT ≠ c.SIGWINCH ∧ c.SIGCONT ≠ c.SIGINFO

instance (c : Consts) : Decidable c.sig_wf := by unfold Consts.sig_wf; infer_instance

/-- The eight signals for which `pid_kill` sets `pi_signal`. -/
def Consts.marks (c : Consts) (sig : Int) : Prop :=
  sig = c.SIGSTOP ∨ sig = c.SIGWINCH ∨ sig = c.SIGHUP ∨ sig = c.SIGKILL ∨
  sig = c.SIGINT ∨ sig = c.SIGQUIT ∨ sig = c.SIGINFO ∨ sig = c.SIGTERM

instance (c : Consts) (sig : Int) : Decidable (c.marks sig) := by
  unfold Consts.marks; infer_instance

/-- One returning call of an operation of `pid.c`, made by any caller in any
table: `Step c s s1` says that the call found the table `s` and left `s1`. -/
inductive Step (c : Consts) : PidState → PidState → Prop where
  | alloc (s : PidState) (caller : Int) (mem : Option Int) (r : Ret) :
      pid_alloc c s caller mem = .ok r → Step c s r.st
  | unalloc (s : PidState) (caller theirpid : Int) (s1 : PidState) :
      pid_unalloc c s caller theirpid = .ok s1 → Step c s s1
  | detach (s : PidState) (caller childpid : Int) (r : Ret) :
      pid_detach c s caller childpid = .ok r → Step c s r.st
  | exit (s : PidState) (caller status : Int) (dodetach : Bool) (s1 : PidState) :
      pid_exit c s caller status dodetach = .ok s1 → Step c s s1
  | join (s : PidState) (caller targetpid : Int) (nn : Bool) (flags : Int) (j : JoinResult) :
      pid_join c s caller targetpid nn flags = .ok j → Step c s j.st
  | wait (s : PidState) (caller targetpid : Int) (nn : Bool) (flags : Int) (j : JoinResult) :
      pid_wait c s caller targetpid nn flags = .ok j → Step c s j.st
  | kill (s : PidState) (pid sig : Int) (r : Ret) :
      pid_kill c s pid sig = .ok r → Step c s r.st

/-- The relation between a table `s` and a later table `s1` in which no slot
has been filled: every record of `s1` was in the same slot of `s`, with the
same `pi_pid`, and with the same `pi_ppid` unless that is now `INVALID_PID`. -/
def Kept (c : Consts) (s s1 : PidState) : Prop :=
  ∀ (i : Nat) (r1 : pidinfo), s1.pidinfo[i]? = some (some r1) →
    ∃ r, s.pidinfo[i]? = some (some r) ∧ r1.pi_pid = r.pi_pid ∧
      (r1.pi_ppid = r.pi_ppid ∨ r1.pi_ppid = c.INVALID_PID)

/-- The table of `demo` after the detached process 2, which has the running
child 3, has called `pid_exit(7, false)`: the record of 2 has been reclaimed. -/
def demo_orphan : PidState :=
  { pidinfo := [none, some demo_bootrec, none, some ⟨3, 2, false, 0xbaad, 0⟩],
    nextpid := 4, nprocs := 2 }

/-- The table `demo_orphan` with the cursor at `n`. -/
def demo_orphan_at (n : Int) : PidState :=
  { pidinfo := [none, some demo_bootrec, none, some ⟨3, 2, false, 0xbaad, 0⟩],
    nextpid := n, nprocs := 2 }

/-- The table of `demo` once the cursor has gone round after `demo_orphan` and
the boot process has been given pid 2 for a new child. -/
def demo_reused : PidState :=
  { pidinfo := [none, some demo_bootrec, some ⟨2, 1, false, 0xbaad, 0⟩,
      some ⟨3, 2, false, 0xbaad, 0⟩],
    nextpid := 3, nprocs := 3 }

/-- The table `demo_orphan` after the boot process has been given pid `q` for a
new child. -/
def demo_orphan_alloc (q : Int) : PidState :=
  { pidinfo := [none, some demo_bootrec, none, some ⟨3, 2, false, 0xbaad, 0⟩].set (slot demo q)
      (some ⟨q, 1, false, 0xbaad, 0⟩),
    nextpid := inc_nextpid demo q, nprocs := 3 }

end Pid

/-!
# Open files and file tables (`kern/syscall/file.c`)

A shallow embedding of the open-file entries and of the file table of a
thread.

* A `struct openfiles *` is an index into `heap`, the objects that `kmalloc`
  has handed out for `struct openfiles`; a freed object is `none` there and
  `NULL` is `none` as a pointer.
* `file` is the array `curthread->t_filetable->file`, which the thread is taken
  to have; the table `duplicate_filetable` builds is a result of that function,
  and a thread that runs with it has it as `file`, over the same `heap`.
* `closed` lists the vnodes that have been passed to `vfs_close`, the latest
  last; vnodes are numbered.
* The constants `__OPEN_MAX`, `EBADF`, `EMFILE` and `ENOMEM` come from headers
  and are the fields of `Consts`.
* The fields `filename` and `file_lock` are not represented: no function of
  `file.c` reads the first, and every function that takes the lock releases it
  before it returns.
-/

namespace FileTable

/-- Header constants used by `file.c`. -/
structure Consts where
  OPEN_MAX : Nat
  EBADF : Int
  EMFILE : Int
  ENOMEM : Int

/-- Ways in which a function of `file.c` fails to return. -/
inductive Fault where
  | badIndex
  | dangling
  | nullDeref
  deriving DecidableEq, Repr

/-- The record `struct openfiles`. -/
structure openfiles where
  flag : Int
  offset : Int
  links : Int
  vn : Option Nat
  deriving DecidableEq, Repr

/-- The objects of type `struct openfiles`, the file table of the current
thread and the vnodes closed so far. -/
structure FileState where
  heap : List (Option openfiles)
  file : List (Option Nat)
  closed : List Nat
  deriving DecidableEq, Repr

/-- What an `int`-returning function hands back: the return value, the value
stored in `*retfd` (if one was stored) and the state. -/
structure Ret where
  ret : Int
  retfd : Option Int
  st : FileState
  deriving DecidableEq, Repr

/-- The function `check_fd`. -/
def check_fd (c : Consts) (fd : Int) : Int :=
  if fd < 0 ∨ fd ≥ (c.OPEN_MAX : Int) then c.EBADF else 0

/-- The loop of `insert_file` from index `i` on, with `n` indices still to
visit; `p` is the pointer `file`. -/
def insert_scan (c : Consts) (s : FileState) (p : Nat) : Nat → Nat → Except Fault Ret
  | 0, _ => .ok { ret := c.EMFILE, retfd := none, st := s }
  | n + 1, i =>
    match s.file[i]? with
    | none => .error .badIndex
    | some none =>
      .ok { ret := 0, retfd := some (i : Int), st := { s with file := s.file.set i (some p) } }
    | some (some _) => insert_scan c s p n (i + 1)

/-- The function `insert_file`. -/
def insert_file (c : Consts) (s : FileState) (p : Nat) : Except Fault Ret :=
  insert_scan c s p c.OPEN_MAX 0

/-- The state after `vfs_close(vn)`. -/
def FileState.vfs_close (s : FileState) (vn : Nat) : FileState :=
  { s with closed := s.closed ++ [vn] }

/-- The state after `kfree` of the object at `p`. -/
def FileState.kfree (s : FileState) (p : Nat) : FileState :=
  { s with heap := s.heap.set p none }

/-- The function `file_open`: `error` and `vn` are what `vfs_open` returns and
stores, `mem` says whether `kmalloc` succeeds and `lock` whether `lock_create`
does. -/
def file_open (c : Consts) (s : FileState) (flags : Int) (error : Int) (vn : Nat)
    (mem lock : Bool) : Except Fault Ret := do
  if error ≠ 0 then return { ret := error, retfd := none, st := s }
  if mem = false then return { ret := c.ENOMEM, retfd := none, st := s.vfs_close vn }
  let p := s.heap.length
  let file : openfiles := { flag := flags, offset := 0, links := 1, vn := some vn }
  let s1 : FileState := { s with heap := s.heap ++ [some file] }
  if lock = false then
    return { ret := c.ENOMEM, retfd := none, st := (s1.vfs_close vn).kfree p }
  let r ← insert_file c s1 p
  if r.ret ≠ 0 then
    return { ret := r.ret, retfd := none, st := (r.st.vfs_close vn).kfree p }
  return { ret := 0, retfd := r.retfd, st := r.st }

/-- The state after the `if (file->links < 0)` statement of `file_close`, run on
the object `f` at `p` whose `links` has just been decremented. -/
def release (s : FileState) (p : Nat) (f : openfiles) : FileState :=
  if f.links < 0 then
    match f.vn with
    | some v => (s.vfs_close v).kfree p
    | none => s.kfree p
  else { s with heap := s.heap.set p (some f) }

/-- The function `file_close`. -/
def file_close (c : Consts) (s : FileState) (fd : Int) : Except Fault Ret := do
  if check_fd c fd ≠ 0 then return { ret := check_fd c fd, retfd := none, st := s }
  if fd < 0 then throw .badIndex
  match s.file[fd.toNat]? with
  | none => throw .badIndex
  | some none => return { ret := c.EBADF, retfd := none, st := s }
  | some (some p) =>
    match s.heap[p]? with
    | none => throw .dangling
    | some none => throw .dangling
    | some (some f) =>
      let s1 := release s p { f with links := f.links - 1 }
      return { ret := 0, retfd := none, st := { s1 with file := s1.file.set fd.toNat none } }

/-- The loop of `duplicate_filetable` from index `i` on, with `n` indices still
to visit; `d` is the array `(*duplicate)->file`. -/
def duplicate_loop : Nat → Nat → FileState → List (Option Nat) →
    Except Fault (FileState × List (Option Nat))
  | 0, _, s, d => .ok (s, d)
  | n + 1, i, s, d =>
    match s.file[i]? with
    | none => .error .badIndex
    | some none => duplicate_loop n (i + 1) s (d.set i none)
    | some (some p) =>
      match s.heap[p]? with
      | some (some f) =>
        duplicate_loop n (i + 1)
          { s with heap := s.heap.set p (some { f with links := f.links + 1 }) }
          (d.set i (some p))
      | _ => .error .dangling

/-- The function `duplicate_filetable` for a thread that has a file table; `mem`
says whether `kmalloc` succeeds, and the second component of the result is the
table stored in `*duplicate`.  The test after `kmalloc` is on `duplicate`, which
is not `NULL`, so after a failed `kmalloc` the loop stores through `NULL`.  Every
entry of the new table is written by the loop, so what `kmalloc` left in it does
not matter. -/
def duplicate_filetable (c : Consts) (s : FileState) (mem : Bool) :
    Except Fault (Int × List (Option Nat) × FileState) := do
  if mem = false then
    if c.OPEN_MAX = 0 then return (0, [], s) else throw .nullDeref
  let r ← duplicate_loop c.OPEN_MAX 0 s (List.replicate c.OPEN_MAX none)
  return (0, r.2, r.1)

/-- A small instance of the constants, used to evaluate the functions. -/
def demo : Consts := { OPEN_MAX := 4, EBADF := 9, EMFILE := 24, ENOMEM := 3 }

/-- A thread of `demo` with no open file. -/
def demo_empty : FileState := { heap := [], file := [none, none, none, none], closed := [] }

/-- The state `demo_empty` after `file_open` of vnode 5 with flags 1: the entry,
with `links == 1`, is in descriptor 0. -/
def demo_open : FileState :=
  { heap := [some ⟨1, 0, 1, some 5⟩], file := [some 0, none, none, none], closed := [] }

/-- The state `demo_open` after `duplicate_filetable`: the entry has `links == 2`. -/
def demo_shared : FileState :=
  { heap := [some ⟨1, 0, 2, some 5⟩], file := [some 0, none, none, none], closed := [] }

end FileTable

namespace Pid

deriving instance DecidableEq for Except

/-! ## The table accessors -/

theorem slot_read_ok (c : Consts) (s : PidState) (pid : Int) (v : Option pidinfo) :
    slot_read c s pid = .ok v ↔ 0 ≤ pid ∧ s.pidinfo[slot c pid]? = some v := by
  unfold slot_read
  by_cases h : pid < 0
  · simp [h]
  · simp only [h, if_false]
    cases hs : s.pidinfo[slot c pid]? <;> simp
    omega

theorem slot_write_ok (c : Consts) (s : PidState) (pid : Int) (v : Option pidinfo)
    (s1 : PidState) :
    slot_write c s pid v = .ok s1 ↔
      0 ≤ pid ∧ slot c pid < s.pidinfo.length ∧
      s1 = { s with pidinfo := s.pidinfo.set (slot c pid) v } := by
  unfold slot_write
  by_cases h : pid < 0
  · simp [h]
  · by_cases h2 : slot c pid < s.pidinfo.length
    · simp only [h, h2, if_false, if_true, Except.ok.injEq]
      constructor
      · intro e; exact ⟨by omega, trivial, e.symm⟩
      · intro e; exact e.2.2.symm
    · simp [h, h2]

theorem pi_get_some (c : Consts) (s : PidState) (pid : Int) (r : pidinfo) :
    pi_get c s pid = .ok (some r) ↔
      0 ≤ pid ∧ pid ≠ c.INVALID_PID ∧ s.pidinfo[slot c pid]? = some (some r) ∧
      r.pi_pid = pid := by
  simp only [pi_get, bind, Except.bind, pure, Except.pure, throw, throwThe,
    MonadExceptOf.throw]
  by_cases h : pid < 0
  · simp [h]
  · by_cases h2 : pid = c.INVALID_PID
    · simp [h, h2]
    · simp only [h, h2, if_false]
      cases hs : slot_read c s pid with
      | error e =>
        have : ∀ v, ¬ (0 ≤ pid ∧ s.pidinfo[slot c pid]? = some v) := by
          intro v hv; rw [← slot_read_ok, hs] at hv; cases hv
        simp
        intro _ _ h3; exact absurd ⟨by omega, h3⟩ (this _)
      | ok v =>
        have hv := (slot_read_ok c s pid v).1 hs
        cases v with
        | none => simp [hv.2]
        | some q =>
          by_cases h3 : q.pi_pid = pid
          · simp [hv.2, h3]
            constructor
            · intro e; subst e; exact ⟨by omega, h2, rfl, h3⟩
            · intro e; exact e.2.2.1
          · simp [hv.2, h3]
            intro _ _ e; subst e; exact h3

theorem pi_get_none (c : Consts) (s : PidState) (pid : Int) :
    pi_get c s pid = .ok none ↔
      0 ≤ pid ∧ pid ≠ c.INVALID_PID ∧
      (s.pidinfo[slot c pid]? = some none ∨
        ∃ q, s.pidinfo[slot c pid]? = some (some q) ∧ q.pi_pid ≠ pid) := by
  simp only [pi_get, bind, Except.bind, pure, Except.pure, throw, throwThe,
    MonadExceptOf.throw]
  by_cases h : pid < 0
  · simp [h]
  · by_cases h2 : pid = c.INVALID_PID
    · simp [h, h2]
    · simp only [h, h2, if_false]
      cases hs : slot_read c s pid with
      | error e =>
        have : ∀ v, ¬ (0 ≤ pid ∧ s.pidinfo[slot c pid]? = some v) := by
          intro v hv; rw [← slot_read_ok, hs] at hv; cases hv
        simp
        intro h0 _
        constructor
        · intro h3; exact absurd ⟨h0, h3⟩ (this _)
        · intro q h3; exact absurd ⟨h0, h3⟩ (this _)
      | ok v =>
        have hv := (slot_read_ok c s pid v).1 hs
        cases v with
        | none => simp [hv.2, hv.1, h2]
        | some q =>
          by_cases h3 : q.pi_pid = pid
          · simp [hv.2, h3]
          · simp [hv.2, h3, hv.1, h2]

/-- A lookup of a non-negative pid other than `INVALID_PID` in a table with
a slot for it returns. -/
theorem pi_get_total (c : Consts) (s : PidState) (pid : Int) (h0 : 0 ≤ pid)
    (h1 : pid ≠ c.INVALID_PID) (h2 : slot c pid < s.pidinfo.length) :
    ∃ o, pi_get c s pid = .ok o := by
  have hlt : s.pidinfo[slot c pid]? = some (s.pidinfo[slot c pid]) := List.getElem?_eq_getElem h2
  cases hq : s.pidinfo[slot c pid] with
  | none =>
    exact ⟨none, (pi_get_none c s pid).2 ⟨h0, h1, Or.inl (by rw [hlt, hq])⟩⟩
  | some q =>
    by_cases h3 : q.pi_pid = pid
    · exact ⟨some q, (pi_get_some c s pid q).2 ⟨h0, h1, by rw [hlt, hq], h3⟩⟩
    · exact ⟨none, (pi_get_none c s pid).2 ⟨h0, h1, Or.inr ⟨q, by rw [hlt, hq], h3⟩⟩⟩

theorem pi_drop_ok (c : Consts) (s : PidState) (pid : Int) (s1 : PidState) :
    pi_drop c s pid = .ok s1 ↔
      ∃ r, 0 ≤ pid ∧ s.pidinfo[slot c pid]? = some (some r) ∧ r.pi_pid = pid ∧
        r.pi_exited = true ∧ r.pi_ppid = c.INVALID_PID ∧
        s1 = { s with pidinfo := s.pidinfo.set (slot c pid) none, nprocs := s.nprocs - 1 } := by
  simp only [pi_drop, bind, Except.bind, pure, Except.pure, throw, throwThe,
    MonadExceptOf.throw, pidinfo_destroy]
  cases hs : slot_read c s pid with
  | error e =>
    have : ∀ v, ¬ (0 ≤ pid ∧ s.pidinfo[slot c pid]? = some v) := by
      intro v hv; rw [← slot_read_ok, hs] at hv; cases hv
    constructor
    · intro h; simp at h
    · rintro ⟨r, h0, h3, _⟩; exact absurd ⟨h0, h3⟩ (this _)
  | ok v =>
    have hv := (slot_read_ok c s pid v).1 hs
    have hlen : slot c pid < s.pidinfo.length := by
      have := hv.2
      exact (List.getElem?_eq_some_iff.1 this).1
    cases v with
    | none => simp [hv.2]
    | some q =>
      have hw : slot_write c s pid none =
          .ok { s with pidinfo := s.pidinfo.set (slot c pid) none } :=
        (slot_write_ok c s pid none _).2 ⟨hv.1, hlen, rfl⟩
      by_cases h3 : q.pi_pid = pid
      · by_cases h4 : q.pi_exited = true
        · by_cases h5 : q.pi_ppid = c.INVALID_PID
          · simp [hv.2, hv.1, h3, h4, h5, hw]
            constructor
            · intro e; exact e.symm
            · intro e; exact e.symm
          · simp [hv.2, h3, h4, h5]
        · simp [hv.2, h3, h4]
      · simp [hv.2, h3]

theorem pi_drop_kassert (c : Consts) (s : PidState) (pid : Int) (r : pidinfo)
    (h0 : 0 ≤ pid) (hs : s.pidinfo[slot c pid]? = some (some r))
    (hbad : r.pi_pid ≠ pid ∨ r.pi_exited = false ∨ r.pi_ppid ≠ c.INVALID_PID) :
    pi_drop c s pid = .error .kassert := by
  have hr : slot_read c s pid = .ok (some r) := (slot_read_ok c s pid _).2 ⟨h0, hs⟩
  simp only [pi_drop, bind, Except.bind, pure, Except.pure, throw, throwThe,
    MonadExceptOf.throw, pidinfo_destroy, hr]
  by_cases h3 : r.pi_pid = pid
  · by_cases h4 : r.pi_exited = true
    · by_cases h5 : r.pi_ppid = c.INVALID_PID
      · simp [h3, h4, h5] at hbad
      · simp [h3, h4, h5]
    · simp [h3, h4]
  · simp [h3]

/-! ## The invariant under the three kinds of slot update -/

theorem getElem?_lt {α : Type} {l : List α} {i : Nat} {a : α} (h : l[i]? = some a) :
    i < l.length := (List.getElem?_eq_some_iff.1 h).1

theorem occupied_set_some (l : List (Option pidinfo)) (i : Nat) (r r1 : pidinfo)
    (h : l[i]? = some (some r)) :
    (l.set i (some r1)).countP Option.isSome = l.countP Option.isSome := by
  have hlt := getElem?_lt h
  have hi : l[i] = some r := (List.getElem?_eq_some_iff.1 h).2
  have hpos : 0 < l.countP Option.isSome :=
    List.countP_pos_iff.2 ⟨some r, by rw [← hi]; exact List.getElem_mem hlt, rfl⟩
  rw [List.countP_set _ _ _ _ hlt, hi]
  simp
  omega

theorem occupied_set_none (l : List (Option pidinfo)) (i : Nat) (r : pidinfo)
    (h : l[i]? = some (some r)) :
    ((l.set i none).countP Option.isSome : Int) = (l.countP Option.isSome : Int) - 1 := by
  have hlt := getElem?_lt h
  have hi : l[i] = some r := (List.getElem?_eq_some_iff.1 h).2
  have hpos : 0 < l.countP Option.isSome :=
    List.countP_pos_iff.2 ⟨some r, by rw [← hi]; exact List.getElem_mem hlt, rfl⟩
  rw [List.countP_set _ _ _ _ hlt, hi]
  simp
  omega

theorem occupied_set_new (l : List (Option pidinfo)) (i : Nat) (r1 : pidinfo)
    (h : l[i]? = some none) :
    (l.set i (some r1)).countP Option.isSome = l.countP Option.isSome + 1 := by
  have hlt := getElem?_lt h
  have hi : l[i] = none := (List.getElem?_eq_some_iff.1 h).2
  rw [List.countP_set _ _ _ _ hlt, hi]
  simp

theorem Inv.set_some {c : Consts} {s : PidState} (hI : Inv c s) (i : Nat) (r r1 : pidinfo)
    (h : s.pidinfo[i]? = some (some r)) (hr : RecOk c i r1) :
    Inv c { s with pidinfo := s.pidinfo.set i (some r1) } := by
  refine ⟨by simpa using hI.len, ?_, hI.cursor, ?_⟩
  · intro j q hq
    simp only [List.getElem?_set] at hq
    by_cases hij : i = j
    · subst hij
      simp only [if_true, getElem?_lt h] at hq
      cases hq; exact hr
    · simp only [hij, if_false] at hq
      exact hI.recs j q hq
  · simp only [occupied, occupied_set_some _ _ _ _ h]
    exact hI.count

theorem Inv.set_none {c : Consts} {s : PidState} (hI : Inv c s) (i : Nat) (r : pidinfo)
    (h : s.pidinfo[i]? = some (some r)) :
    Inv c { s with pidinfo := s.pidinfo.set i none, nprocs := s.nprocs - 1 } := by
  refine ⟨by simpa using hI.len, ?_, hI.cursor, ?_⟩
  · intro j q hq
    simp only [List.getElem?_set] at hq
    by_cases hij : i = j
    · subst hij
      simp only [if_true, getElem?_lt h] at hq
      cases hq
    · simp only [hij, if_false] at hq
      exact hI.recs j q hq
  · simp only [occupied, occupied_set_none _ _ _ h]
    rw [hI.count]; rfl

theorem Inv.put {c : Consts} {s : PidState} (hI : Inv c s) (i : Nat) (r1 : pidinfo)
    (h : s.pidinfo[i]? = some none) (hr : RecOk c i r1) (n : Int)
    (hn : c.PID_MIN ≤ n ∧ n ≤ c.PID_MAX) :
    Inv c { pidinfo := s.pidinfo.set i (some r1), nextpid := n, nprocs := s.nprocs + 1 } := by
  refine ⟨by simpa using hI.len, ?_, hn, ?_⟩
  · intro j q hq
    simp only [List.getElem?_set] at hq
    by_cases hij : i = j
    · subst hij
      simp only [if_true, getElem?_lt h] at hq
      cases hq; exact hr
    · simp only [hij, if_false] at hq
      exact hI.recs j q hq
  · simp only [occupied, occupied_set_new _ _ _ h]
    rw [hI.count]; simp [occupied]

/-- A lookup only reads the slot of the pid it is given. -/
theorem pi_get_congr (c : Consts) (s1 s2 : PidState) (pid : Int)
    (h : s1.pidinfo[slot c pid]? = s2.pidinfo[slot c pid]?) :
    pi_get c s1 pid = pi_get c s2 pid := by
  simp only [pi_get, slot_read, h]

theorem pi_get_store_other (c : Consts) (s : PidState) (i : Nat) (v : Option pidinfo)
    (pid : Int) (h : slot c pid ≠ i) :
    pi_get c (s.store i v) pid = pi_get c s pid := by
  apply pi_get_congr
  simp only [PidState.store]
  exact List.getElem?_set_ne (Ne.symm h)

theorem pi_get_reclaim_other (c : Consts) (s : PidState) (i : Nat)
    (pid : Int) (h : slot c pid ≠ i) :
    pi_get c (s.reclaim i) pid = pi_get c s pid := by
  apply pi_get_congr
  simp only [PidState.reclaim]
  exact List.getElem?_set_ne (Ne.symm h)

theorem pi_get_reclaim_self (c : Consts) (s : PidState) (pid : Int) (h0 : 0 ≤ pid)
    (h1 : pid ≠ c.INVALID_PID) (hlen : slot c pid < s.pidinfo.length) :
    pi_get c (s.reclaim (slot c pid)) pid = .ok none := by
  rw [pi_get_none]
  refine ⟨h0, h1, Or.inl ?_⟩
  simp only [PidState.reclaim]
  exact List.getElem?_set_self hlen

theorem pi_get_store_self (c : Consts) (s : PidState) (pid : Int) (q : pidinfo) (h0 : 0 ≤ pid)
    (h1 : pid ≠ c.INVALID_PID) (hlen : slot c pid < s.pidinfo.length) (hq : q.pi_pid = pid) :
    pi_get c (s.store (slot c pid) (some q)) pid = .ok (some q) := by
  rw [pi_get_some]
  refine ⟨h0, h1, ?_, hq⟩
  simp only [PidState.store]
  exact List.getElem?_set_self hlen

/-! ## Identifiers that `pi_get` does not accept -/

/-- The first assertion of `pi_get` fails on a negative pid. -/
theorem pi_get_negative (c : Consts) (s : PidState) (pid : Int) (h : pid < 0) :
    pi_get c s pid = .error .kassert := by
  simp only [pi_get, bind, Except.bind, throw, throwThe, MonadExceptOf.throw, pure,
    Except.pure, h, if_true]

/-- The function `pid_detach` hands a negative `childpid` other than the two reserved
pids to `pi_get`, whose assertion fails. -/
theorem pid_detach_negative (c : Consts) (s : PidState) (caller childpid : Int)
    (h : ¬ (childpid = c.INVALID_PID ∨ childpid = c.BOOTUP_PID)) (hneg : childpid < 0) :
    pid_detach c s caller childpid = .error .kassert := by
  simp only [pid_detach, bind, Except.bind, pure, Except.pure, h, if_false,
    pi_get_negative c s childpid hneg]

/-- The function `pid_join` hands a negative `targetpid` other than the two reserved
pids to `pi_get`, whose assertion fails. -/
theorem pid_join_negative (c : Consts) (s : PidState) (caller targetpid : Int) (nn : Bool)
    (flags : Int) (h : ¬ (targetpid = c.INVALID_PID ∨ targetpid = c.BOOTUP_PID))
    (hneg : targetpid < 0) :
    pid_join c s caller targetpid nn flags = .error .kassert := by
  simp only [pid_join, bind, Except.bind, pure, Except.pure, h, if_false,
    pi_get_negative c s targetpid hneg]

/-! ## `pid_detach` case by case -/

theorem pid_detach_sentinel (c : Consts) (s : PidState) (caller childpid : Int)
    (h : childpid = c.INVALID_PID ∨ childpid = c.BOOTUP_PID) :
    pid_detach c s caller childpid = .ok { ret := -c.EINVAL, out := none, st := s } := by
  simp only [pid_detach, bind, Except.bind, pure, Except.pure, h, if_true]

theorem pid_detach_notfound (c : Consts) (s : PidState) (caller childpid : Int)
    (h : ¬ (childpid = c.INVALID_PID ∨ childpid = c.BOOTUP_PID))
    (hpi : pi_get c s childpid = .ok none) (x : Option pidinfo)
    (hcur : pi_get c s caller = .ok x) :
    pid_detach c s caller childpid = .ok { ret := -c.ESRCH, out := none, st := s } := by
  simp only [pid_detach, bind, Except.bind, pure, Except.pure, h, if_false, hpi, hcur]

theorem pid_detach_detached (c : Consts) (s : PidState) (caller childpid : Int)
    (h : ¬ (childpid = c.INVALID_PID ∨ childpid = c.BOOTUP_PID))
    (r : pidinfo) (hpi : pi_get c s childpid = .ok (some r)) (x : Option pidinfo)
    (hcur : pi_get c s caller = .ok x) (hd : r.pi_ppid = c.INVALID_PID) :
    pid_detach c s caller childpid = .ok { ret := -c.EINVAL, out := none, st := s } := by
  simp only [pid_detach, bind, Except.bind, pure, Except.pure, h, if_false, hpi, hcur, hd,
    if_true]

/-- The result of `pid_detach` on a child whose record `r` is in the table,
for a caller whose record is in the table. -/
theorem pid_detach_found (c : Consts) (s : PidState) (caller childpid : Int)
    (h : ¬ (childpid = c.INVALID_PID ∨ childpid = c.BOOTUP_PID))
    (r cur : pidinfo)
    (hpi : pi_get c s childpid = .ok (some r))
    (hcur : pi_get c s caller = .ok (some cur)) :
    pid_detach c s caller childpid = .ok
      (if r.pi_ppid = c.INVALID_PID then { ret := -c.EINVAL, out := none, st := s }
       else if caller ≠ r.pi_ppid then { ret := -c.EINVAL, out := none, st := s }
       else if r.pi_exited = true then
         { ret := 0, out := none, st := s.reclaim (slot c childpid) }
       else
         { ret := 0, out := none, st := s.store (slot c childpid) (some (r.detached c)) }) := by
  obtain ⟨h0, _, hs, hp⟩ := (pi_get_some c s childpid r).1 hpi
  obtain ⟨_, _, _, hcp⟩ := (pi_get_some c s caller cur).1 hcur
  have hlen := getElem?_lt hs
  simp only [pid_detach, bind, Except.bind, pure, Except.pure, h, if_false, hpi, hcur]
  by_cases h1 : r.pi_ppid = c.INVALID_PID
  · simp only [h1, if_true]
  · simp only [h1, if_false, hcp]
    by_cases h2 : caller = r.pi_ppid
    · have hw : slot_write c s childpid (some { r with pi_ppid := c.INVALID_PID }) =
          .ok (s.store (slot c childpid) (some (r.detached c))) :=
        (slot_write_ok c s childpid _ _).2 ⟨h0, hlen, rfl⟩
      simp only [h2, ne_eq, not_true_eq_false, if_false, hw]
      by_cases h3 : r.pi_exited = true
      · have hd : pi_drop c (s.store (slot c childpid) (some (r.detached c))) r.pi_pid =
            .ok (s.reclaim (slot c childpid)) := by
          rw [pi_drop_ok]
          refine ⟨r.detached c, by rw [hp]; exact h0, ?_, rfl, h3, rfl, ?_⟩
          · rw [hp]; simp [PidState.store, List.getElem?_set_self hlen]
          · rw [hp]; simp [PidState.store, PidState.reclaim, List.set_set]
        simp only [h3, if_true, hd]
      · simp [h3]
    · simp only [ne_eq, h2, not_false_eq_true, if_true]

/-- What a call of `pid_detach` that returns `0` was given. -/
theorem pid_detach_success (c : Consts) (hc : c.wf) (s : PidState) (caller childpid : Int)
    (r1 : Ret) (h : pid_detach c s caller childpid = .ok r1) (h0 : r1.ret = 0) :
    ¬ (childpid = c.INVALID_PID ∨ childpid = c.BOOTUP_PID) ∧
    ∃ r cur, pi_get c s childpid = .ok (some r) ∧ pi_get c s caller = .ok (some cur) ∧
      r.pi_ppid ≠ c.INVALID_PID ∧ caller = r.pi_ppid := by
  obtain ⟨_, _, _, _, _, _, _, _, hE, hS, _⟩ := hc
  by_cases hs : childpid = c.INVALID_PID ∨ childpid = c.BOOTUP_PID
  · rw [pid_detach_sentinel c s caller childpid hs] at h
    cases h; simp at h0; omega
  · refine ⟨hs, ?_⟩
    cases hpi : pi_get c s childpid with
    | error e =>
      simp [pid_detach, bind, Except.bind, pure, Except.pure, hs, hpi] at h
    | ok pi =>
      cases hcur : pi_get c s caller with
      | error e =>
        simp [pid_detach, bind, Except.bind, pure, Except.pure, hs, hpi, hcur] at h
      | ok x =>
        cases pi with
        | none =>
          rw [pid_detach_notfound c s caller childpid hs hpi x hcur] at h
          cases h; simp at h0; omega
        | some r =>
          cases x with
          | none =>
            by_cases h1 : r.pi_ppid = c.INVALID_PID
            · simp [pid_detach, bind, Except.bind, pure, Except.pure, hs, hpi, hcur, h1] at h
              subst h; simp at h0; omega
            · simp [pid_detach, bind, Except.bind, pure, Except.pure, hs, hpi, hcur, h1,
                throw, throwThe, MonadExceptOf.throw] at h
          | some cur =>
            rw [pid_detach_found c s caller childpid hs r cur hpi hcur] at h
            by_cases h1 : r.pi_ppid = c.INVALID_PID
            · simp [h1] at h; subst h; simp at h0; omega
            · by_cases h2 : caller = r.pi_ppid
              · exact ⟨r, cur, rfl, rfl, h1, h2⟩
              · simp [h1, h2] at h; subst h; simp at h0; omega

/-! ## `pid_alloc` -/

theorem inc_nextpid_range (c : Consts) (n : Int) (hmin : c.PID_MIN ≤ c.PID_MAX)
    (h : c.PID_MIN ≤ n ∧ n ≤ c.PID_MAX) :
    c.PID_MIN ≤ inc_nextpid c n ∧ inc_nextpid c n ≤ c.PID_MAX := by
  unfold inc_nextpid
  split <;> omega

/-- The cursor the scan stops at: either where it stood, or further on. -/
theorem alloc_scan_step (c : Consts) (s : PidState) (budget : Nat) (n q : Int)
    (h : alloc_scan c s budget n = .ok q) :
    (0 ≤ n ∧ s.pidinfo[slot c n]? = some none ∧ q = n) ∨
    (∃ b, budget = b + 1 ∧ alloc_scan c s b (inc_nextpid c n) = .ok q) := by
  cases budget with
  | zero =>
    simp only [alloc_scan, bind, Except.bind, pure, Except.pure, throw, throwThe,
      MonadExceptOf.throw] at h
    cases hs : slot_read c s n with
    | error e => simp [hs] at h
    | ok v =>
      cases v with
      | none =>
        simp [hs] at h
        have := (slot_read_ok c s n none).1 hs
        exact Or.inl ⟨this.1, this.2, h.symm⟩
      | some x => simp [hs] at h
  | succ b =>
    simp only [alloc_scan, bind, Except.bind, pure, Except.pure] at h
    cases hs : slot_read c s n with
    | error e => simp [hs] at h
    | ok v =>
      cases v with
      | none =>
        simp [hs] at h
        have := (slot_read_ok c s n none).1 hs
        exact Or.inl ⟨this.1, this.2, h.symm⟩
      | some x =>
        simp [hs] at h
        exact Or.inr ⟨b, rfl, h⟩

/-- A candidate the scan settles on has an empty slot. -/
theorem alloc_scan_empty (c : Consts) (s : PidState) :
    ∀ (budget : Nat) (n q : Int), alloc_scan c s budget n = .ok q →
      0 ≤ q ∧ s.pidinfo[slot c q]? = some none := by
  intro budget
  induction budget with
  | zero =>
    intro n q h
    rcases alloc_scan_step c s 0 n q h with ⟨h0, hs, e⟩ | ⟨b, hb, _⟩
    · subst e; exact ⟨h0, hs⟩
    · omega
  | succ b ih =>
    intro n q h
    rcases alloc_scan_step c s (b + 1) n q h with ⟨h0, hs, e⟩ | ⟨b1, hb, h1⟩
    · subst e; exact ⟨h0, hs⟩
    · have : b1 = b := by omega
      subst this
      exact ih _ _ h1

/-- A candidate the scan settles on is in `PID_MIN..PID_MAX` when the
cursor was. -/
theorem alloc_scan_range (c : Consts) (s : PidState) (hmin : c.PID_MIN ≤ c.PID_MAX) :
    ∀ (budget : Nat) (n q : Int), alloc_scan c s budget n = .ok q →
      (c.PID_MIN ≤ n ∧ n ≤ c.PID_MAX) → (c.PID_MIN ≤ q ∧ q ≤ c.PID_MAX) := by
  intro budget
  induction budget with
  | zero =>
    intro n q h hr
    rcases alloc_scan_step c s 0 n q h with ⟨_, _, e⟩ | ⟨b, hb, _⟩
    · subst e; exact hr
    · omega
  | succ b ih =>
    intro n q h hr
    rcases alloc_scan_step c s (b + 1) n q h with ⟨_, _, e⟩ | ⟨b1, hb, h1⟩
    · subst e; exact hr
    · have : b1 = b := by omega
      subst this
      exact ih _ _ h1 (inc_nextpid_range c n hmin hr)

/-- The three ways in which `pid_alloc` returns. -/
theorem pid_alloc_ok (c : Consts) (s : PidState) (caller : Int) (mem : Option Int) (r : Ret)
    (h : pid_alloc c s caller mem = .ok r) :
    caller ≠ c.INVALID_PID ∧
    ((s.nprocs = (c.PROCS_MAX : Int) ∧ r = { ret := c.EAGAIN, out := none, st := s }) ∨
     (s.nprocs ≠ (c.PROCS_MAX : Int) ∧ ∃ q, alloc_scan c s (c.PROCS_MAX * 2 + 5) s.nextpid = .ok q ∧
        q ≠ c.INVALID_PID ∧
        ((mem = none ∧ r = { ret := c.ENOMEM, out := none, st := { s with nextpid := q } }) ∨
         (∃ g, mem = some g ∧
            r = { ret := 0, out := some q,
                  st := { pidinfo := s.pidinfo.set (slot c q) (some ⟨q, caller, false, 0xbaad, g⟩),
                          nextpid := inc_nextpid c q,
                          nprocs := s.nprocs + 1 } })))) := by
  simp only [pid_alloc, bind, Except.bind, pure, Except.pure, throw, throwThe,
    MonadExceptOf.throw] at h
  by_cases hc : caller = c.INVALID_PID
  · simp [hc] at h
  · refine ⟨hc, ?_⟩
    by_cases hn : s.nprocs = (c.PROCS_MAX : Int)
    · simp [hc, hn] at h
      exact Or.inl ⟨hn, h.symm⟩
    · refine Or.inr ⟨hn, ?_⟩
      cases hscan : alloc_scan c s (c.PROCS_MAX * 2 + 5) s.nextpid with
      | error e => simp [hc, hn, hscan] at h
      | ok q =>
        have hq := alloc_scan_empty c s _ _ _ hscan
        refine ⟨q, rfl, ?_⟩
        by_cases hqi : q = c.INVALID_PID
        · simp [hc, hn, hscan, pidinfo_create, hqi] at h
        · refine ⟨hqi, ?_⟩
          cases mem with
          | none =>
            simp [hc, hn, hscan, pidinfo_create, hqi] at h
            exact Or.inl ⟨rfl, h.symm⟩
          | some g =>
            refine Or.inr ⟨g, rfl, ?_⟩
            have hr : slot_read c { s with nextpid := q } q = .ok none :=
              (slot_read_ok c _ q none).2 hq
            have hw : slot_write c { s with nextpid := q } q (some ⟨q, caller, false, 0xbaad, g⟩) =
                .ok { pidinfo := s.pidinfo.set (slot c q) (some ⟨q, caller, false, 0xbaad, g⟩),
                      nextpid := q, nprocs := s.nprocs } :=
              (slot_write_ok c _ q _ _).2 ⟨hq.1, getElem?_lt hq.2, rfl⟩
            simp [hc, hn, hscan, pidinfo_create, hqi, pi_put, bind, Except.bind, pure,
              Except.pure, hr, hw] at h
            exact h.symm

/-! ## The other operations, as changes of the table -/

/-- A returning `pid_detach` leaves the table alone or detaches the record
of `childpid`. -/
theorem pid_detach_state (c : Consts) (s : PidState) (caller childpid : Int) (r1 : Ret)
    (h : pid_detach c s caller childpid = .ok r1) :
    r1.st = s ∨
    ∃ r, pi_get c s childpid = .ok (some r) ∧ r.pi_ppid ≠ c.INVALID_PID ∧ caller = r.pi_ppid ∧
      r1.st = (if r.pi_exited = true then s.reclaim (slot c childpid)
               else s.store (slot c childpid) (some (r.detached c))) := by
  by_cases hs : childpid = c.INVALID_PID ∨ childpid = c.BOOTUP_PID
  · rw [pid_detach_sentinel c s caller childpid hs] at h
    cases h; exact Or.inl rfl
  · cases hpi : pi_get c s childpid with
    | error e =>
      simp [pid_detach, bind, Except.bind, pure, Except.pure, hs, hpi] at h
    | ok pi =>
      cases hcur : pi_get c s caller with
      | error e =>
        simp [pid_detach, bind, Except.bind, pure, Except.pure, hs, hpi, hcur] at h
      | ok x =>
        cases pi with
        | none =>
          rw [pid_detach_notfound c s caller childpid hs hpi x hcur] at h
          cases h; exact Or.inl rfl
        | some r =>
          by_cases h1 : r.pi_ppid = c.INVALID_PID
          · rw [pid_detach_detached c s caller childpid hs r hpi x hcur h1] at h
            cases h; exact Or.inl rfl
          · cases x with
            | none =>
              simp [pid_detach, bind, Except.bind, pure, Except.pure, hs, hpi, hcur, h1,
                throw, throwThe, MonadExceptOf.throw] at h
            | some cur =>
              rw [pid_detach_found c s caller childpid hs r cur hpi hcur] at h
              by_cases h2 : caller = r.pi_ppid
              · refine Or.inr ⟨r, rfl, h1, h2, ?_⟩
                simp only [h1, if_false, ne_eq, h2, not_true_eq_false, Except.ok.injEq] at h
                subst h
                by_cases h3 : r.pi_exited = true
                · simp [h3]
                · simp [h3]
              · simp [h1, h2] at h; subst h; exact Or.inl rfl

/-- A returning `pid_unalloc` removes the record of `theirpid`. -/
theorem pid_unalloc_ok (c : Consts) (s : PidState) (caller theirpid : Int) (s1 : PidState)
    (h : pid_unalloc c s caller theirpid = .ok s1) :
    (c.PID_MIN ≤ theirpid ∧ theirpid ≤ c.PID_MAX) ∧
    ∃ r, pi_get c s theirpid = .ok (some r) ∧ r.pi_exited = false ∧ r.pi_ppid = caller ∧
      s1 = s.reclaim (slot c theirpid) := by
  simp only [pid_unalloc, bind, Except.bind, pure, Except.pure, throw, throwThe,
    MonadExceptOf.throw] at h
  by_cases hr : theirpid ≥ c.PID_MIN ∧ theirpid ≤ c.PID_MAX
  · refine ⟨⟨hr.1, hr.2⟩, ?_⟩
    cases hpi : pi_get c s theirpid with
    | error e => simp [hr, hpi] at h
    | ok o =>
      cases o with
      | none => simp [hr, hpi] at h
      | some r =>
        obtain ⟨h0, hne, hs, hp⟩ := (pi_get_some c s theirpid r).1 hpi
        have hlen := getElem?_lt hs
        by_cases he : r.pi_exited = false
        · by_cases hpp : r.pi_ppid = caller
          · refine ⟨r, rfl, he, hpp, ?_⟩
            have hw : slot_write c s theirpid
                (some { r with pi_exitstatus := 0xdead, pi_exited := true,
                               pi_ppid := c.INVALID_PID }) =
                .ok (s.store (slot c theirpid)
                  (some { r with pi_exitstatus := 0xdead, pi_exited := true,
                                 pi_ppid := c.INVALID_PID })) :=
              (slot_write_ok c s theirpid _ _).2 ⟨h0, hlen, rfl⟩
            have hd : pi_drop c (s.store (slot c theirpid)
                  (some { r with pi_exitstatus := 0xdead, pi_exited := true,
                                 pi_ppid := c.INVALID_PID })) theirpid =
                .ok (s.reclaim (slot c theirpid)) := by
              rw [pi_drop_ok]
              refine ⟨{ r with pi_exitstatus := 0xdead, pi_exited := true,
                               pi_ppid := c.INVALID_PID }, h0, ?_, hp, rfl, rfl, ?_⟩
              · simp [PidState.store, List.getElem?_set_self hlen]
              · simp [PidState.store, PidState.reclaim, List.set_set]
            simp only [hr, hpi, he, hpp, hw, hd] at h
            simp at h
            exact h.symm
          · simp [hr, hpi, he, hpp] at h
        · simp [hr, hpi, he] at h
  · simp [hr] at h

/-- A returning `pid_join` returns the table as it found it. -/
theorem pid_join_st (c : Consts) (s : PidState) (caller targetpid : Int) (nn : Bool)
    (flags : Int) (j : JoinResult) (h : pid_join c s caller targetpid nn flags = .ok j) :
    j.st = s := by
  simp only [pid_join, bind, Except.bind, pure, Except.pure, throw, throwThe,
    MonadExceptOf.throw] at h
  split at h
  · cases h; rfl
  · split at h
    · cases h
    · split at h
      · cases h
      · split at h
        · cases h; rfl
        · split at h
          · cases h; rfl
          · split at h
            · cases h
            · split at h
              · cases h; rfl
              · split at h
                · split at h
                  · cases h; rfl
                  · cases h; rfl
                · cases h; rfl

/-- A returning `pid_wait` returns the table as it found it. -/
theorem pid_wait_st (c : Consts) (s : PidState) (caller targetpid : Int) (nn : Bool)
    (flags : Int) (j : JoinResult) (h : pid_wait c s caller targetpid nn flags = .ok j) :
    j.st = s := by
  simp only [pid_wait, bind, Except.bind, pure, Except.pure, throw, throwThe,
    MonadExceptOf.throw] at h
  split at h
  · cases h; rfl
  · split at h
    · cases h
    · split at h
      · cases h
      · split at h
        · cases h; rfl
        · exact pid_join_st c s caller targetpid nn flags j h

/-- A returning `pid_kill` leaves the table alone or rewrites the field
`pi_signal` of the target's record. -/
theorem pid_kill_state (c : Consts) (s : PidState) (pid sig : Int) (r1 : Ret)
    (h : pid_kill c s pid sig = .ok r1) :
    r1.st = s ∨
    ∃ r v, pi_get c s pid = .ok (some r) ∧
      r1.st = s.store (slot c pid) (some { r with pi_signal := v }) := by
  cases hpi : pi_get c s pid with
  | error e => simp [pid_kill, bind, Except.bind, hpi] at h
  | ok o =>
    cases o with
    | none =>
      simp [pid_kill, bind, Except.bind, pure, Except.pure, hpi] at h
      subst h; exact Or.inl rfl
    | some r =>
      obtain ⟨h0, hne, hs, hp⟩ := (pi_get_some c s pid r).1 hpi
      have hlen := getElem?_lt hs
      have hw : ∀ v, slot_write c s pid (some { r with pi_signal := v }) =
          .ok (s.store (slot c pid) (some { r with pi_signal := v })) :=
        fun v => (slot_write_ok c s pid _ _).2 ⟨h0, hlen, rfl⟩
      simp only [pid_kill, bind, Except.bind, pure, Except.pure, hpi, pi_unset_signal,
        throw, throwThe, MonadExceptOf.throw] at h
      split at h
      · cases h; exact Or.inl rfl
      · split at h
        · cases h; exact Or.inl rfl
        · split at h
          · split at h
            · cases h
            · rename_i heq
              split at heq
              · cases heq
              · rw [hw] at heq
                cases heq; cases h
                exact Or.inr ⟨r, _, rfl, rfl⟩
          · split at h
            · rw [hw] at h
              cases h
              exact Or.inr ⟨r, _, rfl, rfl⟩
            · cases h; exact Or.inl rfl

/-- The table `pid_bootstrap` builds. -/
theorem pid_bootstrap_ok (c : Consts) (g : Int) (s : PidState)
    (h : pid_bootstrap c (some g) = .ok s) :
    c.BOOTUP_PID ≠ c.INVALID_PID ∧ 0 ≤ c.BOOTUP_PID ∧ c.BOOTUP_PID < (c.PROCS_MAX : Int) ∧
    s = { pidinfo := (List.replicate c.PROCS_MAX none).set c.BOOTUP_PID.toNat
            (some ⟨c.BOOTUP_PID, c.INVALID_PID, false, 0xbaad, g⟩),
          nextpid := c.PID_MIN, nprocs := 1 } := by
  simp only [pid_bootstrap, pidinfo_create, bind, Except.bind, pure, Except.pure, throw,
    throwThe, MonadExceptOf.throw] at h
  by_cases h1 : c.BOOTUP_PID = c.INVALID_PID
  · simp [h1] at h
  · by_cases h2 : c.BOOTUP_PID < 0 ∨ (c.PROCS_MAX : Int) ≤ c.BOOTUP_PID
    · simp [h1, h2] at h
    · simp [h1, h2] at h
      refine ⟨h1, by omega, by omega, h.symm⟩

/-! ## Every operation keeps the invariant -/

theorem Inv.store_some {c : Consts} {s : PidState} (hI : Inv c s) (i : Nat) (r r1 : pidinfo)
    (h : s.pidinfo[i]? = some (some r)) (hr : RecOk c i r1) :
    Inv c (s.store i (some r1)) := hI.set_some i r r1 h hr

theorem Inv.reclaim {c : Consts} {s : PidState} (hI : Inv c s) (i : Nat) (r : pidinfo)
    (h : s.pidinfo[i]? = some (some r)) :
    Inv c (s.reclaim i) := hI.set_none i r h

theorem Inv.pid_detach {c : Consts} {s : PidState} (hI : Inv c s) (caller childpid : Int)
    (r1 : Ret) (h : pid_detach c s caller childpid = .ok r1) : Inv c r1.st := by
  rcases pid_detach_state c s caller childpid r1 h with e | ⟨r, hpi, h1, h2, e⟩
  · rw [e]; exact hI
  · obtain ⟨h0, hne, hs, hp⟩ := (pi_get_some c s childpid r).1 hpi
    rw [e]
    by_cases h3 : r.pi_exited = true
    · simp only [h3, if_true]
      exact hI.reclaim _ r hs
    · simp only [h3, if_false]
      refine hI.store_some _ r _ hs ?_
      obtain ⟨a, b, _, _⟩ := hI.recs _ r hs
      refine ⟨a, ?_, ?_, ?_⟩
      · rcases b with b | b
        · exact Or.inl ⟨b.1, rfl⟩
        · exact Or.inr b
      · intro hh; exact h3 hh.1
      · show c.INVALID_PID ≠ r.pi_pid
        rw [hp]; exact Ne.symm hne

theorem Inv.pid_unalloc {c : Consts} {s : PidState} (hI : Inv c s) (caller theirpid : Int)
    (s1 : PidState) (h : pid_unalloc c s caller theirpid = .ok s1) : Inv c s1 := by
  obtain ⟨_, r, hpi, _, _, e⟩ := pid_unalloc_ok c s caller theirpid s1 h
  rw [e]
  exact hI.reclaim _ r ((pi_get_some c s theirpid r).1 hpi).2.2.1

theorem Inv.pid_kill {c : Consts} {s : PidState} (hI : Inv c s) (pid sig : Int)
    (r1 : Ret) (h : pid_kill c s pid sig = .ok r1) : Inv c r1.st := by
  rcases pid_kill_state c s pid sig r1 h with e | ⟨r, v, hpi, e⟩
  · rw [e]; exact hI
  · rw [e]
    have hs := ((pi_get_some c s pid r).1 hpi).2.2.1
    exact hI.store_some _ r _ hs (hI.recs _ r hs)

theorem Inv.pid_alloc {c : Consts} (hc : c.wf) {s : PidState} (hI : Inv c s) (caller : Int)
    (cur : pidinfo) (hcur : pi_get c s caller = .ok (some cur))
    (mem : Option Int) (r : Ret) (h : pid_alloc c s caller mem = .ok r) : Inv c r.st := by
  obtain ⟨_, _, _, _, _, _, _, hmin, _⟩ := hc
  obtain ⟨_, h1⟩ := pid_alloc_ok c s caller mem r h
  rcases h1 with ⟨_, e⟩ | ⟨_, q, hscan, hq, h2⟩
  · rw [e]; exact hI
  · have hqr := alloc_scan_range c s hmin _ _ _ hscan hI.cursor
    have hqe := alloc_scan_empty c s _ _ _ hscan
    rcases h2 with ⟨_, e⟩ | ⟨g, _, e⟩
    · rw [e]
      exact ⟨hI.len, hI.recs, hqr, hI.count⟩
    · rw [e]
      refine hI.put _ _ hqe.2 ⟨rfl, Or.inr hqr, ?_, ?_⟩ _ (inc_nextpid_range c q hmin hqr)
      · intro hh; cases hh.1
      · show caller ≠ q
        intro e2
        subst e2
        have := ((pi_get_some c s caller cur).1 hcur).2.2.1
        rw [hqe.2] at this
        cases this

theorem Inv.pid_bootstrap {c : Consts} (hc : c.wf) (g : Int) (s : PidState)
    (h : pid_bootstrap c (some g) = .ok s) : Inv c s := by
  obtain ⟨hpos, hb0, hblt, hib, _, _, _, hmin, _⟩ := hc
  obtain ⟨_, _, _, e⟩ := pid_bootstrap_ok c g s h
  have hlt : c.BOOTUP_PID.toNat < c.PROCS_MAX := by omega
  have hnone : ∀ i, i < c.PROCS_MAX →
      (List.replicate c.PROCS_MAX (none : Option pidinfo))[i]? = some none := by
    intro i hi
    simp [List.getElem?_replicate, hi]
  rw [e]
  refine ⟨by simp, ?_, ⟨le_refl _, hmin⟩, ?_⟩
  · intro i r hr
    simp only [List.getElem?_set] at hr
    by_cases hi : c.BOOTUP_PID.toNat = i
    · simp only [hi, if_true] at hr
      split at hr
      · cases hr
        refine ⟨?_, Or.inl ⟨rfl, rfl⟩, ?_, ?_⟩
        · show c.BOOTUP_PID.toNat % c.PROCS_MAX = i
          rw [Nat.mod_eq_of_lt hlt]; exact hi
        · intro hh; cases hh.1
        · exact hib
      · cases hr
    · simp only [hi, if_false] at hr
      by_cases hil : i < c.PROCS_MAX
      · rw [hnone i hil] at hr; cases hr
      · rw [List.getElem?_eq_none (by simpa using hil)] at hr; cases hr
  · simp only [occupied]
    rw [occupied_set_new _ _ _ (hnone _ hlt)]
    simp [List.countP_replicate]

/-! ## `pid_exit` -/

/-- One turn of the loop of `pid_exit`: the pid is skipped, or it is a child
of the caller and is detached. -/
theorem exit_loop_cons (c : Consts) (me p : Int) (rest : List Int) (s s2 : PidState)
    (h : exit_loop c me (p :: rest) s = .ok s2) :
    (exit_loop c me rest s = .ok s2 ∧
      (pi_get c s p = .ok none ∨
        ∃ ch, pi_get c s p = .ok (some ch) ∧ ch.pi_ppid ≠ me)) ∨
    ∃ ch mine r1, pi_get c s p = .ok (some ch) ∧ pi_get c s me = .ok (some mine) ∧
      ch.pi_ppid = me ∧ pid_detach c s me p = .ok r1 ∧ exit_loop c me rest r1.st = .ok s2 := by
  simp only [exit_loop, bind, Except.bind, pure, Except.pure, throw, throwThe,
    MonadExceptOf.throw] at h
  cases hpi : pi_get c s p with
  | error e => simp [hpi] at h
  | ok o =>
    cases o with
    | none =>
      simp only [hpi] at h
      exact Or.inl ⟨h, Or.inl rfl⟩
    | some ch =>
      have hp : ch.pi_pid = p := ((pi_get_some c s p ch).1 hpi).2.2.2
      cases hme : pi_get c s me with
      | error e => simp [hpi, hme] at h
      | ok o2 =>
        cases o2 with
        | none => simp [hpi, hme] at h
        | some mine =>
          have hm : mine.pi_pid = me := ((pi_get_some c s me mine).1 hme).2.2.2
          simp only [hpi, hme, hm, hp] at h
          by_cases hpp : ch.pi_ppid = me
          · simp only [hpp, if_true] at h
            cases hd : pid_detach c s me p with
            | error e => simp [hd] at h
            | ok r1 =>
              simp only [hd] at h
              exact Or.inr ⟨ch, mine, r1, rfl, rfl, hpp, rfl, h⟩
          · simp only [hpp, if_false] at h
            exact Or.inl ⟨h, Or.inr ⟨ch, rfl, hpp⟩⟩

theorem Inv.exit_loop {c : Consts} (me : Int) :
    ∀ (L : List Int) (s s2 : PidState), Inv c s → exit_loop c me L s = .ok s2 → Inv c s2 := by
  intro L
  induction L with
  | nil =>
    intro s s2 hI h
    simp only [Pid.exit_loop, Except.ok.injEq] at h
    rw [← h]; exact hI
  | cons p rest ih =>
    intro s s2 hI h
    rcases exit_loop_cons c me p rest s s2 h with ⟨h1, _⟩ | ⟨ch, mine, r1, _, _, _, hd, h1⟩
    · exact ih s s2 hI h1
    · exact ih r1.st s2 (hI.pid_detach me p r1 hd) h1

/-- The last stage of `pid_exit`, on the caller's own record `mine`. -/
theorem exit_self_eq (c : Consts) (sl : PidState) (caller status : Int) (mine : pidinfo)
    (hmine : pi_get c sl caller = .ok (some mine)) :
    exit_self c sl caller status =
    .ok (if mine.pi_ppid = c.INVALID_PID then sl.reclaim (slot c caller)
         else sl.store (slot c caller) (some (mine.exited_with status))) := by
  obtain ⟨h0, hne, hs, hp⟩ := (pi_get_some c sl caller mine).1 hmine
  have hlen := getElem?_lt hs
  have hw : slot_write c sl caller
      (some { mine with pi_exitstatus := status, pi_exited := true }) =
      .ok (sl.store (slot c caller) (some (mine.exited_with status))) :=
    (slot_write_ok c sl caller _ _).2 ⟨h0, hlen, rfl⟩
  simp only [exit_self, bind, Except.bind, pure, Except.pure, hmine, hw]
  by_cases hd : mine.pi_ppid = c.INVALID_PID
  · simp only [hd, if_true]
    rw [pi_drop_ok]
    refine ⟨mine.exited_with status, by rw [hp]; exact h0, ?_, rfl, rfl, hd, ?_⟩
    · rw [hp]; simp [PidState.store, List.getElem?_set_self hlen]
    · rw [hp]; simp [PidState.store, PidState.reclaim, List.set_set]
  · simp only [hd, if_false]

theorem exit_self_ok (c : Consts) (sl : PidState) (caller status : Int) (s1 : PidState)
    (h : exit_self c sl caller status = .ok s1) :
    ∃ mine, pi_get c sl caller = .ok (some mine) ∧
      s1 = (if mine.pi_ppid = c.INVALID_PID then sl.reclaim (slot c caller)
            else sl.store (slot c caller) (some (mine.exited_with status))) := by
  cases hmine : pi_get c sl caller with
  | error e =>
    simp [exit_self, bind, Except.bind, hmine] at h
  | ok o =>
    cases o with
    | none =>
      simp [exit_self, bind, Except.bind, throw, throwThe, MonadExceptOf.throw, hmine] at h
    | some mine =>
      rw [exit_self_eq c sl caller status mine hmine] at h
      cases h
      exact ⟨mine, rfl, rfl⟩

/-- The function `pid_exit` as its loop followed by `exit_self`. -/
theorem pid_exit_eq (c : Consts) (s : PidState) (caller status : Int) (dodetach : Bool)
    (me : pidinfo) (sl : PidState)
    (hme : pi_get c s caller = .ok (some me))
    (hl : (if dodetach = true then exit_loop c caller (pid_range c) s else .ok s) = .ok sl) :
    pid_exit c s caller status dodetach = exit_self c sl caller status := by
  cases dodetach with
  | false =>
    simp only [Bool.false_eq_true, if_false, Except.ok.injEq] at hl
    subst hl
    simp [pid_exit, bind, Except.bind, pure, Except.pure, hme]
  | true =>
    simp only [if_true] at hl
    simp [pid_exit, bind, Except.bind, pure, Except.pure, hme, hl]

/-- The two stages of a returning `pid_exit`: the table `sl` after the
children have been disowned (the table itself without `dodetach`), and the
treatment of the caller's own record `mine` in it. -/
theorem pid_exit_ok (c : Consts) (s : PidState) (caller status : Int) (dodetach : Bool)
    (s1 : PidState) (h : pid_exit c s caller status dodetach = .ok s1) :
    ∃ me sl mine, pi_get c s caller = .ok (some me) ∧
      (if dodetach = true then exit_loop c caller (pid_range c) s else .ok s) = .ok sl ∧
      pi_get c sl caller = .ok (some mine) ∧
      s1 = (if mine.pi_ppid = c.INVALID_PID then sl.reclaim (slot c caller)
            else sl.store (slot c caller) (some (mine.exited_with status))) := by
  cases hme : pi_get c s caller with
  | error e =>
    simp [pid_exit, bind, Except.bind, pure, Except.pure, throw, throwThe,
      MonadExceptOf.throw, hme] at h
  | ok o =>
    cases o with
    | none =>
      simp [pid_exit, bind, Except.bind, pure, Except.pure, throw, throwThe,
        MonadExceptOf.throw, hme] at h
    | some me =>
      cases hl : (if dodetach = true then exit_loop c caller (pid_range c) s else .ok s) with
      | error e =>
        cases dodetach with
        | false => simp at hl
        | true =>
          simp only [if_true] at hl
          simp [pid_exit, bind, Except.bind, pure, Except.pure, throw, throwThe,
            MonadExceptOf.throw, hme, hl] at h
      | ok sl =>
        rw [pid_exit_eq c s caller status dodetach me sl hme hl] at h
        obtain ⟨mine, hmine, e⟩ := exit_self_ok c sl caller status s1 h
        exact ⟨me, sl, mine, rfl, rfl, hmine, e⟩

theorem Inv.pid_exit {c : Consts} {s : PidState} (hI : Inv c s) (caller status : Int)
    (dodetach : Bool) (s1 : PidState) (h : pid_exit c s caller status dodetach = .ok s1) :
    Inv c s1 := by
  obtain ⟨me, sl, mine, hme, hl, hmine, e⟩ := pid_exit_ok c s caller status dodetach s1 h
  have hIl : Inv c sl := by
    cases dodetach with
    | false =>
      simp only [Bool.false_eq_true, if_false, Except.ok.injEq] at hl
      rw [← hl]; exact hI
    | true =>
      simp only [if_true] at hl
      exact hI.exit_loop caller _ _ _ hl
  obtain ⟨h0, hne, hs, hp⟩ := (pi_get_some c sl caller mine).1 hmine
  rw [e]
  by_cases hd : mine.pi_ppid = c.INVALID_PID
  · simp only [hd, if_true]
    exact hIl.reclaim _ mine hs
  · simp only [hd, if_false]
    obtain ⟨a, b, _, d⟩ := hIl.recs _ mine hs
    refine hIl.store_some _ mine _ hs ⟨a, ?_, ?_, d⟩
    · rcases b with b | b
      · exact absurd b.2 hd
      · exact Or.inr b
    · intro hh; exact hd hh.2

/-- Every table the kernel can be in satisfies the invariant. -/
theorem Reachable.inv {c : Consts} (hc : c.wf) {s : PidState} (h : Reachable c s) :
    Inv c s := by
  induction h with
  | boot g s hb => exact Inv.pid_bootstrap hc g s hb
  | alloc s caller mem r _ hl ha ih =>
    obtain ⟨cur, hcur, _⟩ := hl
    exact ih.pid_alloc hc caller cur hcur mem r ha
  | unalloc s caller theirpid s1 _ _ hu ih => exact ih.pid_unalloc caller theirpid s1 hu
  | detach s caller childpid r _ _ hd ih => exact ih.pid_detach caller childpid r hd
  | exit s caller status dodetach s1 _ _ he ih => exact ih.pid_exit caller status dodetach s1 he
  | join s caller targetpid nn flags j _ _ hj ih =>
    rw [pid_join_st c s caller targetpid nn flags j hj]; exact ih
  | wait s caller targetpid nn flags j _ _ hw ih =>
    rw [pid_wait_st c s caller targetpid nn flags j hw]; exact ih
  | kill s caller pid sig r _ _ hk ih => exact ih.pid_kill pid sig r hk

/-! ## The disowning loop of `pid_exit` -/

theorem exit_loop_skip (c : Consts) (me p : Int) (rest : List Int) (s : PidState)
    (h : pi_get c s p = .ok none) :
    exit_loop c me (p :: rest) s = exit_loop c me rest s := by
  simp only [exit_loop, bind, Except.bind, h]

theorem exit_loop_other (c : Consts) (me p : Int) (rest : List Int) (s : PidState)
    (ch mine : pidinfo) (h : pi_get c s p = .ok (some ch))
    (hme : pi_get c s me = .ok (some mine)) (hpp : ch.pi_ppid ≠ me) :
    exit_loop c me (p :: rest) s = exit_loop c me rest s := by
  have hm : mine.pi_pid = me := ((pi_get_some c s me mine).1 hme).2.2.2
  simp only [exit_loop, bind, Except.bind, h, hme, hm, hpp, if_false]

theorem exit_loop_child (c : Consts) (me p : Int) (rest : List Int) (s : PidState)
    (ch mine : pidinfo) (r1 : Ret) (h : pi_get c s p = .ok (some ch))
    (hme : pi_get c s me = .ok (some mine)) (hpp : ch.pi_ppid = me)
    (hd : pid_detach c s me p = .ok r1) :
    exit_loop c me (p :: rest) s = exit_loop c me rest r1.st := by
  have hm : mine.pi_pid = me := ((pi_get_some c s me mine).1 hme).2.2.2
  have hp : ch.pi_pid = p := ((pi_get_some c s p ch).1 h).2.2.2
  simp only [exit_loop, bind, Except.bind, h, hme, hm, hpp, if_true, hp, hd]

/-- Visiting a pid that is not the `pi_pid` of a child of `me` changes
nothing in what the loop does to a slot. -/
theorem disown_in_cons_of_ne (c : Consts) (me p : Int) (rest : List Int) (o : Option pidinfo)
    (h : ∀ r, o = some r → r.pi_ppid = me → r.pi_pid ≠ p) :
    disown_in c me (p :: rest) o = disown_in c me rest o := by
  cases o with
  | none => rfl
  | some r =>
    simp only [disown_in, List.mem_cons]
    by_cases hpp : r.pi_ppid = me
    · have := h r rfl hpp
      simp [hpp, this]
    · simp [hpp]

/-- The loop of `pid_exit` over the pids `L`, all in `PID_MIN..PID_MAX`, run
by a process `me` whose record is in the table: it returns, and it leaves
the table with `disown_in` applied to every slot, the cursor where it was,
and the caller's own record untouched. -/
theorem exit_loop_spec (c : Consts) (hc : c.wf) (me : Int) (mine : pidinfo) :
    ∀ (L : List Int), (∀ p ∈ L, c.PID_MIN ≤ p ∧ p ≤ c.PID_MAX) →
      ∀ s, Inv c s → pi_get c s me = .ok (some mine) →
        ∃ s2, exit_loop c me L s = .ok s2 ∧
          s2.pidinfo = s.pidinfo.map (disown_in c me L) ∧
          s2.nextpid = s.nextpid ∧ pi_get c s2 me = .ok (some mine) := by
  obtain ⟨hpos, hb0, hblt, hib, hinv, hboot, hm0, hmin, _⟩ := hc
  intro L
  induction L with
  | nil =>
    intro _ s _ hme
    refine ⟨s, rfl, ?_, rfl, hme⟩
    apply List.ext_getElem?
    intro i
    rw [List.getElem?_map]
    cases hi : s.pidinfo[i]? with
    | none => rfl
    | some o =>
      cases o with
      | none => rfl
      | some r => simp [disown_in]
  | cons p rest ih =>
    intro hL s hI hme
    have hrest : ∀ q ∈ rest, c.PID_MIN ≤ q ∧ q ≤ c.PID_MAX :=
      fun q hq => hL q (List.mem_cons_of_mem _ hq)
    have hpr := hL p (List.mem_cons_self _ _)
    have hp0 : 0 ≤ p := by omega
    have hpne : p ≠ c.INVALID_PID := by omega
    have hpnb : p ≠ c.BOOTUP_PID := by omega
    have hslot : slot c p < s.pidinfo.length := by
      rw [hI.len]; exact Nat.mod_lt _ hpos
    obtain ⟨hme0, hmene, hmes, hmep⟩ := (pi_get_some c s me mine).1 hme
    -- a record of pid `p` sits in the slot of `p`
    have hfind : ∀ (i : Nat) (r : pidinfo), s.pidinfo[i]? = some (some r) → r.pi_pid = p →
        pi_get c s p = .ok (some r) := by
      intro i r hr hrp
      have h1 := (hI.recs i r hr).1
      rw [hrp] at h1
      rw [pi_get_some]
      exact ⟨hp0, hpne, by rw [h1]; exact hr, hrp⟩
    obtain ⟨o, ho⟩ := pi_get_total c s p hp0 hpne hslot
    have hsame : (∀ ch, o = some ch → ch.pi_ppid ≠ me) →
        ∃ s2, exit_loop c me (p :: rest) s = .ok s2 ∧
          s2.pidinfo = s.pidinfo.map (disown_in c me (p :: rest)) ∧
          s2.nextpid = s.nextpid ∧ pi_get c s2 me = .ok (some mine) := by
      intro hno
      obtain ⟨s2, h1, h2, h3, h4⟩ := ih hrest s hI hme
      have hstep : exit_loop c me (p :: rest) s = exit_loop c me rest s := by
        cases o with
        | none => exact exit_loop_skip c me p rest s ho
        | some ch => exact exit_loop_other c me p rest s ch mine ho hme (hno ch rfl)
      refine ⟨s2, by rw [hstep]; exact h1, ?_, h3, h4⟩
      rw [h2]
      apply List.map_congr_left
      intro x hx
      symm
      apply disown_in_cons_of_ne
      intro r hxr hpp hrp
      subst hxr
      obtain ⟨i, hi, hie⟩ := List.getElem_of_mem hx
      have hr : s.pidinfo[i]? = some (some r) := by
        rw [List.getElem?_eq_getElem hi, hie]
      have := hfind i r hr hrp
      rw [ho] at this
      cases this
      exact hno r rfl hpp
    cases o with
    | none => exact hsame (fun ch h => by cases h)
    | some ch =>
      by_cases hpp : ch.pi_ppid = me
      · obtain ⟨_, _, hchs, hchp⟩ := (pi_get_some c s p ch).1 ho
        have hns : ¬ (p = c.INVALID_PID ∨ p = c.BOOTUP_PID) := by
          intro h; cases h with
          | inl h => exact hpne h
          | inr h => exact hpnb h
        have hpp1 : ch.pi_ppid ≠ c.INVALID_PID := by rw [hpp]; exact hmene
        have hd : pid_detach c s me p = .ok
            { ret := 0, out := none,
              st := if ch.pi_exited = true then s.reclaim (slot c p)
                    else s.store (slot c p) (some (ch.detached c)) } := by
          rw [pid_detach_found c s me p hns ch mine ho hme, if_neg hpp1,
            if_neg (by simp [hpp])]
          by_cases h3 : ch.pi_exited = true
          · simp [h3]
          · simp [h3]
        -- the caller is not its own child
        have hmp : slot c me ≠ slot c p := by
          intro e
          have h1 : s.pidinfo[slot c p]? = some (some mine) := by rw [← e]; exact hmes
          rw [hchs] at h1
          have h2 : ch = mine := by simpa using h1
          exact (hI.recs _ ch hchs).2.2.2 (by rw [hpp, h2, hmep])
        have hI1 := hI.pid_detach me p _ hd
        have hme1 : pi_get c (if ch.pi_exited = true then s.reclaim (slot c p)
            else s.store (slot c p) (some (ch.detached c))) me = .ok (some mine) := by
          by_cases h3 : ch.pi_exited = true
          · rw [if_pos h3, pi_get_reclaim_other c s _ me hmp]; exact hme
          · rw [if_neg h3, pi_get_store_other c s _ _ me hmp]; exact hme
        obtain ⟨s2, h1, h2, h3, h4⟩ := ih hrest _ hI1 hme1
        refine ⟨s2, ?_, ?_, ?_, h4⟩
        · rw [exit_loop_child c me p rest s ch mine _ ho hme hpp hd]; exact h1
        · rw [h2]
          apply List.ext_getElem?
          intro j
          rw [List.getElem?_map, List.getElem?_map]
          by_cases hj : j = slot c p
          · subst hj
            rw [hchs]
            by_cases h3 : ch.pi_exited = true
            · simp [h3, PidState.reclaim, List.getElem?_set_self hslot, disown_in, hpp, hchp]
            · simp [h3, PidState.store, List.getElem?_set_self hslot, disown_in, hpp, hchp,
                pidinfo.detached, Ne.symm hmene]
          · have hset : (if ch.pi_exited = true then s.reclaim (slot c p)
                else s.store (slot c p) (some (ch.detached c))).pidinfo[j]? =
                s.pidinfo[j]? := by
              by_cases h3 : ch.pi_exited = true
              · rw [if_pos h3]
                exact List.getElem?_set_ne (Ne.symm hj)
              · rw [if_neg h3]
                exact List.getElem?_set_ne (Ne.symm hj)
            rw [hset]
            cases hx : s.pidinfo[j]? with
            | none => rfl
            | some x =>
              simp only [Option.map_some']
              congr 1
              symm
              apply disown_in_cons_of_ne
              intro r hxr _ hrp
              subst hxr
              have := (hI.recs j r hx).1
              rw [hrp] at this
              exact hj this.symm
        · rw [h3]
          by_cases h3 : ch.pi_exited = true
          · simp [h3, PidState.reclaim]
          · simp [h3, PidState.store]
      · exact hsame (fun ch2 h => by cases h; exact hpp)

theorem mem_pid_range (c : Consts) (p : Int) :
    p ∈ pid_range c ↔ c.PID_MIN ≤ p ∧ p ≤ c.PID_MAX := by
  simp only [pid_range, List.mem_map, List.mem_range]
  constructor
  · rintro ⟨k, hk, rfl⟩
    have : (k : Int) < c.PID_MAX - c.PID_MIN + 1 := Int.lt_toNat.1 hk
    omega
  · intro h
    refine ⟨(p - c.PID_MIN).toNat, ?_, ?_⟩
    · rw [Int.toNat_lt_toNat (by omega)]; omega
    · rw [Int.toNat_of_nonneg (by omega)]; omega

theorem occupied_disown (c : Consts) (me : Int) (l : List (Option pidinfo)) :
    (l.map (disown c me)).countP Option.isSome + l.countP (is_exited_child me) =
      l.countP Option.isSome := by
  induction l with
  | nil => rfl
  | cons o l ih =>
    rw [List.map_cons, List.countP_cons, List.countP_cons, List.countP_cons]
    cases o with
    | none =>
      simp only [disown, is_exited_child, Option.isSome_none, Bool.false_eq_true, if_false,
        Nat.add_zero]
      exact ih
    | some r =>
      by_cases hpp : r.pi_ppid = me
      · by_cases he : r.pi_exited = true
        · have h1 : disown c me (some r) = none := by simp [disown, hpp, he]
          have h2 : is_exited_child me (some r) = true := by simp [is_exited_child, hpp, he]
          rw [h1, h2]
          simp only [Option.isSome_none, Bool.false_eq_true, if_false, Option.isSome_some,
            if_true]
          omega
        · have h1 : disown c me (some r) = some (r.detached c) := by simp [disown, hpp, he]
          have h2 : is_exited_child me (some r) = false := by simp [is_exited_child, hpp, he]
          rw [h1, h2]
          simp only [Option.isSome_some, if_true, Bool.false_eq_true, if_false]
          omega
      · have h1 : disown c me (some r) = some r := by simp [disown, hpp]
        have h2 : is_exited_child me (some r) = false := by simp [is_exited_child, hpp]
        rw [h1, h2]
        simp only [Option.isSome_some, if_true, Bool.false_eq_true, if_false]
        omega

/-- The loop of `pid_exit` in full, run by a process `me` whose record is in a
table that satisfies the invariant: it returns the table `s.disowned c me`. -/
theorem exit_loop_full (c : Consts) (hc : c.wf) (me : Int) (mine : pidinfo) (s : PidState)
    (hI : Inv c s) (hme : pi_get c s me = .ok (some mine)) :
    exit_loop c me (pid_range c) s = .ok (s.disowned c me) ∧
    pi_get c (s.disowned c me) me = .ok (some mine) ∧ Inv c (s.disowned c me) := by
  obtain ⟨s2, h1, h2, h3, h4⟩ := exit_loop_spec c hc me mine (pid_range c)
    (fun p hp => (mem_pid_range c p).1 hp) s hI hme
  have hI2 : Inv c s2 := hI.exit_loop me _ s s2 h1
  have hmene : me ≠ c.INVALID_PID := ((pi_get_some c s me mine).1 hme).2.1
  have hmap : s.pidinfo.map (disown_in c me (pid_range c)) = s.pidinfo.map (disown c me) := by
    apply List.map_congr_left
    intro x hx
    cases x with
    | none => rfl
    | some r =>
      obtain ⟨i, hi, hie⟩ := List.getElem_of_mem hx
      have hr : s.pidinfo[i]? = some (some r) := by
        rw [List.getElem?_eq_getElem hi, hie]
      simp only [disown_in, disown]
      by_cases hpp : r.pi_ppid = me
      · have hrange : r.pi_pid ∈ pid_range c := by
          rw [mem_pid_range]
          rcases (hI.recs i r hr).2.1 with b | b
          · exact absurd (hpp ▸ b.2) hmene
          · exact b
        simp [hpp, hrange]
      · simp [hpp]
  have hn : s2.nprocs = s.nprocs - (exited_children s me : Int) := by
    rw [hI2.count, hI.count]
    simp only [occupied, exited_children, h2, hmap]
    have := occupied_disown c me s.pidinfo
    omega
  have e : s2 = s.disowned c me := by
    cases s2
    simp only [PidState.disowned]
    simp only at h2 h3 hn
    rw [h2, h3, hn, hmap]
  rw [e] at h1 h4 hI2
  exact ⟨h1, h4, hI2⟩

/-- The result of `pid_exit`, for a process whose record `me` is in a table
that satisfies the invariant. -/
theorem pid_exit_spec (c : Consts) (hc : c.wf) (s : PidState) (hI : Inv c s)
    (caller status : Int) (dodetach : Bool) (me : pidinfo)
    (hme : pi_get c s caller = .ok (some me)) :
    pid_exit c s caller status dodetach = .ok
      (if me.pi_ppid = c.INVALID_PID then
        (if dodetach = true then s.disowned c caller else s).reclaim (slot c caller)
       else (if dodetach = true then s.disowned c caller else s).store (slot c caller)
        (some (me.exited_with status))) := by
  cases dodetach with
  | false =>
    rw [pid_exit_eq c s caller status false me s hme (by simp)]
    simp only [Bool.false_eq_true, if_false]
    exact exit_self_eq c s caller status me hme
  | true =>
    obtain ⟨h1, h2, _⟩ := exit_loop_full c hc caller me s hI hme
    rw [pid_exit_eq c s caller status true me (s.disowned c caller) hme (by simpa using h1)]
    simp only [if_true]
    exact exit_self_eq c _ caller status me h2

/-! ## Reachable tables of `demo` -/

theorem demo_boot_reachable : Reachable demo demo_boot :=
  Reachable.boot 0 demo_boot (by decide)

theorem demo_child_reachable : Reachable demo demo_child :=
  Reachable.alloc demo_boot 1 (some 0) ⟨0, some 2, demo_child⟩ demo_boot_reachable
    ⟨demo_bootrec, by decide, rfl⟩ (by decide)

theorem demo_exited_child_reachable : Reachable demo demo_exited_child :=
  Reachable.exit demo_child 2 7 false demo_exited_child demo_child_reachable
    ⟨⟨2, 1, false, 0xbaad, 0⟩, by decide, rfl⟩ (by decide)

theorem demo_detached_child_reachable : Reachable demo demo_detached_child :=
  Reachable.detach demo_child 1 2 ⟨0, none, demo_detached_child⟩ demo_child_reachable
    ⟨demo_bootrec, by decide, rfl⟩ (by decide)

theorem demo_grandchild_reachable : Reachable demo demo_grandchild :=
  Reachable.alloc demo_child 2 (some 0) ⟨0, some 3, demo_grandchild⟩ demo_child_reachable
    ⟨⟨2, 1, false, 0xbaad, 0⟩, by decide, rfl⟩ (by decide)

theorem demo_detached_family_reachable : Reachable demo demo_detached_family :=
  Reachable.alloc demo_detached_child 2 (some 0) ⟨0, some 3, demo_detached_family⟩
    demo_detached_child_reachable ⟨⟨2, 0, false, 0xbaad, 0⟩, by decide, rfl⟩ (by decide)

theorem demo_detached_parent_reachable : Reachable demo demo_detached_parent :=
  Reachable.exit demo_detached_family 3 5 false demo_detached_parent
    demo_detached_family_reachable ⟨⟨3, 2, false, 0xbaad, 0⟩, by decide, rfl⟩ (by decide)

theorem demo_two_children_reachable : Reachable demo demo_two_children :=
  Reachable.exit
    ⟨[some ⟨4, 2, false, 0xbaad, 0⟩, some demo_bootrec, some ⟨2, 0, false, 0xbaad, 0⟩,
      some ⟨3, 2, false, 0xbaad, 0⟩], 5, 4⟩
    3 5 false demo_two_children
    (Reachable.alloc demo_detached_family 2 (some 0)
      ⟨0, some 4, ⟨[some ⟨4, 2, false, 0xbaad, 0⟩, some demo_bootrec,
        some ⟨2, 0, false, 0xbaad, 0⟩, some ⟨3, 2, false, 0xbaad, 0⟩], 5, 4⟩⟩
      demo_detached_family_reachable ⟨⟨2, 0, false, 0xbaad, 0⟩, by decide, rfl⟩ (by decide))
    ⟨⟨3, 2, false, 0xbaad, 0⟩, by decide, rfl⟩ (by decide)

/-! ## Allocation hands out fresh identifiers -/

theorem slot_eq_emod (c : Consts) (pid : Int) (h0 : 0 ≤ pid) :
    ((slot c pid : Nat) : Int) = pid % (c.PROCS_MAX : Int) := by
  unfold slot
  rw [Int.natCast_mod, Int.toNat_of_nonneg h0]

theorem RecOk.nonneg {c : Consts} (hc : c.wf) {i : Nat} {r : pidinfo} (h : RecOk c i r) :
    0 ≤ r.pi_pid := by
  obtain ⟨_, hb0, _, _, _, _, hm0, _⟩ := hc
  rcases h.2.1 with b | b
  · rw [b.1]; exact hb0
  · omega

/-- C1: in a table the kernel can be in, a call of `pid_alloc` that stores
an identifier in `*retval` returns `0`, and the identifier lies in
`PID_MIN..PID_MAX`, is neither `INVALID_PID` nor `BOOTUP_PID` and is the
`pi_pid` of no record of the table; and two records in different slots of
such a table have different values of `pi_pid % PROCS_MAX`. -/
theorem pid_alloc_fresh_identifier (c : Consts) (hc : c.wf) (s : PidState)
    (h : Reachable c s) :
    (∀ caller mem r p, pid_alloc c s caller mem = .ok r → r.out = some p →
      r.ret = 0 ∧ c.PID_MIN ≤ p ∧ p ≤ c.PID_MAX ∧ p ≠ c.INVALID_PID ∧ p ≠ c.BOOTUP_PID ∧
      ∀ (i : Nat) (q : pidinfo), s.pidinfo[i]? = some (some q) → q.pi_pid ≠ p) ∧
    (∀ (i j : Nat) (ri rj : pidinfo),
      s.pidinfo[i]? = some (some ri) → s.pidinfo[j]? = some (some rj) → i ≠ j →
      ri.pi_pid % (c.PROCS_MAX : Int) ≠ rj.pi_pid % (c.PROCS_MAX : Int)) := by
  have hI := h.inv hc
  refine ⟨?_, ?_⟩
  · intro caller mem r p ha hout
    obtain ⟨_, _, _, _, hinv, hboot, _, hmin, _⟩ := hc
    obtain ⟨_, h1⟩ := pid_alloc_ok c s caller mem r ha
    rcases h1 with ⟨_, e⟩ | ⟨_, q, hscan, hq, h2⟩
    · rw [e] at hout; cases hout
    · have hqr := alloc_scan_range c s hmin _ _ _ hscan hI.cursor
      have hqe := alloc_scan_empty c s _ _ _ hscan
      rcases h2 with ⟨_, e⟩ | ⟨g, _, e⟩
      · rw [e] at hout; cases hout
      · rw [e] at hout
        simp only [Option.some.injEq] at hout
        subst hout
        refine ⟨by rw [e], hqr.1, hqr.2, hq, by omega, ?_⟩
        intro i r2 hr2 hp
        have hs := (hI.recs i r2 hr2).1
        rw [hp] at hs
        rw [hs, hr2] at hqe
        cases hqe.2
  · intro i j ri rj hi hj hij hmod
    have hri := hI.recs i ri hi
    have hrj := hI.recs j rj hj
    rw [← slot_eq_emod c _ (hri.nonneg hc), ← slot_eq_emod c _ (hrj.nonneg hc),
      hri.1, hrj.1] at hmod
    exact hij (by exact_mod_cast hmod)

/-- C1, evaluated: in the table `pid_bootstrap` builds the boot process is
given pid 2. -/
theorem pid_alloc_fresh_identifier_witness :
    (0 : Int) = 0 ∧ demo.PID_MIN ≤ 2 ∧ (2 : Int) ≤ demo.PID_MAX ∧ (2 : Int) ≠ demo.INVALID_PID ∧
      (2 : Int) ≠ demo.BOOTUP_PID ∧
      ∀ (i : Nat) (q : pidinfo), demo_boot.pidinfo[i]? = some (some q) → q.pi_pid ≠ 2 :=
  (pid_alloc_fresh_identifier demo (by decide) demo_boot demo_boot_reachable).1
    1 (some 0) ⟨0, some 2, demo_child⟩ 2 (by decide) rfl

/-- C3: no record of a table the kernel can be in has `pi_exited` true
together with `pi_ppid == INVALID_PID`. -/
theorem exited_detached_never_in_table (c : Consts) (hc : c.wf) (s : PidState)
    (h : Reachable c s) (i : Nat) (r : pidinfo) (hr : s.pidinfo[i]? = some (some r)) :
    ¬ (r.pi_exited = true ∧ r.pi_ppid = c.INVALID_PID) :=
  ((h.inv hc).recs i r hr).2.2.1

/-- C3, evaluated on the record of the exited child 2 of the boot process,
which is still attached. -/
theorem exited_detached_never_in_table_witness :
    ¬ ((⟨2, 1, true, 7, 0⟩ : pidinfo).pi_exited = true ∧
        (⟨2, 1, true, 7, 0⟩ : pidinfo).pi_ppid = demo.INVALID_PID) :=
  exited_detached_never_in_table demo (by decide) demo_exited_child
    demo_exited_child_reachable 2 ⟨2, 1, true, 7, 0⟩ (by decide)

/-! ## Detaching -/

/-- C4, as the code behaves: in a table of `PROCS_MAX > 0` slots and for a
caller whose record is in the table, `pid_detach(childpid)` returns `-EINVAL` if
`childpid` is `INVALID_PID` or `BOOTUP_PID`; otherwise `-ESRCH` if the lookup
finds no record of that pid; otherwise `-EINVAL` if the record's `pi_ppid` is
`INVALID_PID`; otherwise `-EINVAL` if its `pi_ppid` is not the caller; and `0` in
the remaining case.  For a non-negative `childpid` these cases are exhaustive,
and every call that returns a non-zero value returns the table, the live
count and the cursor as it found them.  For a negative `childpid` that is
neither of the two reserved pids, which has no record in the table, the call
does not return `-ESRCH`: the assertion `pid >= 0` of `pi_get` fails. -/
theorem pid_detach_failures_classified (c : Consts) (s : PidState) (caller childpid : Int)
    (cur : pidinfo) (hpos : 0 < c.PROCS_MAX)
    (hlen : s.pidinfo.length = c.PROCS_MAX)
    (hcur : pi_get c s caller = .ok (some cur)) :
    ((childpid = c.INVALID_PID ∨ childpid = c.BOOTUP_PID) →
      pid_detach c s caller childpid = .ok { ret := -c.EINVAL, out := none, st := s }) ∧
    (¬ (childpid = c.INVALID_PID ∨ childpid = c.BOOTUP_PID) →
      (pi_get c s childpid = .ok none →
        pid_detach c s caller childpid = .ok { ret := -c.ESRCH, out := none, st := s }) ∧
      (∀ r, pi_get c s childpid = .ok (some r) →
        (r.pi_ppid = c.INVALID_PID →
          pid_detach c s caller childpid = .ok { ret := -c.EINVAL, out := none, st := s }) ∧
        (r.pi_ppid ≠ c.INVALID_PID → r.pi_ppid ≠ caller →
          pid_detach c s caller childpid = .ok { ret := -c.EINVAL, out := none, st := s }) ∧
        (r.pi_ppid ≠ c.INVALID_PID → r.pi_ppid = caller →
          ∃ r1, pid_detach c s caller childpid = .ok r1 ∧ r1.ret = 0)) ∧
      (0 ≤ childpid →
        pi_get c s childpid = .ok none ∨ ∃ r, pi_get c s childpid = .ok (some r)) ∧
      (childpid < 0 → pid_detach c s caller childpid = .error .kassert)) ∧
    (0 ≤ childpid ∨ childpid = c.INVALID_PID ∨ childpid = c.BOOTUP_PID →
      ∃ r1, pid_detach c s caller childpid = .ok r1 ∧ (r1.ret ≠ 0 → r1.st = s)) := by
  have hslot : slot c childpid < s.pidinfo.length := by
    rw [hlen]; exact Nat.mod_lt _ hpos
  refine ⟨fun h => pid_detach_sentinel c s caller childpid h, fun h => ⟨?_, ?_, ?_, ?_⟩, ?_⟩
  · intro hpi
    exact pid_detach_notfound c s caller childpid h hpi _ hcur
  · intro r hpi
    have hf := pid_detach_found c s caller childpid h r cur hpi hcur
    refine ⟨fun h1 => ?_, fun h1 h2 => ?_, fun h1 h2 => ?_⟩
    · rw [hf]; simp [h1]
    · rw [hf]; simp [h1, Ne.symm h2]
    · rw [hf]
      subst h2
      by_cases h3 : r.pi_exited = true
      · exact ⟨_, rfl, by simp [h1, h3]⟩
      · exact ⟨_, rfl, by simp [h1, h3]⟩
  · intro hchild
    have hne : childpid ≠ c.INVALID_PID := fun e => h (Or.inl e)
    obtain ⟨o, ho⟩ := pi_get_total c s childpid hchild hne hslot
    cases o with
    | none => exact Or.inl ho
    | some r => exact Or.inr ⟨r, ho⟩
  · intro hneg
    exact pid_detach_negative c s caller childpid h hneg
  · intro hdom
    by_cases h : childpid = c.INVALID_PID ∨ childpid = c.BOOTUP_PID
    · exact ⟨_, pid_detach_sentinel c s caller childpid h, fun _ => rfl⟩
    · have hchild : 0 ≤ childpid := by
        rcases hdom with h1 | h1 | h1
        · exact h1
        · exact absurd (Or.inl h1) h
        · exact absurd (Or.inr h1) h
      have hne : childpid ≠ c.INVALID_PID := fun e => h (Or.inl e)
      obtain ⟨o, ho⟩ := pi_get_total c s childpid hchild hne hslot
      cases o with
      | none => exact ⟨_, pid_detach_notfound c s caller childpid h ho _ hcur, fun _ => rfl⟩
      | some r =>
        refine ⟨_, pid_detach_found c s caller childpid h r cur ho hcur, ?_⟩
        by_cases h1 : r.pi_ppid = c.INVALID_PID
        · simp [h1]
        · by_cases h2 : caller = r.pi_ppid
          · subst h2
            by_cases h3 : r.pi_exited = true
            · simp [h1, h3]
            · simp [h1, h3]
          · simp [h1, h2]

/-- C4, evaluated: in the table reached once the boot process has allocated
pid 2, the boot process detaches its live child 2 and gets `0`; its call
`pid_detach(-2)`, for which the table has no record, ends in the failed
assertion of `pi_get`. -/
theorem pid_detach_failures_classified_witness :
    Reachable demo demo_child ∧
    demo_child.pidinfo = [none, some demo_bootrec, some ⟨2, 1, false, 0xbaad, 0⟩, none] ∧
    pi_get demo demo_child 1 = .ok (some demo_bootrec) ∧
    (∃ r1, pid_detach demo demo_child 1 2 = .ok r1 ∧ r1.ret = 0) ∧
    pid_detach demo demo_child 1 (-2) = .error .kassert :=
  ⟨demo_child_reachable, rfl, by decide,
   ((pid_detach_failures_classified demo demo_child 1 2 demo_bootrec (by decide)
      (by decide) (by decide)).2.1 (by decide)).2.1 ⟨2, 1, false, 0xbaad, 0⟩ (by decide)
    |>.2.2 (by decide) (by decide),
   (((pid_detach_failures_classified demo demo_child 1 (-2) demo_bootrec (by decide)
      (by decide) (by decide)).2.1 (by decide)).2.2.2 (by decide))⟩

/-- C5: when `pid_detach(childpid)` returns `0` on the record `r` of
`childpid`, that record had the caller as `pi_ppid`, and the table the call
leaves is the one it found with a single change: if `r` had not exited, the
slot of `childpid` holds `r` with `pi_ppid` set to `INVALID_PID` and nothing
else differs; if `r` had exited, that slot is empty and `nprocs` is one less.
All other slots and the cursor are as before. -/
theorem pid_detach_effect (c : Consts) (hc : c.wf) (s : PidState) (caller childpid : Int)
    (r : pidinfo) (r1 : Ret)
    (hpi : pi_get c s childpid = .ok (some r))
    (h : pid_detach c s caller childpid = .ok r1) (h0 : r1.ret = 0) :
    r.pi_ppid = caller ∧
    (r.pi_exited = false →
      r1.st = { s with pidinfo := s.pidinfo.set (slot c childpid) (some (r.detached c)) } ∧
      pi_get c r1.st childpid = .ok (some (r.detached c))) ∧
    (r.pi_exited = true →
      r1.st = { s with pidinfo := s.pidinfo.set (slot c childpid) none,
                       nprocs := s.nprocs - 1 } ∧
      pi_get c r1.st childpid = .ok none) ∧
    r1.st.nextpid = s.nextpid ∧
    (∀ i, i ≠ slot c childpid → r1.st.pidinfo[i]? = s.pidinfo[i]?) := by
  obtain ⟨hs, r2, cur, hpi2, hcur, h1, h2⟩ := pid_detach_success c hc s caller childpid r1 h h0
  rw [hpi] at hpi2
  cases hpi2
  obtain ⟨hc0, hcne, hcs, _⟩ := (pi_get_some c s childpid r).1 hpi
  have hlen := getElem?_lt hcs
  rw [pid_detach_found c s caller childpid hs r cur hpi hcur] at h
  simp only [h1, h2, if_false, ne_eq, not_true_eq_false, Except.ok.injEq] at h
  by_cases h3 : r.pi_exited = true
  · simp only [h3, if_true] at h
    subst h
    refine ⟨h2.symm, fun e => by simp [h3] at e, fun _ => ⟨rfl, ?_⟩, rfl, ?_⟩
    · exact pi_get_reclaim_self c s childpid hc0 hcne hlen
    · intro i hi
      simp only [PidState.reclaim]
      exact List.getElem?_set_ne (Ne.symm hi)
  · simp only [h3, if_false] at h
    subst h
    refine ⟨h2.symm, fun _ => ⟨rfl, ?_⟩, fun e => absurd e h3, rfl, ?_⟩
    · exact pi_get_store_self c s childpid (r.detached c) hc0 hcne hlen
        ((pi_get_some c s childpid r).1 hpi).2.2.2
    · intro i hi
      simp only [PidState.store]
      exact List.getElem?_set_ne (Ne.symm hi)

/-- C5, evaluated on the exited child 2 of the boot process: the record is
removed and the live count goes from 2 to 1. -/
theorem pid_detach_effect_witness :
    pid_detach demo demo_exited_child 1 2 =
      .ok ⟨0, none, ⟨[none, some demo_bootrec, none, none], 3, 1⟩⟩ ∧
    pi_get demo ⟨[none, some demo_bootrec, none, none], 3, 1⟩ 2 = .ok none :=
  ⟨by decide,
   ((pid_detach_effect demo (by decide) demo_exited_child 1 2 ⟨2, 1, true, 7, 0⟩
      ⟨0, none, ⟨[none, some demo_bootrec, none, none], 3, 1⟩⟩
      (by decide) (by decide) (by decide)).2.2.1 (by decide)).2⟩

/-- C6 as amended: after a call of `pid_detach(childpid)` that returned `0`,
a second call by the same caller leaves the table alone and returns
`-EINVAL` if the child had not exited at the first call (its record is now
detached) and `-ESRCH` if it had (its record is gone). -/
theorem pid_detach_twice (c : Consts) (hc : c.wf) (s : PidState) (caller childpid : Int)
    (r : pidinfo) (r1 : Ret)
    (hpi : pi_get c s childpid = .ok (some r))
    (h : pid_detach c s caller childpid = .ok r1) (h0 : r1.ret = 0) :
    pid_detach c r1.st caller childpid =
      .ok { ret := if r.pi_exited = true then -c.ESRCH else -c.EINVAL,
            out := none, st := r1.st } := by
  obtain ⟨hs, r2, cur, hpi2, hcur, h1, h2⟩ := pid_detach_success c hc s caller childpid r1 h h0
  rw [hpi] at hpi2
  cases hpi2
  obtain ⟨hc0, hcne, hcs, hcp⟩ := (pi_get_some c s childpid r).1 hpi
  obtain ⟨ha0, hane, has, _⟩ := (pi_get_some c s caller cur).1 hcur
  have hlen := getElem?_lt hcs
  have halen := getElem?_lt has
  rw [pid_detach_found c s caller childpid hs r cur hpi hcur] at h
  simp only [h1, h2, if_false, ne_eq, not_true_eq_false, Except.ok.injEq] at h
  by_cases h3 : r.pi_exited = true
  · simp only [h3, if_true] at h
    subst h
    simp only [h3, if_true]
    obtain ⟨x, hx⟩ := pi_get_total c (s.reclaim (slot c childpid)) caller ha0 hane
      (by simpa [PidState.reclaim] using halen)
    exact pid_detach_notfound c _ caller childpid hs
      (pi_get_reclaim_self c s childpid hc0 hcne hlen) x hx
  · simp only [h3, if_false] at h
    subst h
    simp only [h3, if_false]
    obtain ⟨x, hx⟩ := pi_get_total c (s.store (slot c childpid) (some (r.detached c))) caller
      ha0 hane (by simpa [PidState.store] using halen)
    exact pid_detach_detached c _ caller childpid hs (r.detached c)
      (pi_get_store_self c s childpid (r.detached c) hc0 hcne hlen hcp) x hx rfl

/-- C6 as amended, evaluated on the live child 2 of the boot process. -/
theorem pid_detach_twice_witness :
    pid_detach demo demo_detached_child 1 2 = .ok ⟨-8, none, demo_detached_child⟩ :=
  pid_detach_twice demo (by decide) demo_child 1 2 ⟨2, 1, false, 0xbaad, 0⟩
    ⟨0, none, demo_detached_child⟩ (by decide) (by decide) (by decide)

/-- C6 refuted as stated: the table `demo_exited_child` can be reached; in it
the boot process detaches its exited child 2, which returns `0` and removes
the record; its second `pid_detach(2)` returns `-ESRCH`, which is not
`-EINVAL`. -/
theorem pid_detach_twice_exited_counterexample :
    Reachable demo demo_exited_child ∧
    pid_detach demo demo_exited_child 1 2 =
      .ok ⟨0, none, ⟨[none, some demo_bootrec, none, none], 3, 1⟩⟩ ∧
    pid_detach demo ⟨[none, some demo_bootrec, none, none], 3, 1⟩ 1 2 =
      .ok ⟨-demo.ESRCH, none, ⟨[none, some demo_bootrec, none, none], 3, 1⟩⟩ ∧
    -demo.ESRCH ≠ -demo.EINVAL :=
  ⟨demo_exited_child_reachable, by decide, by decide, by decide⟩

/-! ## Joining -/

theorem pid_join_sentinel (c : Consts) (s : PidState) (caller targetpid : Int) (nn : Bool)
    (flags : Int) (h : targetpid = c.INVALID_PID ∨ targetpid = c.BOOTUP_PID) :
    pid_join c s caller targetpid nn flags =
      .ok (.returned { ret := -c.EINVAL, out := none, st := s }) := by
  simp only [pid_join, bind, Except.bind, pure, Except.pure, h, if_true]

theorem pid_join_notfound (c : Consts) (s : PidState) (caller targetpid : Int) (nn : Bool)
    (flags : Int) (h : ¬ (targetpid = c.INVALID_PID ∨ targetpid = c.BOOTUP_PID))
    (hpi : pi_get c s targetpid = .ok none) (x : Option pidinfo)
    (hcur : pi_get c s caller = .ok x) :
    pid_join c s caller targetpid nn flags =
      .ok (.returned { ret := -c.ESRCH, out := none, st := s }) := by
  simp only [pid_join, bind, Except.bind, pure, Except.pure, h, if_false, hpi, hcur]

theorem pid_join_detached (c : Consts) (s : PidState) (caller targetpid : Int) (nn : Bool)
    (flags : Int) (h : ¬ (targetpid = c.INVALID_PID ∨ targetpid = c.BOOTUP_PID))
    (r : pidinfo) (hpi : pi_get c s targetpid = .ok (some r)) (x : Option pidinfo)
    (hcur : pi_get c s caller = .ok x) (hd : r.pi_ppid = c.INVALID_PID) :
    pid_join c s caller targetpid nn flags =
      .ok (.returned { ret := -c.EINVAL, out := none, st := s }) := by
  simp only [pid_join, bind, Except.bind, pure, Except.pure, h, if_false, hpi, hcur, hd,
    if_true]

theorem pid_join_self (c : Consts) (s : PidState) (caller : Int) (nn : Bool)
    (flags : Int) (h : ¬ (caller = c.INVALID_PID ∨ caller = c.BOOTUP_PID))
    (r : pidinfo) (hpi : pi_get c s caller = .ok (some r))
    (hd : r.pi_ppid ≠ c.INVALID_PID) :
    pid_join c s caller caller nn flags =
      .ok (.returned { ret := -c.EDEADLK, out := none, st := s }) := by
  simp only [pid_join, bind, Except.bind, pure, Except.pure, h, if_false, hpi, hd, if_true]

/-- C9, as the code behaves: in a table of `PROCS_MAX > 0` slots and for a
caller whose pid is non-negative and not `INVALID_PID`, `pid_join` returns
`-EINVAL` if `targetpid` is `INVALID_PID` or `BOOTUP_PID`; otherwise `-ESRCH` if
the lookup finds no record of that pid; otherwise `-EINVAL` if the target's
`pi_ppid` is `INVALID_PID`; otherwise `-EDEADLK` if the target is the caller.  In
each of these cases nothing is stored in `*status` and the table is returned as
it was found; and for a non-negative `targetpid` that is not one of the two
reserved pids the lookup finds no record or finds one.  For a negative
`targetpid` that is neither of the two reserved pids, which has no record in
the table, the call does not return `-ESRCH`: the assertion `pid >= 0` of `pi_get`
fails. -/
theorem pid_join_failures_classified (c : Consts) (s : PidState) (caller targetpid : Int)
    (nn : Bool) (flags : Int) (hpos : 0 < c.PROCS_MAX)
    (hlen : s.pidinfo.length = c.PROCS_MAX)
    (hcaller : 0 ≤ caller) (hcne : caller ≠ c.INVALID_PID) :
    ((targetpid = c.INVALID_PID ∨ targetpid = c.BOOTUP_PID) →
      pid_join c s caller targetpid nn flags =
        .ok (.returned { ret := -c.EINVAL, out := none, st := s })) ∧
    (¬ (targetpid = c.INVALID_PID ∨ targetpid = c.BOOTUP_PID) →
      (pi_get c s targetpid = .ok none →
        pid_join c s caller targetpid nn flags =
          .ok (.returned { ret := -c.ESRCH, out := none, st := s })) ∧
      (∀ r, pi_get c s targetpid = .ok (some r) →
        (r.pi_ppid = c.INVALID_PID →
          pid_join c s caller targetpid nn flags =
            .ok (.returned { ret := -c.EINVAL, out := none, st := s })) ∧
        (r.pi_ppid ≠ c.INVALID_PID → targetpid = caller →
          pid_join c s caller targetpid nn flags =
            .ok (.returned { ret := -c.EDEADLK, out := none, st := s }))) ∧
      (0 ≤ targetpid →
        pi_get c s targetpid = .ok none ∨ ∃ r, pi_get c s targetpid = .ok (some r)) ∧
      (targetpid < 0 → pid_join c s caller targetpid nn flags = .error .kassert)) := by
  have hslot : ∀ p : Int, slot c p < s.pidinfo.length := by
    intro p; rw [hlen]; exact Nat.mod_lt _ hpos
  obtain ⟨x, hx⟩ := pi_get_total c s caller hcaller hcne (hslot caller)
  refine ⟨fun h => pid_join_sentinel c s caller targetpid nn flags h,
    fun h => ⟨?_, ?_, ?_, ?_⟩⟩
  · intro hpi
    exact pid_join_notfound c s caller targetpid nn flags h hpi x hx
  · intro r hpi
    refine ⟨fun h1 => pid_join_detached c s caller targetpid nn flags h r hpi x hx h1,
      fun h1 h2 => ?_⟩
    subst h2
    exact pid_join_self c s targetpid nn flags h r hpi h1
  · intro htarget
    have hne : targetpid ≠ c.INVALID_PID := fun e => h (Or.inl e)
    obtain ⟨o, ho⟩ := pi_get_total c s targetpid htarget hne (hslot targetpid)
    cases o with
    | none => exact Or.inl ho
    | some r => exact Or.inr ⟨r, ho⟩
  · intro hneg
    exact pid_join_negative c s caller targetpid nn flags h hneg

/-- C9, evaluated: in the table reached once the boot process has allocated
pid 2, process 2 joins itself and gets `-EDEADLK`, and joins pid 3, which has no
record, and gets `-ESRCH`; its call `pid_join(-2, &status, 0)`, for which the table
has no record either, ends in the failed assertion of `pi_get`. -/
theorem pid_join_failures_classified_witness :
    Reachable demo demo_child ∧
    demo_child.pidinfo = [none, some demo_bootrec, some ⟨2, 1, false, 0xbaad, 0⟩, none] ∧
    pid_join demo demo_child 2 2 true 0 = .ok (.returned ⟨-18, none, demo_child⟩) ∧
    pid_join demo demo_child 2 3 true 0 = .ok (.returned ⟨-15, none, demo_child⟩) ∧
    pid_join demo demo_child 2 (-2) true 0 = .error .kassert :=
  have h := (pid_join_failures_classified demo demo_child 2 2 true 0 (by decide)
    (by decide) (by decide) (by decide)).2 (by decide)
  ⟨demo_child_reachable, rfl,
   (h.2.1 ⟨2, 1, false, 0xbaad, 0⟩ (by decide)).2 (by decide) rfl, by decide,
   (((pid_join_failures_classified demo demo_child 2 (-2) true 0 (by decide)
      (by decide) (by decide) (by decide)).2 (by decide)).2.2.2 (by decide))⟩

/-- C10 as amended: a process whose record is in the table, which is not
the boot process and whose `pi_ppid` is not `INVALID_PID`, gets `-EDEADLK`
from `pid_join` on its own pid, whatever `flags` is, with nothing stored and
the table unchanged; the boot process gets `-EINVAL`, and so does a process
whose `pi_ppid` is `INVALID_PID`. -/
theorem pid_join_self_result (c : Consts) (s : PidState) (caller : Int) (nn : Bool)
    (flags : Int) (r : pidinfo) (hpi : pi_get c s caller = .ok (some r)) :
    pid_join c s caller caller nn flags =
      .ok (.returned
        { ret := if caller = c.BOOTUP_PID ∨ r.pi_ppid = c.INVALID_PID then -c.EINVAL
                 else -c.EDEADLK,
          out := none, st := s }) := by
  have hne : caller ≠ c.INVALID_PID := ((pi_get_some c s caller r).1 hpi).2.1
  by_cases hb : caller = c.BOOTUP_PID
  · simp only [hb, true_or, if_true]
    exact pid_join_sentinel c s _ _ nn flags (Or.inr rfl)
  · have hs : ¬ (caller = c.INVALID_PID ∨ caller = c.BOOTUP_PID) := by
      intro h; cases h with
      | inl h => exact hne h
      | inr h => exact hb h
    by_cases hd : r.pi_ppid = c.INVALID_PID
    · simp only [hd, or_true, if_true]
      exact pid_join_detached c s caller caller nn flags hs r hpi _ hpi hd
    · simp only [hb, hd, or_self, if_false]
      exact pid_join_self c s caller nn flags hs r hpi hd

/-- C10 as amended, evaluated: process 2, a child of the boot process, joins
itself with `WNOHANG`. -/
theorem pid_join_self_result_witness :
    pid_join demo demo_child 2 2 false 1 = .ok (.returned ⟨-18, none, demo_child⟩) :=
  pid_join_self_result demo demo_child 2 false 1 ⟨2, 1, false, 0xbaad, 0⟩ (by decide)

/-- C10 refuted as stated: in the table `pid_bootstrap` builds, the boot
process, whose record is in the table, joins itself and gets `-EINVAL`; so
does process 2 in the table reached once the boot process has detached it.
Neither value is `-EDEADLK`. -/
theorem pid_join_self_counterexample :
    Reachable demo demo_boot ∧
    pi_get demo demo_boot 1 = .ok (some demo_bootrec) ∧
    pid_join demo demo_boot 1 1 true 0 = .ok (.returned ⟨-demo.EINVAL, none, demo_boot⟩) ∧
    Reachable demo demo_detached_child ∧
    pi_get demo demo_detached_child 2 = .ok (some ⟨2, demo.INVALID_PID, false, 0xbaad, 0⟩) ∧
    pid_join demo demo_detached_child 2 2 true 0 =
      .ok (.returned ⟨-demo.EINVAL, none, demo_detached_child⟩) ∧
    -demo.EINVAL ≠ -demo.EDEADLK :=
  ⟨demo_boot_reachable, by decide, by decide, demo_detached_child_reachable, by decide,
    by decide, by decide⟩

/-! ## Exiting -/

/-- C7 as amended: in a table the kernel can be in, `pid_exit(status,
dodetach)` by a caller whose record `me` is in the table returns.  If
`me.pi_ppid` is `INVALID_PID` the caller's slot is then empty and `nprocs` has
dropped by one, and with `dodetach` by one more for each child of the caller
that had already exited; otherwise the caller's record is `me` with
`pi_exited` true and `pi_exitstatus` equal to `status`, its `pi_ppid` as
before.  Without `dodetach` every other slot and the cursor are unchanged. -/
theorem pid_exit_own_record (c : Consts) (hc : c.wf) (s : PidState) (hs : Reachable c s)
    (caller status : Int) (dodetach : Bool) (me : pidinfo)
    (hme : pi_get c s caller = .ok (some me)) :
    ∃ s1, pid_exit c s caller status dodetach = .ok s1 ∧
      (me.pi_ppid = c.INVALID_PID →
        pi_get c s1 caller = .ok none ∧ s1.pidinfo[slot c caller]? = some none ∧
        s1.nprocs = s.nprocs - 1 -
          (if dodetach = true then (exited_children s caller : Int) else 0)) ∧
      (me.pi_ppid ≠ c.INVALID_PID →
        pi_get c s1 caller =
          .ok (some { me with pi_exitstatus := status, pi_exited := true }) ∧
        (dodetach = false → s1.nprocs = s.nprocs)) ∧
      (dodetach = false →
        s1.nextpid = s.nextpid ∧
        ∀ (i : Nat), i ≠ slot c caller → s1.pidinfo[i]? = s.pidinfo[i]?) := by
  have hI := hs.inv hc
  obtain ⟨h0, hne, hsl, hp⟩ := (pi_get_some c s caller me).1 hme
  have hlen := getElem?_lt hsl
  have hlen2 : slot c caller <
      (if dodetach = true then s.disowned c caller else s).pidinfo.length := by
    cases dodetach with
    | false => simpa using hlen
    | true => simpa [PidState.disowned] using hlen
  refine ⟨_, pid_exit_spec c hc s hI caller status dodetach me hme, ?_, ?_, ?_⟩
  · intro hd
    rw [if_pos hd]
    refine ⟨pi_get_reclaim_self c _ caller h0 hne hlen2, ?_, ?_⟩
    · simp only [PidState.reclaim]
      exact List.getElem?_set_self hlen2
    · cases dodetach with
      | false => simp [PidState.reclaim]
      | true => simp [PidState.reclaim, PidState.disowned]; omega
  · intro hd
    rw [if_neg hd]
    refine ⟨pi_get_store_self c _ caller (me.exited_with status) h0 hne hlen2 hp, ?_⟩
    intro hf
    subst hf
    simp [PidState.store]
  · intro hf
    subst hf
    by_cases hd : me.pi_ppid = c.INVALID_PID
    · rw [if_pos hd]
      refine ⟨by simp [PidState.reclaim], fun i hi => ?_⟩
      simp only [PidState.reclaim, Bool.false_eq_true, if_false]
      exact List.getElem?_set_ne (Ne.symm hi)
    · rw [if_neg hd]
      refine ⟨by simp [PidState.store], fun i hi => ?_⟩
      simp only [PidState.store, Bool.false_eq_true, if_false]
      exact List.getElem?_set_ne (Ne.symm hi)

/-- C7 as amended, evaluated: the detached process 2, whose child 3 has
exited, calls `pid_exit(7, true)`; its slot is emptied and the live count
goes from 3 to 1. -/
theorem pid_exit_own_record_witness :
    ∃ s1, pid_exit demo demo_detached_parent 2 7 true = .ok s1 ∧
      pi_get demo s1 2 = .ok none ∧ s1.pidinfo[slot demo 2]? = some none ∧
      s1.nprocs = demo_detached_parent.nprocs - 1 -
        (exited_children demo_detached_parent 2 : Int) := by
  obtain ⟨s1, h1, h2, _, _⟩ := pid_exit_own_record demo (by decide) demo_detached_parent
    demo_detached_parent_reachable 2 7 true ⟨2, 0, false, 0xbaad, 0⟩ (by decide)
  exact ⟨s1, h1, by simpa using h2 (by decide)⟩

/-- C7 refuted as stated: the table `demo_detached_parent` can be reached;
in it process 2 has `pi_ppid == INVALID_PID` and its child 3 has exited; its
`pid_exit(7, true)` removes both records, so the live count drops from 3 to
1, by two and not by one. -/
theorem pid_exit_own_record_counterexample :
    Reachable demo demo_detached_parent ∧
    pi_get demo demo_detached_parent 2 = .ok (some ⟨2, demo.INVALID_PID, false, 0xbaad, 0⟩) ∧
    pid_exit demo demo_detached_parent 2 7 true =
      .ok ⟨[none, some demo_bootrec, none, none], 4, 1⟩ ∧
    (1 : Int) ≠ demo_detached_parent.nprocs - 1 :=
  ⟨demo_detached_parent_reachable, by decide, by decide, by decide⟩

/-- C8 as amended: in a table the kernel can be in, `pid_exit(status, true)` by
a process `P` whose record `me` is in the table returns a table in which no
record has `pi_ppid == P`; every child of `P` that had not exited is in its
slot with `pi_ppid` set to `INVALID_PID` and nothing else changed; the slot of
every child of `P` that had exited is empty; `nprocs` has dropped by the
number of those exited children, and by one more if `P` itself was detached;
every record that is neither `P` nor a child of `P`, every empty slot and the
cursor are unchanged.  In the scenario of the specification (boot allocates
A = 2, A allocates B = 3, A calls `pid_exit(7, true)`) B's parent becomes
`INVALID_PID` and A's record stays, exited with status 7. -/
theorem pid_exit_disowns_children (c : Consts) (hc : c.wf) (s : PidState)
    (hs : Reachable c s) (P status : Int) (me : pidinfo)
    (hme : pi_get c s P = .ok (some me)) :
    (∃ s1, pid_exit c s P status true = .ok s1 ∧
      (∀ (i : Nat) (r : pidinfo), s1.pidinfo[i]? = some (some r) → r.pi_ppid ≠ P) ∧
      (∀ (i : Nat) (r : pidinfo), s.pidinfo[i]? = some (some r) → r.pi_ppid = P →
        r.pi_exited = false →
        s1.pidinfo[i]? = some (some { r with pi_ppid := c.INVALID_PID })) ∧
      (∀ (i : Nat) (r : pidinfo), s.pidinfo[i]? = some (some r) → r.pi_ppid = P →
        r.pi_exited = true → s1.pidinfo[i]? = some none) ∧
      s1.nprocs = s.nprocs - (exited_children s P : Int) -
        (if me.pi_ppid = c.INVALID_PID then 1 else 0) ∧
      (∀ (i : Nat) (r : pidinfo), s.pidinfo[i]? = some (some r) → r.pi_ppid ≠ P →
        r.pi_pid ≠ P → s1.pidinfo[i]? = some (some r)) ∧
      (∀ (i : Nat), s.pidinfo[i]? = some none → s1.pidinfo[i]? = some none) ∧
      s1.nextpid = s.nextpid) ∧
    (pid_alloc demo demo_boot 1 (some 0) = .ok ⟨0, some 2, demo_child⟩ ∧
     pid_alloc demo demo_child 2 (some 0) = .ok ⟨0, some 3, demo_grandchild⟩ ∧
     pid_exit demo demo_grandchild 2 7 true =
      .ok ⟨[none, some demo_bootrec, some ⟨2, 1, true, 7, 0⟩,
            some ⟨3, demo.INVALID_PID, false, 0xbaad, 0⟩], 4, 3⟩) := by
  refine ⟨?_, by decide, by decide, by decide⟩
  have hI := hs.inv hc
  obtain ⟨h0, hne, hsl, hp⟩ := (pi_get_some c s P me).1 hme
  have hlen := getElem?_lt hsl
  have hmeok := hI.recs _ me hsl
  -- the table after the loop, slot by slot
  have hD : ∀ (i : Nat), (s.disowned c P).pidinfo[i]? = (s.pidinfo[i]?).map (disown c P) := by
    intro i
    simp only [PidState.disowned, List.getElem?_map]
  have hDme : (s.disowned c P).pidinfo[slot c P]? = some (some me) := by
    rw [hD, hsl]
    have : me.pi_ppid ≠ P := by rw [← hp]; exact hmeok.2.2.2
    simp [disown, this]
  -- a record found in another slot is not the record of `P`
  have hslotne : ∀ (i : Nat) (r : pidinfo), s.pidinfo[i]? = some (some r) → r.pi_pid ≠ P →
      i ≠ slot c P := by
    intro i r hr hrp e
    rw [e, hsl] at hr
    cases hr
    exact hrp hp
  have hchild : ∀ (i : Nat) (r : pidinfo), s.pidinfo[i]? = some (some r) → r.pi_ppid = P →
      r.pi_pid ≠ P := by
    intro i r hr hpp e
    exact (hI.recs i r hr).2.2.2 (by rw [hpp, e])
  have hspec := pid_exit_spec c hc s hI P status true me hme
  simp only [if_true] at hspec
  -- the final table, slot by slot
  have hfin : ∀ s1, pid_exit c s P status true = .ok s1 →
      (∀ (i : Nat), i ≠ slot c P → s1.pidinfo[i]? = (s.pidinfo[i]?).map (disown c P)) ∧
      (s1.pidinfo[slot c P]? = some none ∨
        s1.pidinfo[slot c P]? = some (some (me.exited_with status))) ∧
      s1.nextpid = s.nextpid ∧
      s1.nprocs = s.nprocs - (exited_children s P : Int) -
        (if me.pi_ppid = c.INVALID_PID then 1 else 0) := by
    intro s1 h1
    rw [hspec] at h1
    have hlenD : slot c P < (s.disowned c P).pidinfo.length := getElem?_lt hDme
    by_cases hd : me.pi_ppid = c.INVALID_PID
    · rw [if_pos hd] at h1
      cases h1
      refine ⟨fun i hi => ?_, Or.inl ?_, rfl, ?_⟩
      · rw [← hD]
        simp only [PidState.reclaim]
        exact List.getElem?_set_ne (Ne.symm hi)
      · simp only [PidState.reclaim]
        exact List.getElem?_set_self hlenD
      · simp [PidState.reclaim, PidState.disowned, hd]
    · rw [if_neg hd] at h1
      cases h1
      refine ⟨fun i hi => ?_, Or.inr ?_, rfl, ?_⟩
      · rw [← hD]
        simp only [PidState.store]
        exact List.getElem?_set_ne (Ne.symm hi)
      · simp only [PidState.store]
        exact List.getElem?_set_self hlenD
      · simp [PidState.store, PidState.disowned, hd]
  refine ⟨_, hspec, ?_⟩
  obtain ⟨ho, hown, hnext, hcount⟩ := hfin _ hspec
  refine ⟨?_, ?_, ?_, hcount, ?_, ?_, hnext⟩
  · intro i r hr
    by_cases hi : i = slot c P
    · subst hi
      rcases hown with h | h
      · rw [h] at hr; cases hr
      · rw [h] at hr
        cases hr
        show me.pi_ppid ≠ P
        rw [← hp]; exact hmeok.2.2.2
    · rw [ho i hi] at hr
      cases hx : s.pidinfo[i]? with
      | none => rw [hx] at hr; cases hr
      | some o =>
        rw [hx] at hr
        cases o with
        | none => simp [disown] at hr
        | some q =>
          simp only [Option.map_some', disown, Option.some.injEq] at hr
          by_cases hq : q.pi_ppid = P
          · by_cases he : q.pi_exited = true
            · simp [hq, he] at hr
            · simp [hq, he] at hr
              subst hr
              show c.INVALID_PID ≠ P
              exact Ne.symm hne
          · simp [hq] at hr
            subst hr
            exact hq
  · intro i r hr hpp he
    rw [ho i (hslotne i r hr (hchild i r hr hpp)), hr]
    simp [disown, hpp, he, pidinfo.detached]
  · intro i r hr hpp he
    rw [ho i (hslotne i r hr (hchild i r hr hpp)), hr]
    simp [disown, hpp, he]
  · intro i r hr hpp hrp
    rw [ho i (hslotne i r hr hrp), hr]
    simp [disown, hpp]
  · intro i hr
    have hi : i ≠ slot c P := by
      intro e
      rw [e, hsl] at hr
      cases hr
    rw [ho i hi, hr]
    simp [disown]

/-- C8 as amended, evaluated on the scenario of the specification. -/
theorem pid_exit_disowns_children_witness :
    ∃ s1, pid_exit demo demo_grandchild 2 7 true = .ok s1 ∧
      (∀ (i : Nat) (r : pidinfo), s1.pidinfo[i]? = some (some r) → r.pi_ppid ≠ 2) ∧
      s1.pidinfo[3]? = some (some ⟨3, demo.INVALID_PID, false, 0xbaad, 0⟩) := by
  obtain ⟨s1, h1, h2, h3, _⟩ := (pid_exit_disowns_children demo (by decide) demo_grandchild
    demo_grandchild_reachable 2 7 ⟨2, 1, false, 0xbaad, 0⟩ (by decide)).1
  exact ⟨s1, h1, h2, h3 3 ⟨3, 2, false, 0xbaad, 0⟩ (by decide) rfl rfl⟩

/-- C8 refuted as stated: the table `demo_two_children` can be reached; in
it the detached process 2 has one exited child, 3, and one running child, 4;
its `pid_exit(7, true)` removes the records of 3 and of 2 itself, so the live
count drops from 4 to 2, by two, while one child had exited. -/
theorem pid_exit_disowns_children_counterexample :
    Reachable demo demo_two_children ∧
    exited_children demo_two_children 2 = 1 ∧
    pid_exit demo demo_two_children 2 7 true =
      .ok ⟨[some ⟨4, demo.INVALID_PID, false, 0xbaad, 0⟩, some demo_bootrec, none, none],
           5, 2⟩ ∧
    (2 : Int) ≠ demo_two_children.nprocs - (exited_children demo_two_children 2 : Int) :=
  ⟨demo_two_children_reachable, by decide, by decide, by decide⟩

/-! ## Reclamation -/

/-- C2: `pi_drop(pid)` returns exactly when slot `pid % PROCS_MAX` holds a
record whose `pi_pid` is `pid`, whose `pi_exited` is true and whose `pi_ppid`
is `INVALID_PID`, and it then empties that slot and lowers `nprocs` by one;
on a record of that pid that has not exited or is still attached it ends in a
failed `KASSERT`; and it never returns with the table as it found it. -/
theorem pi_drop_only_exited_and_detached (c : Consts) (s : PidState) (pid : Int) :
    (∀ s1, pi_drop c s pid = .ok s1 ↔
      ∃ r, 0 ≤ pid ∧ s.pidinfo[slot c pid]? = some (some r) ∧ r.pi_pid = pid ∧
        r.pi_exited = true ∧ r.pi_ppid = c.INVALID_PID ∧
        s1 = { s with pidinfo := s.pidinfo.set (slot c pid) none,
                      nprocs := s.nprocs - 1 }) ∧
    (∀ r, 0 ≤ pid → s.pidinfo[slot c pid]? = some (some r) → r.pi_pid = pid →
      (r.pi_exited = false ∨ r.pi_ppid ≠ c.INVALID_PID) →
      pi_drop c s pid = .error .kassert) ∧
    pi_drop c s pid ≠ .ok s := by
  refine ⟨fun s1 => pi_drop_ok c s pid s1, ?_, ?_⟩
  · intro r h0 hs _ hbad
    exact pi_drop_kassert c s pid r h0 hs (Or.inr hbad)
  · intro h
    obtain ⟨r, _, hs, _, _, _, e⟩ := (pi_drop_ok c s pid s).1 h
    have hlen : slot c pid < s.pidinfo.length := (List.getElem?_eq_some_iff.1 hs).1
    have e2 : s.pidinfo = s.pidinfo.set (slot c pid) none := congrArg PidState.pidinfo e
    rw [e2, List.getElem?_set_self (by simpa using hlen)] at hs
    cases hs

/-- C2, evaluated: a record that has exited and is detached is dropped, one
that has exited but is still attached is refused. -/
theorem pi_drop_only_exited_and_detached_witness :
    pi_drop demo ⟨[none, none, some ⟨2, 0, true, 7, 0⟩, none], 3, 1⟩ 2 =
        .ok ⟨[none, none, none, none], 3, 0⟩ ∧
    pi_drop demo ⟨[none, none, some ⟨2, 1, true, 7, 0⟩, none], 3, 1⟩ 2 =
        .error .kassert := by
  have h := pi_drop_only_exited_and_detached demo
    ⟨[none, none, some ⟨2, 1, true, 7, 0⟩, none], 3, 1⟩ 2
  exact ⟨by decide, h.2.1 ⟨2, 1, true, 7, 0⟩ (by decide) (by decide) rfl (Or.inr (by decide))⟩

/-! ## Joining a target that is attached and is not the caller -/

/-- The result of `pid_join` once all four guards are passed. -/
theorem pid_join_attached (c : Consts) (s : PidState) (caller targetpid : Int) (nn : Bool)
    (flags : Int) (h : ¬ (targetpid = c.INVALID_PID ∨ targetpid = c.BOOTUP_PID))
    (r cur : pidinfo) (hpi : pi_get c s targetpid = .ok (some r))
    (hcur : pi_get c s caller = .ok (some cur))
    (hd : r.pi_ppid ≠ c.INVALID_PID) (hne : targetpid ≠ caller) :
    pid_join c s caller targetpid nn flags = .ok
      (if flags ≠ c.WNOHANG then
        (if r.pi_exited = false then .blocked s
         else .returned { ret := targetpid,
                          out := if nn = true then some r.pi_exitstatus else none,
                          st := s })
       else .returned { ret := 0, out := none, st := s }) := by
  have hp : r.pi_pid = targetpid := ((pi_get_some c s targetpid r).1 hpi).2.2.2
  have hcp : cur.pi_pid = caller := ((pi_get_some c s caller cur).1 hcur).2.2.2
  have hpc : ¬ r.pi_pid = cur.pi_pid := by rw [hp, hcp]; exact hne
  simp only [pid_join, bind, Except.bind, pure, Except.pure, h, if_false, hpi, hcur, hd, hpc]
  by_cases hf : flags = c.WNOHANG
  · simp [hf]
  · by_cases he : r.pi_exited = false
    · simp [hf, he]
    · simp [hf, he]

/-- In a table the kernel can be in, a record whose `pi_ppid` is not
`INVALID_PID` is not the boot record. -/
theorem attached_not_boot (c : Consts) (hc : c.wf) (s : PidState) (hs : Reachable c s)
    (pid : Int) (r : pidinfo) (hpi : pi_get c s pid = .ok (some r))
    (hd : r.pi_ppid ≠ c.INVALID_PID) :
    ¬ (pid = c.INVALID_PID ∨ pid = c.BOOTUP_PID) := by
  obtain ⟨_, hne, hsl, hp⟩ := (pi_get_some c s pid r).1 hpi
  have hI := hs.inv hc
  obtain ⟨_, _, _, _, _, hboot, _⟩ := hc
  intro h
  rcases h with h | h
  · exact hne h
  · rcases (hI.recs _ r hsl).2.1 with b | b
    · exact hd b.2
    · rw [hp, h] at b; omega

/-- C11, as the code behaves: in a table the kernel can be in, for a target
with record `r` that has exited, is attached and is not the caller,
`pid_join` returns without blocking and leaves the table as it was; with
`flags` other than `WNOHANG` it returns `targetpid` and stores
`r.pi_exitstatus` in `*status` (when `status` is not `NULL`); with
`flags == WNOHANG` it returns `0` and stores nothing. -/
theorem pid_join_exited_target (c : Consts) (hc : c.wf) (s : PidState) (hs : Reachable c s)
    (caller targetpid : Int) (nn : Bool) (flags : Int) (r cur : pidinfo)
    (hpi : pi_get c s targetpid = .ok (some r)) (hcur : pi_get c s caller = .ok (some cur))
    (hd : r.pi_ppid ≠ c.INVALID_PID) (hne : targetpid ≠ caller) (he : r.pi_exited = true) :
    (flags ≠ c.WNOHANG →
      pid_join c s caller targetpid nn flags = .ok (.returned
        { ret := targetpid, out := if nn = true then some r.pi_exitstatus else none,
          st := s })) ∧
    (flags = c.WNOHANG →
      pid_join c s caller targetpid nn flags =
        .ok (.returned { ret := 0, out := none, st := s })) := by
  have h := pid_join_attached c s caller targetpid nn flags
    (attached_not_boot c hc s hs targetpid r hpi hd) r cur hpi hcur hd hne
  refine ⟨fun hf => ?_, fun hf => ?_⟩
  · rw [h, if_pos hf, if_neg (by simp [he])]
  · rw [h, if_neg (by simp [hf])]

/-- C11, evaluated where the code departs from the claim: the boot process
joins its exited child 2, whose status is 7, with `WNOHANG`; the call returns
`0` and stores nothing. -/
theorem pid_join_exited_target_witness :
    pi_get demo demo_exited_child 2 = .ok (some ⟨2, 1, true, 7, 0⟩) ∧
    pid_join demo demo_exited_child 1 2 true demo.WNOHANG =
      .ok (.returned ⟨0, none, demo_exited_child⟩) :=
  ⟨by decide,
   (pid_join_exited_target demo (by decide) demo_exited_child demo_exited_child_reachable
      1 2 true demo.WNOHANG ⟨2, 1, true, 7, 0⟩ demo_bootrec (by decide) (by decide)
      (by decide) (by decide) rfl).2 rfl⟩

/-- C12: in a table the kernel can be in, for a target whose record is in the
table, is attached and is not the caller, and so in particular for one that
has not exited, `pid_join` with `flags == WNOHANG` returns `0` at once,
stores nothing in `*status` and leaves the slots, the live count and the
cursor as they were. -/
theorem pid_join_nohang_running (c : Consts) (hc : c.wf) (s : PidState) (hs : Reachable c s)
    (caller targetpid : Int) (nn : Bool) (r cur : pidinfo)
    (hpi : pi_get c s targetpid = .ok (some r)) (hcur : pi_get c s caller = .ok (some cur))
    (hd : r.pi_ppid ≠ c.INVALID_PID) (hne : targetpid ≠ caller) :
    pid_join c s caller targetpid nn c.WNOHANG =
      .ok (.returned { ret := 0, out := none, st := s }) := by
  rw [pid_join_attached c s caller targetpid nn c.WNOHANG
    (attached_not_boot c hc s hs targetpid r hpi hd) r cur hpi hcur hd hne]
  simp

/-- C12, evaluated: the boot process joins its running child 2 with
`WNOHANG`. -/
theorem pid_join_nohang_running_witness :
    pi_get demo demo_child 2 = .ok (some ⟨2, 1, false, 0xbaad, 0⟩) ∧
    pid_join demo demo_child 1 2 true demo.WNOHANG = .ok (.returned ⟨0, none, demo_child⟩) :=
  ⟨by decide,
   pid_join_nohang_running demo (by decide) demo_child demo_child_reachable 1 2 true
    ⟨2, 1, false, 0xbaad, 0⟩ demo_bootrec (by decide) (by decide) (by decide) (by decide)⟩

/-! ## Waiting as the parent -/

/-- C13, as the code behaves: for `flags` in `{0, WNOHANG}`, `pid_wait` on a
target whose record is in the table returns `-ECHILD` with the table as it
was when the record's `pi_ppid` is not the caller, and is `pid_join` with the
same arguments when it is; on a target whose lookup finds no record it
dereferences `NULL`. -/
theorem pid_wait_cases (c : Consts) (s : PidState) (caller targetpid : Int) (nn : Bool)
    (flags : Int) (hf : flags = 0 ∨ flags = c.WNOHANG) :
    (∀ r, pi_get c s targetpid = .ok (some r) → r.pi_ppid ≠ caller →
      pid_wait c s caller targetpid nn flags =
        .ok (.returned { ret := -c.ECHILD, out := none, st := s })) ∧
    (∀ r, pi_get c s targetpid = .ok (some r) → r.pi_ppid = caller →
      pid_wait c s caller targetpid nn flags = pid_join c s caller targetpid nn flags) ∧
    (pi_get c s targetpid = .ok none →
      pid_wait c s caller targetpid nn flags = .error .nullDeref) := by
  have hg : ¬ (flags ≠ 0 ∧ flags ≠ c.WNOHANG) := by
    intro h
    rcases hf with e | e
    · exact h.1 e
    · exact h.2 e
  refine ⟨fun r hpi hp => ?_, fun r hpi hp => ?_, fun hpi => ?_⟩
  · simp only [pid_wait, bind, Except.bind, pure, Except.pure, hg, if_false, hpi]
    simp [hp]
  · simp only [pid_wait, bind, Except.bind, pure, Except.pure, hg, if_false, hpi]
    simp [hp]
  · simp only [pid_wait, bind, Except.bind, pure, Except.pure, hg, if_false, hpi, throw,
      throwThe, MonadExceptOf.throw]

/-- C13, evaluated where the code departs from the claim: in the table
`pid_bootstrap` builds, the boot process waits for pid 2, which has no record. -/
theorem pid_wait_cases_witness :
    pi_get demo demo_boot 2 = .ok none ∧
    pid_wait demo demo_boot 1 2 true 0 = .error .nullDeref :=
  ⟨by decide, (pid_wait_cases demo demo_boot 1 2 true 0 (Or.inl rfl)).2.2 (by decide)⟩

/-! ## The candidate scan of `pid_alloc` finds an empty slot -/

theorem alloc_scan_hit (c : Consts) (s : PidState) (b : Nat) (n : Int) (h0 : 0 ≤ n)
    (h : s.pidinfo[slot c n]? = some none) : alloc_scan c s b n = .ok n := by
  have hr : slot_read c s n = .ok none := (slot_read_ok c s n none).2 ⟨h0, h⟩
  cases b with
  | zero => simp [alloc_scan, bind, Except.bind, pure, Except.pure, hr]
  | succ b => simp [alloc_scan, bind, Except.bind, pure, Except.pure, hr]

theorem alloc_scan_miss (c : Consts) (s : PidState) (b : Nat) (n : Int) (x : pidinfo)
    (h0 : 0 ≤ n) (h : s.pidinfo[slot c n]? = some (some x)) :
    alloc_scan c s (b + 1) n = alloc_scan c s b (inc_nextpid c n) := by
  have hr : slot_read c s n = .ok (some x) := (slot_read_ok c s n _).2 ⟨h0, h⟩
  simp [alloc_scan, bind, Except.bind, hr]

/-- Among `N` consecutive numbers one has a given remainder modulo `N`. -/
theorem exists_offset (N A e : Nat) (hN : 0 < N) (he : e < N) :
    ∃ k, k < N ∧ (A + k) % N = e := by
  refine ⟨(e + (N - A % N)) % N, Nat.mod_lt _ hN, ?_⟩
  rw [Nat.add_mod_mod]
  have hr : A % N < N := Nat.mod_lt _ hN
  have hA : N * (A / N) + A % N = A := Nat.div_add_mod A N
  have : A + (e + (N - A % N)) = e + N * (A / N + 1) := by
    rw [Nat.mul_succ]
    omega
  rw [this, Nat.add_mul_mod_self_left, Nat.mod_eq_of_lt he]

/-- The scan returns when an empty slot lies `k` pids ahead of the cursor,
before `PID_MAX`, and the budget is at least `k`. -/
theorem alloc_scan_run (c : Consts) (s : PidState) (hpos : 0 < c.PROCS_MAX)
    (hlen : s.pidinfo.length = c.PROCS_MAX) :
    ∀ (k b : Nat) (n : Int), 0 ≤ n → n + (k : Int) ≤ c.PID_MAX → k ≤ b →
      s.pidinfo[slot c (n + (k : Int))]? = some none →
      ∃ q, alloc_scan c s b n = .ok q := by
  intro k
  induction k with
  | zero =>
    intro b n h0 _ _ he
    simp only [Nat.cast_zero, add_zero] at he
    exact ⟨n, alloc_scan_hit c s b n h0 he⟩
  | succ k ih =>
    intro b n h0 hmax hb he
    have hlt : slot c n < s.pidinfo.length := by rw [hlen]; exact Nat.mod_lt _ hpos
    have hget : s.pidinfo[slot c n]? = some (s.pidinfo[slot c n]) := List.getElem?_eq_getElem hlt
    cases hv : s.pidinfo[slot c n] with
    | none => exact ⟨n, alloc_scan_hit c s b n h0 (by rw [hget, hv])⟩
    | some x =>
      obtain ⟨b1, rfl⟩ : ∃ b1, b = b1 + 1 := ⟨b - 1, by omega⟩
      rw [alloc_scan_miss c s b1 n x h0 (by rw [hget, hv])]
      have hinc : inc_nextpid c n = n + 1 := by
        unfold inc_nextpid
        rw [if_neg (by push_cast at hmax; omega)]
      rw [hinc]
      refine ih b1 (n + 1) (by omega) (by push_cast at hmax; omega) (by omega) ?_
      have : n + 1 + (k : Int) = n + ((k + 1 : Nat) : Int) := by push_cast; ring
      rw [this]; exact he

/-- The scan returns when the cursor is `d` pids before `PID_MAX`, some slot
is empty, and the budget is at least `d + PROCS_MAX`. -/
theorem alloc_scan_wrap (c : Consts) (hc : c.wf) (hcov : c.covers) (s : PidState)
    (hlen : s.pidinfo.length = c.PROCS_MAX) (e : Nat) (he : s.pidinfo[e]? = some none) :
    ∀ (d b : Nat) (n : Int), c.PID_MIN ≤ n → n + (d : Int) = c.PID_MAX →
      d + c.PROCS_MAX ≤ b → ∃ q, alloc_scan c s b n = .ok q := by
  obtain ⟨hpos, _, _, _, _, _, hm0, hmin, _⟩ := hc
  have helt : e < c.PROCS_MAX := by rw [← hlen]; exact getElem?_lt he
  -- an empty slot within `PROCS_MAX` pids of `PID_MIN`
  have hfromMin : ∀ b, c.PROCS_MAX ≤ b + 1 → ∃ q, alloc_scan c s b c.PID_MIN = .ok q := by
    intro b hb
    obtain ⟨k, hk, hke⟩ := exists_offset c.PROCS_MAX c.PID_MIN.toNat e hpos helt
    refine alloc_scan_run c s hpos hlen k b c.PID_MIN hm0 ?_ (by omega) ?_
    · unfold Consts.covers at hcov; omega
    · have : slot c (c.PID_MIN + (k : Int)) = e := by
        unfold slot
        have : (c.PID_MIN + (k : Int)).toNat = c.PID_MIN.toNat + k := by omega
        rw [this]; exact hke
      rw [this]; exact he
  intro d
  induction d with
  | zero =>
    intro b n hn hd hb
    have h0 : 0 ≤ n := by omega
    have hlt : slot c n < s.pidinfo.length := by rw [hlen]; exact Nat.mod_lt _ hpos
    have hget : s.pidinfo[slot c n]? = some (s.pidinfo[slot c n]) := List.getElem?_eq_getElem hlt
    cases hv : s.pidinfo[slot c n] with
    | none => exact ⟨n, alloc_scan_hit c s b n h0 (by rw [hget, hv])⟩
    | some x =>
      obtain ⟨b1, rfl⟩ : ∃ b1, b = b1 + 1 := ⟨b - 1, by omega⟩
      rw [alloc_scan_miss c s b1 n x h0 (by rw [hget, hv])]
      have hinc : inc_nextpid c n = c.PID_MIN := by
        unfold inc_nextpid
        rw [if_pos (by push_cast at hd; omega)]
      rw [hinc]
      exact hfromMin b1 (by omega)
  | succ d ih =>
    intro b n hn hd hb
    have h0 : 0 ≤ n := by omega
    have hlt : slot c n < s.pidinfo.length := by rw [hlen]; exact Nat.mod_lt _ hpos
    have hget : s.pidinfo[slot c n]? = some (s.pidinfo[slot c n]) := List.getElem?_eq_getElem hlt
    cases hv : s.pidinfo[slot c n] with
    | none => exact ⟨n, alloc_scan_hit c s b n h0 (by rw [hget, hv])⟩
    | some x =>
      obtain ⟨b1, rfl⟩ : ∃ b1, b = b1 + 1 := ⟨b - 1, by omega⟩
      rw [alloc_scan_miss c s b1 n x h0 (by rw [hget, hv])]
      have hinc : inc_nextpid c n = n + 1 := by
        unfold inc_nextpid
        rw [if_neg (by push_cast at hd; omega)]
      rw [hinc]
      exact ih b1 (n + 1) (by omega) (by push_cast at hd ⊢; omega) (by omega)

/-- A table with fewer records than slots has an empty slot. -/
theorem exists_empty_slot (s : PidState) (h : occupied s < s.pidinfo.length) :
    ∃ e : Nat, s.pidinfo[e]? = some none := by
  have hne : ¬ ∀ a ∈ s.pidinfo, Option.isSome a = true := by
    intro hall
    have := List.countP_eq_length.2 hall
    unfold occupied at h
    omega
  push_neg at hne
  obtain ⟨a, ha, hna⟩ := hne
  obtain ⟨i, hi, hie⟩ := List.getElem_of_mem ha
  refine ⟨i, ?_⟩
  rw [List.getElem?_eq_getElem hi, hie]
  cases a with
  | none => rfl
  | some x => simp at hna

/-- The scan of `pid_alloc` returns in a table that satisfies the invariant
and is not full: the `KASSERT` on `count` does not fail. -/
theorem alloc_scan_finds (c : Consts) (hc : c.wf) (hcov : c.covers) (s : PidState)
    (hI : Inv c s) (hn : s.nprocs ≠ (c.PROCS_MAX : Int)) :
    ∃ q, alloc_scan c s (c.PROCS_MAX * 2 + 5) s.nextpid = .ok q := by
  have hocc : occupied s < s.pidinfo.length := by
    have hle : occupied s ≤ s.pidinfo.length := List.countP_le_length _
    have h1 := hI.count
    have h2 := hI.len
    omega
  obtain ⟨e, he⟩ := exists_empty_slot s hocc
  have hc2 := hc
  obtain ⟨hpos, _, _, _, _, _, hm0, hmin, _⟩ := hc
  have helt : e < c.PROCS_MAX := by rw [← hI.len]; exact getElem?_lt he
  obtain ⟨hlo, hhi⟩ := hI.cursor
  obtain ⟨k, hk, hke⟩ := exists_offset c.PROCS_MAX s.nextpid.toNat e hpos helt
  by_cases hfit : s.nextpid + (k : Int) ≤ c.PID_MAX
  · refine alloc_scan_run c s hpos hI.len k _ s.nextpid (by omega) hfit (by omega) ?_
    have : slot c (s.nextpid + (k : Int)) = e := by
      unfold slot
      have : (s.nextpid + (k : Int)).toNat = s.nextpid.toNat + k := by omega
      rw [this]; exact hke
    rw [this]; exact he
  · exact alloc_scan_wrap c hc2 hcov s hI.len e he (c.PID_MAX - s.nextpid).toNat _ s.nextpid
      hlo (by omega) (by omega)

/-! ## `pid_alloc`: exhaustion, success, failed storage -/

/-- The result of `pid_alloc` when the table is not full and the scan settles
on `q`. -/
theorem pid_alloc_of_scan (c : Consts) (s : PidState) (caller : Int) (mem : Option Int)
    (q : Int) (hcl : caller ≠ c.INVALID_PID) (hn : s.nprocs ≠ (c.PROCS_MAX : Int))
    (hscan : alloc_scan c s (c.PROCS_MAX * 2 + 5) s.nextpid = .ok q)
    (hq : q ≠ c.INVALID_PID) :
    pid_alloc c s caller mem = .ok
      (match mem with
       | none => { ret := c.ENOMEM, out := none, st := { s with nextpid := q } }
       | some g =>
         { ret := 0, out := some q,
           st := { pidinfo := s.pidinfo.set (slot c q) (some ⟨q, caller, false, 0xbaad, g⟩),
                   nextpid := inc_nextpid c q,
                   nprocs := s.nprocs + 1 } }) := by
  have hqe := alloc_scan_empty c s _ _ _ hscan
  cases mem with
  | none =>
    simp [pid_alloc, bind, Except.bind, pure, Except.pure, hcl, hn, hscan, pidinfo_create, hq]
  | some g =>
    have hr : slot_read c { s with nextpid := q } q = .ok none :=
      (slot_read_ok c _ q none).2 hqe
    have hw : slot_write c { s with nextpid := q } q (some ⟨q, caller, false, 0xbaad, g⟩) =
        .ok { pidinfo := s.pidinfo.set (slot c q) (some ⟨q, caller, false, 0xbaad, g⟩),
              nextpid := q, nprocs := s.nprocs } :=
      (slot_write_ok c _ q _ _).2 ⟨hqe.1, getElem?_lt hqe.2, rfl⟩
    simp [pid_alloc, bind, Except.bind, pure, Except.pure, hcl, hn, hscan, pidinfo_create, hq,
      pi_put, hr, hw]

/-- In a table that satisfies the invariant and is not full, `pid_alloc`
returns: with `ENOMEM` when storage is refused and with `0` and a new
identifier otherwise. -/
theorem pid_alloc_not_full (c : Consts) (hc : c.wf) (hcov : c.covers) (s : PidState)
    (hI : Inv c s) (caller : Int) (hcl : caller ≠ c.INVALID_PID)
    (hn : s.nprocs ≠ (c.PROCS_MAX : Int)) (mem : Option Int) :
    ∃ q, c.PID_MIN ≤ q ∧ q ≤ c.PID_MAX ∧ s.pidinfo[slot c q]? = some none ∧
      pid_alloc c s caller mem = .ok
        (match mem with
         | none => { ret := c.ENOMEM, out := none, st := { s with nextpid := q } }
         | some g =>
           { ret := 0, out := some q,
             st := { pidinfo := s.pidinfo.set (slot c q) (some ⟨q, caller, false, 0xbaad, g⟩),
                     nextpid := inc_nextpid c q,
                     nprocs := s.nprocs + 1 } }) := by
  obtain ⟨q, hscan⟩ := alloc_scan_finds c hc hcov s hI hn
  obtain ⟨_, _, _, _, hinv, _, _, hmin, _⟩ := hc
  have hqr := alloc_scan_range c s hmin _ _ _ hscan hI.cursor
  have hqe := alloc_scan_empty c s _ _ _ hscan
  exact ⟨q, hqr.1, hqr.2, hqe.2,
    pid_alloc_of_scan c s caller mem q hcl hn hscan (by omega)⟩

/-- C14: in a table the kernel can be in, with constants that give every
slot a pid and distinct values to `EAGAIN` and `ENOMEM`, a call of `pid_alloc`
by a caller other than `INVALID_PID` returns, and returns `EAGAIN` exactly
when `nprocs == PROCS_MAX` on entry; in that case the slots, the live count
and the cursor are as before; and when `nprocs < PROCS_MAX` and storage is
granted it returns `0` and stores an identifier in `*retval`. -/
theorem pid_alloc_eagain_iff_full (c : Consts) (hc : c.wf) (hcov : c.covers)
    (hE : c.EAGAIN ≠ c.ENOMEM) (s : PidState) (hs : Reachable c s) (caller : Int)
    (hcl : caller ≠ c.INVALID_PID) :
    (∀ mem, ∃ r, pid_alloc c s caller mem = .ok r ∧
      (r.ret = c.EAGAIN ↔ s.nprocs = (c.PROCS_MAX : Int))) ∧
    (s.nprocs = (c.PROCS_MAX : Int) →
      ∀ mem, pid_alloc c s caller mem = .ok { ret := c.EAGAIN, out := none, st := s }) ∧
    (s.nprocs < (c.PROCS_MAX : Int) →
      ∀ g, ∃ r p, pid_alloc c s caller (some g) = .ok r ∧ r.ret = 0 ∧ r.out = some p) := by
  have hI := hs.inv hc
  have hfull : s.nprocs = (c.PROCS_MAX : Int) →
      ∀ mem, pid_alloc c s caller mem = .ok { ret := c.EAGAIN, out := none, st := s } := by
    intro hn mem
    simp [pid_alloc, bind, Except.bind, pure, Except.pure, hcl, hn]
  have hpos : 0 < c.EAGAIN := hc.2.2.2.2.2.2.2.2.2.2.2.2.1
  refine ⟨fun mem => ?_, hfull, fun hlt g => ?_⟩
  · by_cases hn : s.nprocs = (c.PROCS_MAX : Int)
    · exact ⟨_, hfull hn mem, fun _ => hn, fun _ => rfl⟩
    · obtain ⟨q, _, _, _, h⟩ := pid_alloc_not_full c hc hcov s hI caller hcl hn mem
      refine ⟨_, h, fun e => ?_, fun e => absurd e hn⟩
      cases mem with
      | none => exact absurd e.symm hE
      | some g => simp at e; omega
  · obtain ⟨q, _, _, _, h⟩ :=
      pid_alloc_not_full c hc hcov s hI caller hcl (by omega) (some g)
    exact ⟨_, q, h, rfl, rfl⟩

theorem demo_siblings_reachable : Reachable demo demo_siblings :=
  Reachable.alloc demo_child 1 (some 0) ⟨0, some 3, demo_siblings⟩ demo_child_reachable
    ⟨demo_bootrec, by decide, rfl⟩ (by decide)

theorem demo_full_reachable : Reachable demo demo_full :=
  Reachable.alloc demo_siblings 1 (some 0) ⟨0, some 4, demo_full⟩ demo_siblings_reachable
    ⟨demo_bootrec, by decide, rfl⟩ (by decide)

/-- C14, evaluated: in the full table of `demo` process 2 is refused with
`EAGAIN`, whether or not storage could be had, and the table is left alone. -/
theorem pid_alloc_eagain_iff_full_witness :
    pid_alloc demo demo_full 2 none = .ok ⟨demo.EAGAIN, none, demo_full⟩ :=
  (pid_alloc_eagain_iff_full demo (by decide) (by decide) (by decide) demo_full
      demo_full_reachable 2 (by decide)).2.1 (by decide) none

/-- The scan either stops at the cursor, whose slot is empty, or finds the
slot of the cursor taken and goes on from the next pid with one unit of
budget less. -/
theorem alloc_scan_step_taken (c : Consts) (s : PidState) (budget : Nat) (n q : Int)
    (h : alloc_scan c s budget n = .ok q) :
    (0 ≤ n ∧ s.pidinfo[slot c n]? = some none ∧ q = n) ∨
    (∃ b x, budget = b + 1 ∧ s.pidinfo[slot c n]? = some (some x) ∧
      alloc_scan c s b (inc_nextpid c n) = .ok q) := by
  cases hs : slot_read c s n with
  | error e =>
    cases budget <;>
      simp [alloc_scan, bind, Except.bind, hs] at h
  | ok v =>
    have hv := (slot_read_ok c s n v).1 hs
    cases v with
    | none =>
      left
      rw [alloc_scan_hit c s budget n hv.1 hv.2] at h
      cases h
      exact ⟨hv.1, hv.2, rfl⟩
    | some x =>
      right
      cases budget with
      | zero =>
        simp [alloc_scan, bind, Except.bind, pure, Except.pure, throw, throwThe,
          MonadExceptOf.throw, hs] at h
      | succ b =>
        rw [alloc_scan_miss c s b n x hv.1 hv.2] at h
        exact ⟨b, x, rfl, hv.2, h⟩

theorem candidate_shift (c : Consts) (n : Int) (k : Nat) :
    candidate c n (k + 1) = candidate c (inc_nextpid c n) k := by
  induction k with
  | zero => rfl
  | succ k ih =>
    show inc_nextpid c (candidate c n (k + 1)) = inc_nextpid c (candidate c (inc_nextpid c n) k)
    rw [ih]

theorem candidate_range (c : Consts) (hmin : c.PID_MIN ≤ c.PID_MAX) (n : Int)
    (h : c.PID_MIN ≤ n ∧ n ≤ c.PID_MAX) (k : Nat) :
    c.PID_MIN ≤ candidate c n k ∧ candidate c n k ≤ c.PID_MAX := by
  induction k with
  | zero => exact h
  | succ k ih => exact inc_nextpid_range c _ hmin ih

/-- The pid the scan settles on is the first candidate whose slot is empty. -/
theorem alloc_scan_first (c : Consts) (s : PidState) :
    ∀ (budget : Nat) (n q : Int), alloc_scan c s budget n = .ok q →
      ∃ k, k ≤ budget ∧ q = candidate c n k ∧ s.pidinfo[slot c q]? = some none ∧
        ∀ j, j < k → ∃ x, s.pidinfo[slot c (candidate c n j)]? = some (some x) := by
  intro budget
  induction budget with
  | zero =>
    intro n q h
    rcases alloc_scan_step_taken c s 0 n q h with ⟨_, hs, e⟩ | ⟨b, x, hb, _, _⟩
    · subst e
      exact ⟨0, le_refl _, rfl, hs, fun j hj => absurd hj (Nat.not_lt_zero j)⟩
    · omega
  | succ b ih =>
    intro n q h
    rcases alloc_scan_step_taken c s (b + 1) n q h with ⟨_, hs, e⟩ | ⟨b1, x, hb, hx, h1⟩
    · subst e
      exact ⟨0, Nat.zero_le _, rfl, hs, fun j hj => absurd hj (Nat.not_lt_zero j)⟩
    · have : b1 = b := by omega
      subst this
      obtain ⟨k, hk, hq, hs, hall⟩ := ih _ _ h1
      refine ⟨k + 1, by omega, by rw [candidate_shift]; exact hq, hs, fun j hj => ?_⟩
      cases j with
      | zero => exact ⟨x, hx⟩
      | succ j =>
        rw [candidate_shift]
        exact hall j (by omega)

/-- C16: in a table the kernel can be in, a call of `pid_alloc` that stores an
identifier `p` in `*retval` returns `0`; `p` is the first of the pids
`nextpid, inc_nextpid(nextpid), ...` (each the successor of the one before,
`PID_MIN` following `PID_MAX`) whose slot is empty; the slot of `p` then holds
a new record with `pi_pid == p`, `pi_ppid` the caller and `pi_exited` false;
`nprocs` is one larger; every other slot is unchanged; and the cursor is
`p + 1`, or `PID_MIN` when `p == PID_MAX`. -/
theorem pid_alloc_success_state (c : Consts) (hc : c.wf) (s : PidState) (hs : Reachable c s)
    (caller : Int) (mem : Option Int) (r : Ret) (p : Int)
    (h : pid_alloc c s caller mem = .ok r) (hout : r.out = some p) :
    r.ret = 0 ∧
    (∃ k, p = candidate c s.nextpid k ∧ s.pidinfo[slot c p]? = some none ∧
      ∀ j, j < k → ∃ x, s.pidinfo[slot c (candidate c s.nextpid j)]? = some (some x)) ∧
    (∀ j, (c.PID_MIN ≤ candidate c s.nextpid j ∧ candidate c s.nextpid j ≤ c.PID_MAX) ∧
      candidate c s.nextpid (j + 1) =
        if candidate c s.nextpid j = c.PID_MAX then c.PID_MIN
        else candidate c s.nextpid j + 1) ∧
    (∃ g, mem = some g ∧
      r.st.pidinfo = s.pidinfo.set (slot c p) (some ⟨p, caller, false, 0xbaad, g⟩) ∧
      pi_get c r.st p = .ok (some ⟨p, caller, false, 0xbaad, g⟩)) ∧
    r.st.nprocs = s.nprocs + 1 ∧
    (∀ (i : Nat), i ≠ slot c p → r.st.pidinfo[i]? = s.pidinfo[i]?) ∧
    r.st.nextpid = (if p = c.PID_MAX then c.PID_MIN else p + 1) := by
  have hI := hs.inv hc
  obtain ⟨_, _, _, _, hinv, _, hm0, hmin, _⟩ := hc
  have hsucc : ∀ n : Int, n ≤ c.PID_MAX →
      inc_nextpid c n = if n = c.PID_MAX then c.PID_MIN else n + 1 := by
    intro n hn
    unfold inc_nextpid
    by_cases e : n = c.PID_MAX
    · rw [if_pos (by omega), if_pos e]
    · rw [if_neg (by omega), if_neg e]
  obtain ⟨_, h1⟩ := pid_alloc_ok c s caller mem r h
  rcases h1 with ⟨_, e⟩ | ⟨_, q, hscan, hq, h2⟩
  · rw [e] at hout; cases hout
  · rcases h2 with ⟨_, e⟩ | ⟨g, hg, e⟩
    · rw [e] at hout; cases hout
    · rw [e] at hout
      simp only [Option.some.injEq] at hout
      subst hout
      have hqr := alloc_scan_range c s hmin _ _ _ hscan hI.cursor
      obtain ⟨k, _, hk, hempty, hall⟩ := alloc_scan_first c s _ _ _ hscan
      have hlen := getElem?_lt hempty
      refine ⟨by rw [e], ⟨k, hk, hempty, hall⟩, fun j => ?_, ⟨g, hg, by rw [e], ?_⟩,
        by rw [e], fun i hi => ?_, ?_⟩
      · have hr := candidate_range c hmin s.nextpid hI.cursor j
        exact ⟨hr, hsucc _ hr.2⟩
      · rw [e, pi_get_some]
        exact ⟨by omega, hq, List.getElem?_set_self hlen, rfl⟩
      · rw [e]
        exact List.getElem?_set_ne (Ne.symm hi)
      · rw [e]
        exact hsucc q hqr.2

/-- C16, evaluated: with pids 2 and 3 taken and the cursor at 4, the boot
process is given pid 4, which goes to slot 0, and the cursor moves to 5. -/
theorem pid_alloc_success_state_witness :
    pid_alloc demo demo_siblings 1 (some 0) = .ok ⟨0, some 4, demo_full⟩ ∧
    demo_full.nprocs = demo_siblings.nprocs + 1 ∧
    demo_full.nextpid = (if (4 : Int) = demo.PID_MAX then demo.PID_MIN else 4 + 1) :=
  have h := pid_alloc_success_state demo (by decide) demo_siblings demo_siblings_reachable
    1 (some 0) ⟨0, some 4, demo_full⟩ 4 (by decide) rfl
  ⟨by decide, h.2.2.2.2.1, h.2.2.2.2.2.2⟩

/-- C17: in a table the kernel can be in that is not full, with constants
that give every slot a pid, a call of `pid_alloc` that is refused storage
returns `ENOMEM`, stores no identifier in `*retval`, and leaves every slot
and `nprocs` as they were; the cursor stays in `PID_MIN..PID_MAX`, on the
candidate the scan settled on. -/
theorem pid_alloc_enomem (c : Consts) (hc : c.wf) (hcov : c.covers) (s : PidState)
    (hs : Reachable c s) (caller : Int) (hcl : caller ≠ c.INVALID_PID)
    (hn : s.nprocs ≠ (c.PROCS_MAX : Int)) :
    ∃ r, pid_alloc c s caller none = .ok r ∧ r.ret = c.ENOMEM ∧ r.out = none ∧
      r.st.pidinfo = s.pidinfo ∧ r.st.nprocs = s.nprocs ∧
      c.PID_MIN ≤ r.st.nextpid ∧ r.st.nextpid ≤ c.PID_MAX ∧
      s.pidinfo[slot c r.st.nextpid]? = some none := by
  obtain ⟨q, h1, h2, h3, h⟩ := pid_alloc_not_full c hc hcov s (hs.inv hc) caller hcl hn none
  exact ⟨_, h, rfl, rfl, rfl, rfl, h1, h2, h3⟩

/-- C17, evaluated: the boot process is refused storage in the table
`pid_bootstrap` builds. -/
theorem pid_alloc_enomem_witness :
    ∃ r, pid_alloc demo demo_boot 1 none = .ok r ∧ r.ret = demo.ENOMEM ∧ r.out = none ∧
      r.st.pidinfo = demo_boot.pidinfo ∧ r.st.nprocs = demo_boot.nprocs := by
  obtain ⟨r, h1, h2, h3, h4, h5, _⟩ := pid_alloc_enomem demo (by decide) (by decide) demo_boot
    demo_boot_reachable 1 (by decide) (by decide)
  exact ⟨r, h1, h2, h3, h4, h5⟩

/-! ## Filling the table and freeing a slot again -/

/-- A table that satisfies the invariant and has an empty slot is not full. -/
theorem Inv.not_full {c : Consts} {s : PidState} (hI : Inv c s) (e : Nat)
    (he : s.pidinfo[e]? = some none) : s.nprocs ≠ (c.PROCS_MAX : Int) := by
  have hlt := getElem?_lt he
  have hi : s.pidinfo[e] = none := (List.getElem?_eq_some_iff.1 he).2
  have hocc : occupied s < s.pidinfo.length := by
    have hle : occupied s ≤ s.pidinfo.length := List.countP_le_length _
    have hne : occupied s ≠ s.pidinfo.length := by
      intro heq
      have hall := List.countP_eq_length.1 heq
      have := hall none (by rw [← hi]; exact List.getElem_mem hlt)
      simp at this
    omega
  have h1 := hI.count
  have h2 := hI.len
  omega

/-- After `n` successful calls of `pid_alloc` in a row the table can still be
reached and holds `n` more records. -/
theorem AllocRun.facts {c : Consts} (hc : c.wf) {s s1 : PidState} {n : Nat}
    (h : AllocRun c s n s1) (hs : Reachable c s) :
    Reachable c s1 ∧ s1.nprocs = s.nprocs + (n : Int) := by
  have hpos : 0 < c.EAGAIN := hc.2.2.2.2.2.2.2.2.2.2.2.2.1
  induction h with
  | zero => exact ⟨hs, by simp⟩
  | succ s1 n caller g r _ hl ha h0 ih =>
    obtain ⟨hr, hn⟩ := ih
    refine ⟨Reachable.alloc s1 caller (some g) r hr hl ha, ?_⟩
    obtain ⟨_, h1⟩ := pid_alloc_ok c s1 caller (some g) r ha
    rcases h1 with ⟨_, e⟩ | ⟨_, q, _, _, h2⟩
    · rw [e] at h0
      simp only at h0
      omega
    · rcases h2 with ⟨hm, _⟩ | ⟨g1, _, e⟩
      · cases hm
      · rw [e]
        push_cast
        omega

/-- A detach of `p` that returns `0`, followed by `pid_exit` of `p`, empties
the slot of `p`. -/
theorem detach_then_exit_empties (c : Consts) (hc : c.wf) (s : PidState) (hI : Inv c s)
    (q p status : Int) (dd : Bool) (r1 : Ret) (s3 : PidState)
    (hd : pid_detach c s q p = .ok r1) (h0 : r1.ret = 0)
    (he : pid_exit c r1.st p status dd = .ok s3) :
    Inv c s3 ∧ s3.pidinfo[slot c p]? = some none := by
  have hI1 := hI.pid_detach q p r1 hd
  refine ⟨hI1.pid_exit p status dd s3 he, ?_⟩
  obtain ⟨hs, r, cur, hpi, hcur, h1, h2⟩ := pid_detach_success c hc s q p r1 hd h0
  obtain ⟨hp0, hpne, hsl, hpp⟩ := (pi_get_some c s p r).1 hpi
  have hlen := getElem?_lt hsl
  obtain ⟨me, _, _, hme, _, _, _⟩ := pid_exit_ok c r1.st p status dd s3 he
  rw [pid_detach_found c s q p hs r cur hpi hcur, if_neg h1, if_neg (by simp [h2])] at hd
  have hme2 : me.pi_ppid = c.INVALID_PID := by
    by_cases h3 : r.pi_exited = true
    · rw [if_pos h3] at hd
      cases hd
      rw [pi_get_reclaim_self c s p hp0 hpne hlen] at hme
      cases hme
    · rw [if_neg h3] at hd
      cases hd
      rw [pi_get_store_self c s p (r.detached c) hp0 hpne hlen hpp] at hme
      cases hme
      rfl
  have hspec := pid_exit_spec c hc r1.st hI1 p status dd me hme
  rw [he, if_pos hme2] at hspec
  cases hspec
  have hlen1 : slot c p < r1.st.pidinfo.length := by
    rw [hI1.len, ← hI.len]; exact hlen
  simp only [PidState.reclaim]
  apply List.getElem?_set_self
  cases dd with
  | false => simpa using hlen1
  | true => simpa [PidState.disowned] using hlen1

/-- A call `pid_exit` of `p`, followed by a detach of `p` that returns `0`,
empties the slot of `p`. -/
theorem exit_then_detach_empties (c : Consts) (hc : c.wf) (s : PidState) (hI : Inv c s)
    (q p status : Int) (dd : Bool) (s2 : PidState) (r2 : Ret)
    (he : pid_exit c s p status dd = .ok s2)
    (hd : pid_detach c s2 q p = .ok r2) (h0 : r2.ret = 0) :
    Inv c r2.st ∧ r2.st.pidinfo[slot c p]? = some none := by
  have hI2 := hI.pid_exit p status dd s2 he
  refine ⟨hI2.pid_detach q p r2 hd, ?_⟩
  obtain ⟨hs, r, cur, hpi, hcur, h1, h2⟩ := pid_detach_success c hc s2 q p r2 hd h0
  obtain ⟨hp0, hpne, hsl, hpp⟩ := (pi_get_some c s2 p r).1 hpi
  have hlen := getElem?_lt hsl
  obtain ⟨me, sl, mine, _, _, hmine, e⟩ := pid_exit_ok c s p status dd s2 he
  obtain ⟨_, _, hsl1, hmp⟩ := (pi_get_some c sl p mine).1 hmine
  have hlen1 := getElem?_lt hsl1
  have hex : r.pi_exited = true := by
    by_cases h3 : mine.pi_ppid = c.INVALID_PID
    · rw [if_pos h3] at e
      rw [e, pi_get_reclaim_self c sl p hp0 hpne hlen1] at hpi
      cases hpi
    · rw [if_neg h3] at e
      rw [e, pi_get_store_self c sl p (mine.exited_with status) hp0 hpne hlen1 hmp] at hpi
      cases hpi
      rfl
  rw [pid_detach_found c s2 q p hs r cur hpi hcur, if_neg h1, if_neg (by simp [h2]),
    if_pos hex] at hd
  cases hd
  simp only [PidState.reclaim]
  exact List.getElem?_set_self hlen

/-- C15 as amended: starting from the table `pid_bootstrap` builds, which
already holds the boot record, with storage always granted and constants
that give every slot a pid: after `n` successful calls of `pid_alloc` in a row
the live count is `n + 1`; while `n + 1 < PROCS_MAX` the next call returns
`0` and stores an identifier, so `PROCS_MAX - 1` calls in a row succeed; once
`n + 1 == PROCS_MAX` the next call returns `EAGAIN` and leaves the table alone.
In any table the kernel can be in, after a detach of a process that returns
`0` and the `pid_exit` of that process, in either order, the next `pid_alloc`
returns `0` and stores an identifier. -/
theorem pid_alloc_until_full (c : Consts) (hc : c.wf) (hcov : c.covers) (g0 : Int)
    (s0 : PidState) (hboot : pid_bootstrap c (some g0) = .ok s0) :
    (∀ n s1, AllocRun c s0 n s1 → s1.nprocs = (n : Int) + 1 ∧ n + 1 ≤ c.PROCS_MAX) ∧
    (∀ n s1 caller g, AllocRun c s0 n s1 → n + 1 < c.PROCS_MAX → caller ≠ c.INVALID_PID →
      ∃ r p, pid_alloc c s1 caller (some g) = .ok r ∧ r.ret = 0 ∧ r.out = some p) ∧
    (∀ n s1 caller mem, AllocRun c s0 n s1 → n + 1 = c.PROCS_MAX → caller ≠ c.INVALID_PID →
      pid_alloc c s1 caller mem = .ok { ret := c.EAGAIN, out := none, st := s1 }) ∧
    (∀ s q p status dd r1 s3 caller g, Reachable c s → pid_detach c s q p = .ok r1 →
      r1.ret = 0 → pid_exit c r1.st p status dd = .ok s3 → caller ≠ c.INVALID_PID →
      ∃ r p1, pid_alloc c s3 caller (some g) = .ok r ∧ r.ret = 0 ∧ r.out = some p1) ∧
    (∀ s q p status dd s2 r2 caller g, Reachable c s → pid_exit c s p status dd = .ok s2 →
      pid_detach c s2 q p = .ok r2 → r2.ret = 0 → caller ≠ c.INVALID_PID →
      ∃ r p1, pid_alloc c r2.st caller (some g) = .ok r ∧ r.ret = 0 ∧ r.out = some p1) := by
  have hs0 : Reachable c s0 := Reachable.boot g0 s0 hboot
  have hn0 : s0.nprocs = 1 := by
    obtain ⟨_, _, _, e⟩ := pid_bootstrap_ok c g0 s0 hboot
    rw [e]
  have hrun : ∀ n s1, AllocRun c s0 n s1 →
      Reachable c s1 ∧ s1.nprocs = (n : Int) + 1 ∧ n + 1 ≤ c.PROCS_MAX := by
    intro n s1 h
    obtain ⟨hr, hn⟩ := h.facts hc hs0
    have hI := hr.inv hc
    have hle : occupied s1 ≤ s1.pidinfo.length := List.countP_le_length _
    have h1 := hI.count
    have h2 := hI.len
    refine ⟨hr, by omega, by omega⟩
  have hfree : ∀ s caller g, Inv c s → (∃ e : Nat, s.pidinfo[e]? = some none) →
      caller ≠ c.INVALID_PID →
      ∃ r p1, pid_alloc c s caller (some g) = .ok r ∧ r.ret = 0 ∧ r.out = some p1 := by
    intro s caller g hI ⟨e, he⟩ hcl
    obtain ⟨q, _, _, _, h⟩ :=
      pid_alloc_not_full c hc hcov s hI caller hcl (hI.not_full e he) (some g)
    exact ⟨_, q, h, rfl, rfl⟩
  refine ⟨fun n s1 h => (hrun n s1 h).2, ?_, ?_, ?_, ?_⟩
  · intro n s1 caller g h hlt hcl
    obtain ⟨hr, hn, _⟩ := hrun n s1 h
    obtain ⟨q, _, _, _, ha⟩ :=
      pid_alloc_not_full c hc hcov s1 (hr.inv hc) caller hcl (by omega) (some g)
    exact ⟨_, q, ha, rfl, rfl⟩
  · intro n s1 caller mem h heq hcl
    obtain ⟨_, hn, _⟩ := hrun n s1 h
    have hfull : s1.nprocs = (c.PROCS_MAX : Int) := by omega
    simp [pid_alloc, bind, Except.bind, pure, Except.pure, hcl, hfull]
  · intro s q p status dd r1 s3 caller g hs hd h0 he hcl
    obtain ⟨hI3, hempty⟩ :=
      detach_then_exit_empties c hc s (hs.inv hc) q p status dd r1 s3 hd h0 he
    exact hfree s3 caller g hI3 ⟨_, hempty⟩ hcl
  · intro s q p status dd s2 r2 caller g hs he hd h0 hcl
    obtain ⟨hI3, hempty⟩ :=
      exit_then_detach_empties c hc s (hs.inv hc) q p status dd s2 r2 he hd h0
    exact hfree r2.st caller g hI3 ⟨_, hempty⟩ hcl

/-- The three calls of `pid_alloc` that fill the table of `demo`. -/
theorem demo_full_run : AllocRun demo demo_boot 3 demo_full :=
  AllocRun.succ demo_boot demo_siblings 2 1 0 ⟨0, some 4, demo_full⟩
    (AllocRun.succ demo_boot demo_child 1 1 0 ⟨0, some 3, demo_siblings⟩
      (AllocRun.succ demo_boot demo_boot 0 1 0 ⟨0, some 2, demo_child⟩
        (AllocRun.zero demo_boot) ⟨demo_bootrec, by decide, rfl⟩ (by decide) rfl)
      ⟨demo_bootrec, by decide, rfl⟩ (by decide) rfl)
    ⟨demo_bootrec, by decide, rfl⟩ (by decide) rfl

/-- C15 as amended, evaluated on `demo`, where `PROCS_MAX` is 4: after three
successful calls the fourth is refused. -/
theorem pid_alloc_until_full_witness :
    pid_alloc demo demo_full 1 (some 0) = .ok ⟨demo.EAGAIN, none, demo_full⟩ :=
  (pid_alloc_until_full demo (by decide) (by decide) 0 demo_boot (by decide)).2.2.1
    3 demo_full 1 (some 0) demo_full_run (by decide) (by decide)

/-- C15 refuted as stated: on `demo`, where `PROCS_MAX` is 4, the table
`pid_bootstrap` builds already holds one record; three calls of `pid_alloc` in
a row succeed, with pids 2, 3 and 4, and the fourth call, still one of the
first `PROCS_MAX`, returns `EAGAIN`. -/
theorem pid_alloc_until_full_counterexample :
    demo.PROCS_MAX = 4 ∧
    pid_bootstrap demo (some 0) = .ok demo_boot ∧ demo_boot.nprocs = 1 ∧
    pid_alloc demo demo_boot 1 (some 0) = .ok ⟨0, some 2, demo_child⟩ ∧
    pid_alloc demo demo_child 1 (some 0) = .ok ⟨0, some 3, demo_siblings⟩ ∧
    pid_alloc demo demo_siblings 1 (some 0) = .ok ⟨0, some 4, demo_full⟩ ∧
    pid_alloc demo demo_full 1 (some 0) = .ok ⟨demo.EAGAIN, none, demo_full⟩ ∧
    demo.EAGAIN ≠ 0 := by
  decide

/-! ## Signals -/

/-- Clearing a bit other than bit 0 of the value `1` leaves `1`. -/
theorem land_one_clear (k : Nat) (h : 1 ≤ k) : Int.land 1 (Int.lnot (2 ^ k)) = 1 := by
  have h2 : (2 : Int) ^ k = ((2 ^ k : Nat) : Int) := by push_cast; rfl
  rw [h2]
  show ((Nat.ldiff 1 (2 ^ k) : Nat) : Int) = 1
  congr 1
  apply Nat.eq_of_testBit_eq
  intro i
  have h1 : Nat.testBit 1 i = decide (0 = i) := by
    have := @Nat.testBit_two_pow 0 i
    simpa using this
  rw [Nat.testBit_ldiff, Nat.testBit_two_pow, h1]
  by_cases hi : 0 = i
  · subst hi
    have : ¬ k = 0 := by omega
    simp [this]
  · simp [hi]

theorem pid_kill_notfound (c : Consts) (s : PidState) (pid sig : Int)
    (hpi : pi_get c s pid = .ok none) :
    pid_kill c s pid sig = .ok { ret := c.ESRCH, out := none, st := s } := by
  simp only [pid_kill, bind, Except.bind, pure, Except.pure, hpi]

theorem pid_kill_badpid (c : Consts) (s : PidState) (pid sig : Int)
    (h : pid < 0 ∨ pid = c.INVALID_PID) :
    pid_kill c s pid sig = .error .kassert := by
  have hpi : pi_get c s pid = .error .kassert := by
    simp only [pi_get, bind, Except.bind, throw, throwThe, MonadExceptOf.throw, pure,
      Except.pure]
    by_cases h0 : pid < 0
    · simp [h0]
    · have h1 : pid = c.INVALID_PID := by
        rcases h with h | h
        · exact absurd h h0
        · exact h
      simp [h0, h1]
  simp only [pid_kill, bind, Except.bind, hpi]

theorem pid_kill_zero (c : Consts) (s : PidState) (pid : Int) (r : pidinfo)
    (hpi : pi_get c s pid = .ok (some r)) :
    pid_kill c s pid 0 = .ok { ret := 0, out := none, st := s } := by
  simp only [pid_kill, bind, Except.bind, pure, Except.pure, hpi, if_true]

theorem pid_kill_range (c : Consts) (s : PidState) (pid sig : Int) (r : pidinfo)
    (hpi : pi_get c s pid = .ok (some r)) (h0 : sig ≠ 0) (h : sig > 32 ∨ sig < 1) :
    pid_kill c s pid sig = .ok { ret := c.EINVAL, out := none, st := s } := by
  simp only [pid_kill, bind, Except.bind, pure, Except.pure, hpi, h0, if_false, h, if_true]

theorem pid_kill_mark (c : Consts) (s : PidState) (pid sig : Int) (r : pidinfo)
    (hpi : pi_get c s pid = .ok (some r)) (h1 : 1 ≤ sig) (h32 : sig ≤ 32)
    (hnc : sig ≠ c.SIGCONT) (hm : c.marks sig) :
    pid_kill c s pid sig = .ok
      { ret := 0, out := none, st := s.store (slot c pid) (some (r.with_signal 1)) } := by
  obtain ⟨h0, _, hsl, _⟩ := (pi_get_some c s pid r).1 hpi
  have hw : slot_write c s pid (some { r with pi_signal := 1 }) =
      .ok (s.store (slot c pid) (some (r.with_signal 1))) :=
    (slot_write_ok c s pid _ _).2 ⟨h0, getElem?_lt hsl, rfl⟩
  have hz : ¬ sig = 0 := by omega
  have hr : ¬ (sig > 32 ∨ sig < 1) := by omega
  unfold Consts.marks at hm
  simp only [pid_kill, bind, Except.bind, pure, Except.pure, hpi, hz, hr, hnc, if_false, hm,
    if_true, hw]

theorem pid_kill_cont (c : Consts) (s : PidState) (pid : Int) (r : pidinfo)
    (hpi : pi_get c s pid = .ok (some r)) (h1 : 1 ≤ c.SIGCONT) (h32 : c.SIGCONT ≤ 32)
    (hs0 : 0 ≤ c.SIGSTOP) (hs30 : c.SIGSTOP ≤ 30) :
    pid_kill c s pid c.SIGCONT = .ok
      { ret := 0, out := none,
        st := s.store (slot c pid)
          (some (r.with_signal (Int.land r.pi_signal (Int.lnot (2 ^ c.SIGSTOP.toNat))))) } := by
  obtain ⟨h0, _, hsl, _⟩ := (pi_get_some c s pid r).1 hpi
  have hw : ∀ v, slot_write c s pid (some { r with pi_signal := v }) =
      .ok (s.store (slot c pid) (some (r.with_signal v))) :=
    fun v => (slot_write_ok c s pid _ _).2 ⟨h0, getElem?_lt hsl, rfl⟩
  have hz : ¬ c.SIGCONT = 0 := by omega
  have hr : ¬ (c.SIGCONT > 32 ∨ c.SIGCONT < 1) := by omega
  have hsh : ¬ (c.SIGSTOP < 0 ∨ 31 ≤ c.SIGSTOP) := by omega
  simp only [pid_kill, bind, Except.bind, pure, Except.pure, hpi, hz, hr, if_false, if_true,
    pi_unset_signal, hsh, hw]

theorem pid_kill_unimp (c : Consts) (s : PidState) (pid sig : Int) (r : pidinfo)
    (hpi : pi_get c s pid = .ok (some r)) (h1 : 1 ≤ sig) (h32 : sig ≤ 32)
    (hnc : sig ≠ c.SIGCONT) (hm : ¬ c.marks sig) :
    pid_kill c s pid sig = .ok { ret := c.EUNIMP, out := none, st := s } := by
  have hz : ¬ sig = 0 := by omega
  have hr : ¬ (sig > 32 ∨ sig < 1) := by omega
  unfold Consts.marks at hm
  simp only [pid_kill, bind, Except.bind, pure, Except.pure, hpi, hz, hr, hnc, if_false, hm]

theorem Consts.sig_wf.marks_range {c : Consts} (h : c.sig_wf) {sig : Int} (hm : c.marks sig) :
    1 ≤ sig ∧ sig ≤ 32 ∧ sig ≠ c.SIGCONT := by
  obtain ⟨a1, a2, a3, a4, a5, a6, a7, a8, a9, b1, b2, b3, b4, b5, b6, b7, b8⟩ := h
  unfold Consts.marks at hm
  rcases hm with e | e | e | e | e | e | e | e <;> subst e
  · exact ⟨a6.1, by omega, Ne.symm b6⟩
  · exact ⟨a8.1, a8.2, Ne.symm b7⟩
  · exact ⟨a1.1, a1.2, Ne.symm b1⟩
  · exact ⟨a4.1, a4.2, Ne.symm b4⟩
  · exact ⟨a2.1, a2.2, Ne.symm b2⟩
  · exact ⟨a3.1, a3.2, Ne.symm b3⟩
  · exact ⟨a9.1, a9.2, Ne.symm b8⟩
  · exact ⟨a5.1, a5.2, Ne.symm b5⟩

theorem manage_signal_eq (c : Consts) (s : PidState) (pid : Int) (r : pidinfo)
    (hpi : pi_get c s pid = .ok (some r)) :
    manage_signal c s pid = .ok (if r.pi_signal > 0 then some r.pi_signal else none) := by
  simp only [manage_signal, bind, Except.bind, pure, Except.pure, hpi]
  split <;> rfl

/-- The lookup of `pid` after its record has been rewritten in place. -/
theorem pi_get_with_signal (c : Consts) (s : PidState) (pid : Int) (r : pidinfo) (v : Int)
    (hpi : pi_get c s pid = .ok (some r)) :
    pi_get c (s.store (slot c pid) (some (r.with_signal v))) pid =
      .ok (some (r.with_signal v)) := by
  obtain ⟨h0, hne, hsl, hp⟩ := (pi_get_some c s pid r).1 hpi
  exact pi_get_store_self c s pid (r.with_signal v) h0 hne (getElem?_lt hsl) hp

/-- C18, as the code behaves: with signal numbers as `sig_wf` says, for a
target whose record `r` is in the table `pid_kill(pid, sig)` returns `0` and
changes nothing when `sig == 0`; returns `EINVAL` and changes nothing when
`sig < 0` or `sig > 32`; returns `0` and stores `1` in the `pi_signal` of the
target, and nothing else, for the eight signals `SIGSTOP`, `SIGWINCH`,
`SIGHUP`, `SIGKILL`, `SIGINT`, `SIGQUIT`, `SIGINFO`, `SIGTERM`; returns `0`
for `SIGCONT`, after clearing bit `SIGSTOP` of `pi_signal`; and returns
`EUNIMP` and changes nothing for every other `sig` in `1..32`.  For a target
whose lookup finds no record it returns `ESRCH`.  For the target
`INVALID_PID`, and for a negative one, the `KASSERT` of `pi_get` fails. -/
theorem pid_kill_cases (c : Consts) (hsw : c.sig_wf) (s : PidState) (pid sig : Int) :
    (∀ r, pi_get c s pid = .ok (some r) →
      (sig = 0 → pid_kill c s pid sig = .ok { ret := 0, out := none, st := s }) ∧
      (sig < 0 ∨ sig > 32 →
        pid_kill c s pid sig = .ok { ret := c.EINVAL, out := none, st := s }) ∧
      (c.marks sig →
        pid_kill c s pid sig = .ok
          { ret := 0, out := none,
            st := s.store (slot c pid) (some { r with pi_signal := 1 }) }) ∧
      (sig = c.SIGCONT →
        pid_kill c s pid sig = .ok
          { ret := 0, out := none,
            st := s.store (slot c pid) (some (r.with_signal
              (Int.land r.pi_signal (Int.lnot (2 ^ c.SIGSTOP.toNat))))) }) ∧
      (1 ≤ sig → sig ≤ 32 → sig ≠ c.SIGCONT → ¬ c.marks sig →
        pid_kill c s pid sig = .ok { ret := c.EUNIMP, out := none, st := s })) ∧
    (pi_get c s pid = .ok none →
      pid_kill c s pid sig = .ok { ret := c.ESRCH, out := none, st := s }) ∧
    (pid < 0 ∨ pid = c.INVALID_PID → pid_kill c s pid sig = .error .kassert) := by
  refine ⟨fun r hpi => ⟨?_, ?_, ?_, ?_, ?_⟩, pid_kill_notfound c s pid sig,
    pid_kill_badpid c s pid sig⟩
  · intro h; subst h; exact pid_kill_zero c s pid r hpi
  · intro h
    exact pid_kill_range c s pid sig r hpi (by omega) (by omega)
  · intro hm
    obtain ⟨h1, h32, hnc⟩ := hsw.marks_range hm
    exact pid_kill_mark c s pid sig r hpi h1 h32 hnc hm
  · intro h
    subst h
    obtain ⟨_, _, _, _, _, a6, a7, _⟩ := hsw
    exact pid_kill_cont c s pid r hpi a7.1 a7.2 (by omega) a6.2
  · intro h1 h32 hnc hm
    exact pid_kill_unimp c s pid sig r hpi h1 h32 hnc hm

/-- C18, evaluated where the code departs from the claim: in the table
`pid_bootstrap` builds no record has the pid `INVALID_PID`, and `pid_kill` on
it ends in a failed `KASSERT`, whatever the signal. -/
theorem pid_kill_cases_witness :
    Reachable demo demo_boot ∧
    demo_boot.pidinfo = [none, some demo_bootrec, none, none] ∧
    demo_bootrec.pi_pid ≠ demo.INVALID_PID ∧
    pid_kill demo demo_boot demo.INVALID_PID demo.SIGKILL = .error .kassert ∧
    pid_kill demo demo_boot demo.INVALID_PID 0 = .error .kassert :=
  ⟨demo_boot_reachable, rfl, by decide,
   (pid_kill_cases demo (by decide) demo_boot demo.INVALID_PID demo.SIGKILL).2.2 (Or.inr rfl),
   by decide⟩

/-- C19, as the code behaves: with signal numbers as `sig_wf` says, for a
target whose record `r` is in the table, `pid_kill(t, SIGSTOP)` followed by
`pid_kill(t, SIGCONT)` both return `0` and leave `pi_signal == 1` in the
target's record, whatever it was before, so that `manage_signal(t)` then
calls `thread_exit(1)`. -/
theorem pid_kill_stop_then_cont (c : Consts) (hsw : c.sig_wf) (s : PidState) (t : Int)
    (r : pidinfo) (hpi : pi_get c s t = .ok (some r)) :
    ∃ s1 s2, pid_kill c s t c.SIGSTOP = .ok { ret := 0, out := none, st := s1 } ∧
      pid_kill c s1 t c.SIGCONT = .ok { ret := 0, out := none, st := s2 } ∧
      pi_get c s2 t = .ok (some { r with pi_signal := 1 }) ∧
      manage_signal c s2 t = .ok (some 1) := by
  have hm : c.marks c.SIGSTOP := Or.inl rfl
  obtain ⟨h1, h32, hnc⟩ := hsw.marks_range hm
  obtain ⟨_, _, _, _, _, a6, a7, _⟩ := hsw
  have hk1 := pid_kill_mark c s t c.SIGSTOP r hpi h1 h32 hnc hm
  have hpi1 := pi_get_with_signal c s t r 1 hpi
  have hk2 := pid_kill_cont c _ t (r.with_signal 1) hpi1 a7.1 a7.2 (by omega) a6.2
  have hland : Int.land (r.with_signal 1).pi_signal (Int.lnot (2 ^ c.SIGSTOP.toNat)) = 1 :=
    land_one_clear _ (by omega)
  rw [hland] at hk2
  have hpi2 := pi_get_with_signal c _ t (r.with_signal 1) 1 hpi1
  refine ⟨_, _, hk1, hk2, hpi2, ?_⟩
  rw [manage_signal_eq c _ t _ hpi2]
  rfl

/-- C19, evaluated where the code departs from the claim: process 2 has
nothing pending, the boot process sends it `SIGSTOP` and then `SIGCONT`, and
`manage_signal` then makes it exit with status 1. -/
theorem pid_kill_stop_then_cont_witness :
    manage_signal demo demo_child 2 = .ok none ∧
    ∃ s1 s2, pid_kill demo demo_child 2 demo.SIGSTOP = .ok ⟨0, none, s1⟩ ∧
      pid_kill demo s1 2 demo.SIGCONT = .ok ⟨0, none, s2⟩ ∧
      pi_get demo s2 2 = .ok (some ⟨2, 1, false, 0xbaad, 1⟩) ∧
      manage_signal demo s2 2 = .ok (some 1) :=
  ⟨by decide,
   pid_kill_stop_then_cont demo (by decide) demo_child 2 ⟨2, 1, false, 0xbaad, 0⟩
    (by decide)⟩

/-- C20, as the code behaves: with signal numbers as `sig_wf` says, for a
target whose record is in the table and each of the eight signals
`SIGSTOP`, `SIGWINCH`, `SIGHUP`, `SIGKILL`, `SIGINT`, `SIGQUIT`, `SIGINFO`,
`SIGTERM`, `pid_kill(t, sig)` returns `0` and the next `manage_signal(t)` calls
`thread_exit(1)`, whichever of the eight was sent. -/
theorem pid_kill_then_manage_signal (c : Consts) (hsw : c.sig_wf) (s : PidState)
    (t sig : Int) (r : pidinfo) (hpi : pi_get c s t = .ok (some r)) (hm : c.marks sig) :
    ∃ s1, pid_kill c s t sig = .ok { ret := 0, out := none, st := s1 } ∧
      pi_get c s1 t = .ok (some { r with pi_signal := 1 }) ∧
      manage_signal c s1 t = .ok (some 1) := by
  obtain ⟨h1, h32, hnc⟩ := hsw.marks_range hm
  have hk1 := pid_kill_mark c s t sig r hpi h1 h32 hnc hm
  have hpi1 := pi_get_with_signal c s t r 1 hpi
  refine ⟨_, hk1, hpi1, ?_⟩
  rw [manage_signal_eq c _ t _ hpi1]
  rfl

/-- C20, evaluated where the code departs from the claim: the boot process
sends `SIGKILL`, which is 9 in `demo`, to process 2, which has nothing
pending; `manage_signal` then makes process 2 exit with status 1. -/
theorem pid_kill_then_manage_signal_witness :
    manage_signal demo demo_child 2 = .ok none ∧ demo.SIGKILL = 9 ∧
    ∃ s1, pid_kill demo demo_child 2 demo.SIGKILL = .ok ⟨0, none, s1⟩ ∧
      pi_get demo s1 2 = .ok (some ⟨2, 1, false, 0xbaad, 1⟩) ∧
      manage_signal demo s1 2 = .ok (some 1) :=
  ⟨by decide, rfl,
   pid_kill_then_manage_signal demo (by decide) demo_child 2 demo.SIGKILL
    ⟨2, 1, false, 0xbaad, 0⟩ (by decide) (by decide)⟩

/-! ## The lookup, the boot table and the accounting invariant -/

/-- C23: for a pid that passes the two assertions of `pi_get` (it is not
negative and not `INVALID_PID`), in a table of `PROCS_MAX` slots, `pi_get`
looks at slot `pid % PROCS_MAX` and returns: it returns a record exactly when
that record is stored in the slot and its `pi_pid` is `pid`, and it returns
`NULL` exactly when the slot is empty or holds a record with another
`pi_pid`.  The function yields only the record: the table is not among its
results. -/
theorem pi_get_lookup (c : Consts) (s : PidState) (pid : Int) (h0 : 0 ≤ pid)
    (hne : pid ≠ c.INVALID_PID) (hpos : 0 < c.PROCS_MAX)
    (hlen : s.pidinfo.length = c.PROCS_MAX) :
    ((slot c pid : Nat) : Int) = pid % (c.PROCS_MAX : Int) ∧
    (∃ o, pi_get c s pid = .ok o) ∧
    (∀ r, pi_get c s pid = .ok (some r) ↔
      s.pidinfo[slot c pid]? = some (some r) ∧ r.pi_pid = pid) ∧
    (pi_get c s pid = .ok none ↔
      s.pidinfo[slot c pid]? = some none ∨
      ∃ q, s.pidinfo[slot c pid]? = some (some q) ∧ q.pi_pid ≠ pid) := by
  refine ⟨slot_eq_emod c pid h0, ?_, ?_, ?_⟩
  · apply pi_get_total c s pid h0 hne
    rw [hlen]; exact Nat.mod_lt _ hpos
  · intro r
    rw [pi_get_some]
    constructor
    · intro h; exact ⟨h.2.2.1, h.2.2.2⟩
    · intro h; exact ⟨h0, hne, h.1, h.2⟩
  · rw [pi_get_none]
    constructor
    · intro h; exact h.2.2
    · intro h; exact ⟨h0, hne, h⟩

/-- Witness of C23: in `demo`, once slot 2 has been reclaimed and given to
pid 6, the stale pid 2 resolves to nothing and pid 6 to the new occupant. -/
theorem pi_get_lookup_witness :
    pi_get demo ⟨[none, some demo_bootrec, some ⟨6, 1, false, 0xbaad, 0⟩, none], 7, 2⟩ 2
      = .ok none ∧
    pi_get demo ⟨[none, some demo_bootrec, some ⟨6, 1, false, 0xbaad, 0⟩, none], 7, 2⟩ 6
      = .ok (some ⟨6, 1, false, 0xbaad, 0⟩) :=
  ⟨(pi_get_lookup demo ⟨[none, some demo_bootrec, some ⟨6, 1, false, 0xbaad, 0⟩, none], 7, 2⟩ 2
      (by decide) (by decide) (by decide) rfl).2.2.2.mpr
      (Or.inr ⟨⟨6, 1, false, 0xbaad, 0⟩, rfl, by decide⟩),
   by decide⟩

/-- C24: under the assumptions on the constants, `pid_bootstrap` returns, and
in the table it leaves slot `BOOTUP_PID` holds the record with `pi_pid ==
BOOTUP_PID`, `pi_ppid == INVALID_PID` and `pi_exited == false`, every other
slot is empty, so that exactly one slot is occupied, `nextpid` is `PID_MIN`
and `nprocs` is 1. -/
theorem pid_bootstrap_table (c : Consts) (hc : c.wf) (g : Int) :
    ∃ s, pid_bootstrap c (some g) = .ok s ∧ s.pidinfo.length = c.PROCS_MAX ∧
      s.pidinfo[c.BOOTUP_PID.toNat]? =
        some (some ⟨c.BOOTUP_PID, c.INVALID_PID, false, 0xbaad, g⟩) ∧
      (∀ (i : Nat), i < c.PROCS_MAX → i ≠ c.BOOTUP_PID.toNat → s.pidinfo[i]? = some none) ∧
      occupied s = 1 ∧ s.nextpid = c.PID_MIN ∧ s.nprocs = 1 := by
  have hc2 := hc
  obtain ⟨hpos, hb0, hb1, hib, _⟩ := hc
  have hrun : ∃ s, pid_bootstrap c (some g) = .ok s := by
    simp only [pid_bootstrap, pidinfo_create, bind, Except.bind, pure, Except.pure, throw,
      throwThe, MonadExceptOf.throw]
    rw [if_neg (fun h => hib h.symm)]
    simp only []
    rw [if_neg (by omega)]
    simp
  obtain ⟨s, hs⟩ := hrun
  have hI := Inv.pid_bootstrap hc2 g s hs
  obtain ⟨_, _, _, he⟩ := pid_bootstrap_ok c g s hs
  have hlt : c.BOOTUP_PID.toNat < c.PROCS_MAX := by omega
  refine ⟨s, hs, hI.len, ?_, ?_, ?_, ?_, ?_⟩
  · subst he
    simp [List.getElem?_set, hlt]
  · intro i hi hne
    subst he
    simp [List.getElem?_set, hi, Ne.symm hne]
  · have h1 := hI.count
    subst he
    simp only at h1
    omega
  · subst he; rfl
  · subst he; rfl

/-- C28: in every table the kernel can be in, whether the calls that led to
it returned `0` or an error code, the table has `PROCS_MAX` slots, `nprocs` is
the number of non-empty slots and lies in `0..PROCS_MAX`, a record found in
slot `i` has `pi_pid % PROCS_MAX == i`, and `nextpid` is in
`PID_MIN..PID_MAX`. -/
theorem reachable_accounting (c : Consts) (hc : c.wf) (s : PidState) (h : Reachable c s) :
    s.pidinfo.length = c.PROCS_MAX ∧ s.nprocs = (occupied s : Int) ∧
    0 ≤ s.nprocs ∧ s.nprocs ≤ (c.PROCS_MAX : Int) ∧
    (∀ (i : Nat) (r : pidinfo), s.pidinfo[i]? = some (some r) →
      r.pi_pid % (c.PROCS_MAX : Int) = (i : Int)) ∧
    c.PID_MIN ≤ s.nextpid ∧ s.nextpid ≤ c.PID_MAX := by
  have hI := Reachable.inv hc h
  have hle : occupied s ≤ s.pidinfo.length := List.countP_le_length _
  have hlen := hI.len
  have hcnt := hI.count
  refine ⟨hlen, hcnt, by omega, by omega, ?_, hI.cursor.1, hI.cursor.2⟩
  intro i r hr
  have hk := hI.recs i r hr
  rw [← slot_eq_emod c r.pi_pid (RecOk.nonneg hc hk), hk.1]

/-- Witness of C24: the constants of `demo` satisfy the assumptions, and
`pid_bootstrap` builds the table `demo_boot`. -/
theorem pid_bootstrap_table_witness :
    demo.wf ∧
    ∃ s, pid_bootstrap demo (some 0) = .ok s ∧ s.pidinfo.length = demo.PROCS_MAX ∧
      s.pidinfo[demo.BOOTUP_PID.toNat]? =
        some (some ⟨demo.BOOTUP_PID, demo.INVALID_PID, false, 0xbaad, 0⟩) ∧
      (∀ (i : Nat), i < demo.PROCS_MAX → i ≠ demo.BOOTUP_PID.toNat →
        s.pidinfo[i]? = some none) ∧
      occupied s = 1 ∧ s.nextpid = demo.PID_MIN ∧ s.nprocs = 1 :=
  ⟨by decide, pid_bootstrap_table demo (by decide) 0⟩

/-- Witness of C28: the full table of `demo`, reached by three allocations. -/
theorem reachable_accounting_witness :
    Reachable demo demo_full ∧
    demo_full.pidinfo.length = demo.PROCS_MAX ∧ demo_full.nprocs = (occupied demo_full : Int) ∧
    0 ≤ demo_full.nprocs ∧ demo_full.nprocs ≤ (demo.PROCS_MAX : Int) ∧
    (∀ (i : Nat) (r : pidinfo), demo_full.pidinfo[i]? = some (some r) →
      r.pi_pid % (demo.PROCS_MAX : Int) = (i : Int)) ∧
    demo.PID_MIN ≤ demo_full.nextpid ∧ demo_full.nextpid ≤ demo.PID_MAX :=
  ⟨demo_full_reachable, reachable_accounting demo (by decide) demo_full demo_full_reachable⟩

/-! ## The scan of `pid_alloc` stays within its bound -/

/-- The scan of `pid_alloc` returns in a table of `PROCS_MAX` slots whose
live count is the number of occupied slots and is not `PROCS_MAX`, with the
cursor in `PID_MIN..PID_MAX`. -/
theorem alloc_scan_returns (c : Consts) (hc : c.wf) (hcov : c.covers) (s : PidState)
    (hlen : s.pidinfo.length = c.PROCS_MAX) (hcount : s.nprocs = (occupied s : Int))
    (hn : s.nprocs < (c.PROCS_MAX : Int))
    (hcur : c.PID_MIN ≤ s.nextpid ∧ s.nextpid ≤ c.PID_MAX) :
    ∃ q, alloc_scan c s (c.PROCS_MAX * 2 + 5) s.nextpid = .ok q := by
  have hocc : occupied s < s.pidinfo.length := by omega
  obtain ⟨e, he⟩ := exists_empty_slot s hocc
  have hc2 := hc
  obtain ⟨hpos, _, _, _, _, _, hm0, hmin, _⟩ := hc
  have helt : e < c.PROCS_MAX := by rw [← hlen]; exact getElem?_lt he
  obtain ⟨hlo, hhi⟩ := hcur
  obtain ⟨k, hk, hke⟩ := exists_offset c.PROCS_MAX s.nextpid.toNat e hpos helt
  by_cases hfit : s.nextpid + (k : Int) ≤ c.PID_MAX
  · refine alloc_scan_run c s hpos hlen k _ s.nextpid (by omega) hfit (by omega) ?_
    have : slot c (s.nextpid + (k : Int)) = e := by
      unfold slot
      have : (s.nextpid + (k : Int)).toNat = s.nextpid.toNat + k := by omega
      rw [this]; exact hke
    rw [this]; exact he
  · exact alloc_scan_wrap c hc2 hcov s hlen e he (c.PID_MAX - s.nextpid).toNat _ s.nextpid
      hlo (by omega) (by omega)

/-- C26: with constants that give every slot a pid, in a table of `PROCS_MAX`
slots in which `nprocs` is the number of occupied slots and is below
`PROCS_MAX`, and `nextpid` is in `PID_MIN..PID_MAX`, the scan of `pid_alloc`
returns a pid `q` after `k` calls of `inc_nextpid` with `k` at most
`2*PROCS_MAX + 5`, so the assertion on `count` does not fail; the slot of `q` is
empty and `q` is in `PID_MIN..PID_MAX`, so `pi_put` returns for every record,
neither of its assertions failing; and `pid_alloc` as a whole returns, for every
caller other than `INVALID_PID` and whether or not storage is granted. -/
theorem pid_alloc_assertions_unreachable (c : Consts) (hc : c.wf) (hcov : c.covers)
    (s : PidState) (hlen : s.pidinfo.length = c.PROCS_MAX)
    (hcount : s.nprocs = (occupied s : Int)) (hn : s.nprocs < (c.PROCS_MAX : Int))
    (hcur : c.PID_MIN ≤ s.nextpid ∧ s.nextpid ≤ c.PID_MAX) :
    ∃ q k, alloc_scan c s (c.PROCS_MAX * 2 + 5) s.nextpid = .ok q ∧
      k ≤ c.PROCS_MAX * 2 + 5 ∧ q = candidate c s.nextpid k ∧
      (c.PID_MIN ≤ q ∧ q ≤ c.PID_MAX) ∧ s.pidinfo[slot c q]? = some none ∧
      (∀ rec : pidinfo, ∃ s2, pi_put c { s with nextpid := q } q rec = .ok s2) ∧
      (∀ (caller : Int) (mem : Option Int), caller ≠ c.INVALID_PID →
        ∃ r, pid_alloc c s caller mem = .ok r) := by
  obtain ⟨q, hscan⟩ := alloc_scan_returns c hc hcov s hlen hcount hn hcur
  obtain ⟨k, hk, hq, hqe, _⟩ := alloc_scan_first c s _ _ _ hscan
  obtain ⟨_, _, _, _, hinv, _, _, hmin, _⟩ := hc
  have hqr := alloc_scan_range c s hmin _ _ _ hscan hcur
  have hq0 := (alloc_scan_empty c s _ _ _ hscan).1
  have hqi : q ≠ c.INVALID_PID := by omega
  refine ⟨q, k, hscan, hk, hq, hqr, hqe, ?_, ?_⟩
  · intro rec
    have hr : slot_read c { s with nextpid := q } q = .ok none :=
      (slot_read_ok c _ q none).2 ⟨hq0, hqe⟩
    have hw : slot_write c { s with nextpid := q } q (some rec) =
        .ok { pidinfo := s.pidinfo.set (slot c q) (some rec), nextpid := q,
              nprocs := s.nprocs } :=
      (slot_write_ok c _ q _ _).2 ⟨hq0, getElem?_lt hqe, rfl⟩
    simp [pi_put, bind, Except.bind, pure, Except.pure, hqi, hr, hw]
  · intro caller mem hcl
    exact ⟨_, pid_alloc_of_scan c s caller mem q hcl (by omega) hscan hqi⟩

/-- Witness of C26: in `demo`, with slots 1, 2 and 3 taken and the cursor at
5, the hypotheses hold and the scan settles on a pid. -/
theorem pid_alloc_assertions_unreachable_witness :
    demo.wf ∧ demo.covers ∧
    ∃ q k, alloc_scan demo ⟨demo_siblings.pidinfo, 5, 3⟩ (demo.PROCS_MAX * 2 + 5) 5 = .ok q ∧
      k ≤ demo.PROCS_MAX * 2 + 5 ∧ q = candidate demo 5 k ∧
      (demo.PID_MIN ≤ q ∧ q ≤ demo.PID_MAX) ∧
      (⟨demo_siblings.pidinfo, 5, 3⟩ : PidState).pidinfo[slot demo q]? = some none ∧
      (∀ rec : pidinfo, ∃ s2,
        pi_put demo { (⟨demo_siblings.pidinfo, 5, 3⟩ : PidState) with nextpid := q } q rec
          = .ok s2) ∧
      (∀ (caller : Int) (mem : Option Int), caller ≠ demo.INVALID_PID →
        ∃ r, pid_alloc demo ⟨demo_siblings.pidinfo, 5, 3⟩ caller mem = .ok r) :=
  ⟨by decide, by decide,
   pid_alloc_assertions_unreachable demo (by decide) (by decide) ⟨demo_siblings.pidinfo, 5, 3⟩
    rfl (by decide) (by decide) (by decide)⟩

/-! ## `pid_unalloc` -/

/-- The table `pid_unalloc` leaves when its four assertions hold. -/
theorem pid_unalloc_eq (c : Consts) (s : PidState) (caller theirpid : Int) (r : pidinfo)
    (hr : c.PID_MIN ≤ theirpid ∧ theirpid ≤ c.PID_MAX)
    (hpi : pi_get c s theirpid = .ok (some r)) (he : r.pi_exited = false)
    (hpp : r.pi_ppid = caller) :
    pid_unalloc c s caller theirpid = .ok (s.reclaim (slot c theirpid)) := by
  obtain ⟨h0, hne, hs, hp⟩ := (pi_get_some c s theirpid r).1 hpi
  have hlen := getElem?_lt hs
  have hr2 : theirpid ≥ c.PID_MIN ∧ theirpid ≤ c.PID_MAX := ⟨hr.1, hr.2⟩
  have hw : slot_write c s theirpid
      (some { r with pi_exitstatus := 0xdead, pi_exited := true,
                     pi_ppid := c.INVALID_PID }) =
      .ok (s.store (slot c theirpid)
        (some { r with pi_exitstatus := 0xdead, pi_exited := true,
                       pi_ppid := c.INVALID_PID })) :=
    (slot_write_ok c s theirpid _ _).2 ⟨h0, hlen, rfl⟩
  have hd : pi_drop c (s.store (slot c theirpid)
        (some { r with pi_exitstatus := 0xdead, pi_exited := true,
                       pi_ppid := c.INVALID_PID })) theirpid =
      .ok (s.reclaim (slot c theirpid)) := by
    rw [pi_drop_ok]
    refine ⟨{ r with pi_exitstatus := 0xdead, pi_exited := true,
                     pi_ppid := c.INVALID_PID }, h0, ?_, hp, rfl, rfl, ?_⟩
    · simp [PidState.store, List.getElem?_set_self hlen]
    · simp [PidState.store, PidState.reclaim, List.set_set]
  simp only [pid_unalloc, bind, Except.bind, pure, Except.pure, throw, throwThe,
    MonadExceptOf.throw, hr2, hpi, he, hpp, hw, hd]
  simp

/-- The assertion `them != NULL` of `pid_unalloc` fails when there is no record. -/
theorem pid_unalloc_missing (c : Consts) (s : PidState) (caller theirpid : Int)
    (hpi : pi_get c s theirpid = .ok none) :
    pid_unalloc c s caller theirpid = .error .kassert := by
  simp only [pid_unalloc, bind, Except.bind, pure, Except.pure, throw, throwThe,
    MonadExceptOf.throw, hpi]
  split <;> rfl

/-- An assertion of `pid_unalloc` fails when the record has exited or has
another parent than the caller. -/
theorem pid_unalloc_refused (c : Consts) (s : PidState) (caller theirpid : Int) (r : pidinfo)
    (hpi : pi_get c s theirpid = .ok (some r))
    (h : r.pi_exited = true ∨ r.pi_ppid ≠ caller) :
    pid_unalloc c s caller theirpid = .error .kassert := by
  simp only [pid_unalloc, bind, Except.bind, pure, Except.pure, throw, throwThe,
    MonadExceptOf.throw, hpi]
  split
  · rfl
  · by_cases he : r.pi_exited = false
    · have hpp : r.pi_ppid ≠ caller := by
        rcases h with h | h
        · rw [he] at h; cases h
        · exact h
      simp [he, hpp]
    · simp [he]

/-- Storing a value in an empty slot and emptying the slot again gives the
list back. -/
theorem set_none_restore (l : List (Option pidinfo)) (i : Nat) (v : Option pidinfo)
    (h : l[i]? = some none) : (l.set i v).set i none = l := by
  rw [List.set_set]
  apply List.ext_getElem?
  intro j
  rw [List.getElem?_set]
  by_cases hij : i = j
  · subst hij
    simp [getElem?_lt h, h]
  · simp [hij]

/-- C21: with the cursor in `PID_MIN..PID_MAX`, (1) for a pid in
`PID_MIN..PID_MAX` whose record is in the table, has not exited and has the
caller as `pi_ppid`, `pid_unalloc` returns, the record is gone, its slot is
empty, `nprocs` is one lower and every other slot is as before; (2) when
there is no record for the pid the call is an assertion failure; (3) so it
is when the record has exited or has another parent; (4) a call of `pid_alloc`
that returns `0`, followed by `pid_unalloc` of the pid it stored, by the same
caller, puts the slots and `nprocs` back to what they were. -/
theorem pid_unalloc_contract (c : Consts) (hc : c.wf) (s : PidState)
    (hcur : c.PID_MIN ≤ s.nextpid ∧ s.nextpid ≤ c.PID_MAX) (caller theirpid : Int) :
    (∀ r, c.PID_MIN ≤ theirpid → theirpid ≤ c.PID_MAX →
      pi_get c s theirpid = .ok (some r) → r.pi_exited = false → r.pi_ppid = caller →
      ∃ s1, pid_unalloc c s caller theirpid = .ok s1 ∧ pi_get c s1 theirpid = .ok none ∧
        s1.pidinfo[slot c theirpid]? = some none ∧ s1.nprocs = s.nprocs - 1 ∧
        ∀ (i : Nat), i ≠ slot c theirpid → s1.pidinfo[i]? = s.pidinfo[i]?) ∧
    (pi_get c s theirpid = .ok none → pid_unalloc c s caller theirpid = .error .kassert) ∧
    (∀ r, pi_get c s theirpid = .ok (some r) → r.pi_exited = true ∨ r.pi_ppid ≠ caller →
      pid_unalloc c s caller theirpid = .error .kassert) ∧
    (∀ mem r, pid_alloc c s caller mem = .ok r → r.ret = 0 →
      ∃ p s2, r.out = some p ∧ pid_unalloc c r.st caller p = .ok s2 ∧
        s2.pidinfo = s.pidinfo ∧ s2.nprocs = s.nprocs) := by
  obtain ⟨_, _, _, _, _, _, _, hmin, _, _, _, _, hea, hen, _⟩ := hc
  refine ⟨?_, pid_unalloc_missing c s caller theirpid, pid_unalloc_refused c s caller theirpid,
    ?_⟩
  · intro r hlo hhi hpi he hpp
    obtain ⟨h0, hne, hs, hp⟩ := (pi_get_some c s theirpid r).1 hpi
    have hlen := getElem?_lt hs
    refine ⟨_, pid_unalloc_eq c s caller theirpid r ⟨hlo, hhi⟩ hpi he hpp,
      pi_get_reclaim_self c s theirpid h0 hne hlen, ?_, rfl, ?_⟩
    · simp [PidState.reclaim, List.getElem?_set_self hlen]
    · intro i hi
      simp [PidState.reclaim, List.getElem?_set, Ne.symm hi]
  · intro mem r hal hret
    obtain ⟨hcl, hcase⟩ := pid_alloc_ok c s caller mem r hal
    rcases hcase with ⟨_, e⟩ | ⟨hn, q, hscan, hq, hm⟩
    · rw [e] at hret; simp only at hret; omega
    · rcases hm with ⟨_, e⟩ | ⟨g, _, e⟩
      · rw [e] at hret; simp only at hret; omega
      · have hqr := alloc_scan_range c s hmin _ _ _ hscan hcur
        obtain ⟨hq0, hqe⟩ := alloc_scan_empty c s _ _ _ hscan
        have hlen := getElem?_lt hqe
        have hget : pi_get c r.st q = .ok (some ⟨q, caller, false, 0xbaad, g⟩) := by
          rw [pi_get_some]
          refine ⟨hq0, hq, ?_, rfl⟩
          rw [e]
          simp [List.getElem?_set_self hlen]
        refine ⟨q, _, by rw [e], pid_unalloc_eq c r.st caller q _ hqr hget rfl rfl, ?_, ?_⟩
        · rw [e]
          simp only [PidState.reclaim]
          exact set_none_restore _ _ _ hqe
        · rw [e]
          simp only [PidState.reclaim]
          omega

/-- Witness of C21: in `demo` the boot process takes back pid 2, which it
allocated. -/
theorem pid_unalloc_contract_witness :
    pid_unalloc demo demo_child 1 2 = .ok ⟨demo_boot.pidinfo, 3, 1⟩ ∧
    (∃ s1, pid_unalloc demo demo_child 1 2 = .ok s1 ∧ pi_get demo s1 2 = .ok none ∧
        s1.pidinfo[slot demo 2]? = some none ∧ s1.nprocs = demo_child.nprocs - 1 ∧
        ∀ (i : Nat), i ≠ slot demo 2 → s1.pidinfo[i]? = demo_child.pidinfo[i]?) :=
  ⟨by decide,
   (pid_unalloc_contract demo (by decide) demo_child (by decide) 1 2).1
     ⟨2, 1, false, 0xbaad, 0⟩ (by decide) (by decide) (by decide) rfl rfl⟩

/-! ## The parent of a record only ever changes to `INVALID_PID` -/

theorem Kept.refl (c : Consts) (s : PidState) : Kept c s s :=
  fun _ r1 h => ⟨r1, h, rfl, Or.inl rfl⟩

theorem Kept.trans {c : Consts} {s s1 s2 : PidState} (h1 : Kept c s s1) (h2 : Kept c s1 s2) :
    Kept c s s2 := by
  intro i r2 hr2
  obtain ⟨r1, hr1, hp1, hpp1⟩ := h2 i r2 hr2
  obtain ⟨r, hr, hp, hpp⟩ := h1 i r1 hr1
  refine ⟨r, hr, hp1.trans hp, ?_⟩
  rcases hpp1 with e | e
  · rcases hpp with e2 | e2
    · exact Or.inl (e.trans e2)
    · exact Or.inr (e.trans e2)
  · exact Or.inr e

theorem Kept.store (c : Consts) (s : PidState) (i : Nat) (r r1 : pidinfo)
    (hr : s.pidinfo[i]? = some (some r)) (hp : r1.pi_pid = r.pi_pid)
    (hpp : r1.pi_ppid = r.pi_ppid ∨ r1.pi_ppid = c.INVALID_PID) :
    Kept c s (s.store i (some r1)) := by
  intro j q hq
  simp only [PidState.store, List.getElem?_set] at hq
  by_cases hij : i = j
  · subst hij
    simp only [if_true, getElem?_lt hr] at hq
    simp only [Option.some.injEq] at hq
    subst hq
    exact ⟨r, hr, hp, hpp⟩
  · simp only [hij, if_false] at hq
    exact ⟨q, hq, rfl, Or.inl rfl⟩

theorem Kept.of_reclaim (c : Consts) (s : PidState) (i : Nat) : Kept c s (s.reclaim i) := by
  intro j q hq
  simp only [PidState.reclaim, List.getElem?_set] at hq
  by_cases hij : i = j
  · subst hij
    by_cases hl : i < s.pidinfo.length
    · simp [hl] at hq
    · simp [hl] at hq
  · simp only [hij, if_false] at hq
    exact ⟨q, hq, rfl, Or.inl rfl⟩

theorem Kept.of_pid_detach (c : Consts) (s : PidState) (caller childpid : Int) (r1 : Ret)
    (h : pid_detach c s caller childpid = .ok r1) : Kept c s r1.st := by
  rcases pid_detach_state c s caller childpid r1 h with e | ⟨r, hpi, _, _, e⟩
  · rw [e]; exact Kept.refl c s
  · rw [e]
    obtain ⟨_, _, hs, _⟩ := (pi_get_some c s childpid r).1 hpi
    split
    · exact Kept.of_reclaim c s _
    · exact Kept.store c s _ r _ hs rfl (Or.inr rfl)

theorem Kept.of_pid_kill (c : Consts) (s : PidState) (pid sig : Int) (r1 : Ret)
    (h : pid_kill c s pid sig = .ok r1) : Kept c s r1.st := by
  rcases pid_kill_state c s pid sig r1 h with e | ⟨r, v, hpi, e⟩
  · rw [e]; exact Kept.refl c s
  · rw [e]
    obtain ⟨_, _, hs, _⟩ := (pi_get_some c s pid r).1 hpi
    exact Kept.store c s _ r _ hs rfl (Or.inl rfl)

theorem Kept.of_pid_unalloc (c : Consts) (s : PidState) (caller theirpid : Int) (s1 : PidState)
    (h : pid_unalloc c s caller theirpid = .ok s1) : Kept c s s1 := by
  obtain ⟨_, r, _, _, _, e⟩ := pid_unalloc_ok c s caller theirpid s1 h
  rw [e]; exact Kept.of_reclaim c s _

theorem Kept.of_exit_loop (c : Consts) (me : Int) :
    ∀ (L : List Int) (s s2 : PidState), exit_loop c me L s = .ok s2 → Kept c s s2 := by
  intro L
  induction L with
  | nil =>
    intro s s2 h
    simp only [Pid.exit_loop, Except.ok.injEq] at h
    subst h; exact Kept.refl c s
  | cons p rest ih =>
    intro s s2 h
    rcases exit_loop_cons c me p rest s s2 h with ⟨h1, _⟩ | ⟨ch, mine, r1, _, _, _, hd, h1⟩
    · exact ih s s2 h1
    · exact (Kept.of_pid_detach c s me p r1 hd).trans (ih r1.st s2 h1)

theorem Kept.of_pid_exit (c : Consts) (s : PidState) (caller status : Int) (dodetach : Bool)
    (s1 : PidState) (h : pid_exit c s caller status dodetach = .ok s1) : Kept c s s1 := by
  obtain ⟨me, sl, mine, _, hl, hpi, e⟩ := pid_exit_ok c s caller status dodetach s1 h
  have h1 : Kept c s sl := by
    cases dodetach with
    | true => exact Kept.of_exit_loop c caller _ s sl (by simpa using hl)
    | false =>
      simp only [Bool.false_eq_true, if_false, Except.ok.injEq] at hl
      subst hl; exact Kept.refl c s
  obtain ⟨_, _, hs, _⟩ := (pi_get_some c sl caller mine).1 hpi
  refine h1.trans ?_
  rw [e]
  split
  · exact Kept.of_reclaim c sl _
  · exact Kept.store c sl _ mine _ hs rfl (Or.inl rfl)

/-- A returning `pid_alloc` leaves every record that was in the table as it
was. -/
theorem pid_alloc_keeps (c : Consts) (s : PidState) (caller : Int) (mem : Option Int) (r : Ret)
    (h : pid_alloc c s caller mem = .ok r) (i : Nat) (q : pidinfo)
    (hq : s.pidinfo[i]? = some (some q)) : r.st.pidinfo[i]? = some (some q) := by
  obtain ⟨_, hcase⟩ := pid_alloc_ok c s caller mem r h
  rcases hcase with ⟨_, e⟩ | ⟨_, p, hscan, _, hm⟩
  · rw [e]; exact hq
  · rcases hm with ⟨_, e⟩ | ⟨g, _, e⟩
    · rw [e]; exact hq
    · obtain ⟨_, hpe⟩ := alloc_scan_empty c s _ _ _ hscan
      have hne : slot c p ≠ i := by
        intro hi
        rw [hi, hq] at hpe
        simp at hpe
      rw [e]
      simp only [List.getElem?_set, hne, if_false]
      exact hq

/-- C22: for a returning call of `pid_alloc`, `pid_unalloc`, `pid_detach`,
`pid_exit`, `pid_join`, `pid_wait` or `pid_kill`, by any caller in any table, and
a slot that holds a record both before and after the call, the record has the
same `pi_pid` afterwards, its `pi_ppid` is what it was or `INVALID_PID`, and a
`pi_ppid` that was `INVALID_PID` still is. -/
theorem parent_only_cleared (c : Consts) (s s1 : PidState) (h : Step c s s1) (i : Nat)
    (r r1 : pidinfo) (hr : s.pidinfo[i]? = some (some r))
    (hr1 : s1.pidinfo[i]? = some (some r1)) :
    r1.pi_pid = r.pi_pid ∧ (r1.pi_ppid = r.pi_ppid ∨ r1.pi_ppid = c.INVALID_PID) ∧
    (r.pi_ppid = c.INVALID_PID → r1.pi_ppid = c.INVALID_PID) := by
  have key : r1.pi_pid = r.pi_pid ∧ (r1.pi_ppid = r.pi_ppid ∨ r1.pi_ppid = c.INVALID_PID) := by
    have of_kept : ∀ s2, Kept c s s2 → s2.pidinfo[i]? = some (some r1) →
        r1.pi_pid = r.pi_pid ∧ (r1.pi_ppid = r.pi_ppid ∨ r1.pi_ppid = c.INVALID_PID) := by
      intro s2 hk h2
      obtain ⟨r0, h0, hp, hpp⟩ := hk i r1 h2
      rw [hr] at h0
      simp only [Option.some.injEq] at h0
      subst h0
      exact ⟨hp, hpp⟩
    cases h with
    | alloc caller mem ret ha =>
      have := pid_alloc_keeps c s caller mem ret ha i r hr
      rw [this] at hr1
      simp only [Option.some.injEq] at hr1
      subst hr1
      exact ⟨rfl, Or.inl rfl⟩
    | unalloc caller theirpid _ hu => exact of_kept _ (Kept.of_pid_unalloc c s caller theirpid _ hu) hr1
    | detach caller childpid ret hd => exact of_kept _ (Kept.of_pid_detach c s caller childpid ret hd) hr1
    | exit caller status dodetach _ he =>
      exact of_kept _ (Kept.of_pid_exit c s caller status dodetach _ he) hr1
    | join caller targetpid nn flags j hj =>
      rw [pid_join_st c s caller targetpid nn flags j hj] at hr1
      exact of_kept _ (Kept.refl c s) hr1
    | wait caller targetpid nn flags j hj =>
      rw [pid_wait_st c s caller targetpid nn flags j hj] at hr1
      exact of_kept _ (Kept.refl c s) hr1
    | kill pid sig ret hk => exact of_kept _ (Kept.of_pid_kill c s pid sig ret hk) hr1
  refine ⟨key.1, key.2, ?_⟩
  intro hinv
  rcases key.2 with e | e
  · rw [e]; exact hinv
  · exact e

/-- Witness of C22: in `demo` the boot process detaches its child 2, whose
record keeps its `pi_pid` and has `INVALID_PID` as `pi_ppid` afterwards. -/
theorem parent_only_cleared_witness :
    Step demo demo_child demo_detached_child ∧
    demo_child.pidinfo[2]? = some (some ⟨2, 1, false, 0xbaad, 0⟩) ∧
    demo_detached_child.pidinfo[2]? = some (some ⟨2, 0, false, 0xbaad, 0⟩) ∧
    ((2 : Int) = 2 ∧ ((0 : Int) = 1 ∨ (0 : Int) = demo.INVALID_PID) ∧
      ((1 : Int) = demo.INVALID_PID → (0 : Int) = demo.INVALID_PID)) :=
  ⟨Step.detach demo_child 1 2 ⟨0, none, demo_detached_child⟩ (by decide), rfl, rfl,
   parent_only_cleared demo demo_child demo_detached_child
    (Step.detach demo_child 1 2 ⟨0, none, demo_detached_child⟩ (by decide)) 2
    ⟨2, 1, false, 0xbaad, 0⟩ ⟨2, 0, false, 0xbaad, 0⟩ rfl rfl⟩

/-! ## A parent identifier that outlives its record -/

theorem demo_orphan_reachable : Reachable demo demo_orphan :=
  Reachable.exit demo_detached_family 2 7 false demo_orphan
    demo_detached_family_reachable ⟨⟨2, 0, false, 0xbaad, 0⟩, by decide, rfl⟩ (by decide)

theorem demo_orphan_at_reachable (n q : Int)
    (h : Reachable demo (demo_orphan_at n))
    (ha : pid_alloc demo (demo_orphan_at n) 1 (some 0) = .ok ⟨0, some q, demo_orphan_alloc q⟩)
    (hl : pi_get demo (demo_orphan_alloc q) 1 = .ok (some demo_bootrec))
    (hu : pid_unalloc demo (demo_orphan_alloc q) 1 q = .ok (demo_orphan_at (inc_nextpid demo q))) :
    Reachable demo (demo_orphan_at (inc_nextpid demo q)) :=
  Reachable.unalloc _ 1 q _
    (Reachable.alloc (demo_orphan_at n) 1 (some 0) ⟨0, some q, demo_orphan_alloc q⟩ h
      ⟨demo_bootrec, (pi_get_some demo _ 1 demo_bootrec).2 ⟨by decide, by decide, rfl, rfl⟩, rfl⟩ ha)
    ⟨demo_bootrec, hl, rfl⟩ hu

theorem demo_reused_reachable : Reachable demo demo_reused :=
  Reachable.alloc (demo_orphan_at 9) 1 (some 0) ⟨0, some 2, demo_reused⟩
    (demo_orphan_at_reachable 7 8
      (demo_orphan_at_reachable 5 6
        (demo_orphan_at_reachable 4 4 demo_orphan_reachable (by decide) (by decide) (by decide))
        (by decide) (by decide) (by decide))
      (by decide) (by decide) (by decide))
    ⟨demo_bootrec, by decide, rfl⟩ (by decide)

/-- C27: in `demo` the detached process 2 creates process 3 and then calls
`pid_exit(7, false)`; its record is reclaimed while the record of 3 still names
2 as `pi_ppid`, so that `pi_ppid` refers to no record.  After three further
allocations that are taken back, the cursor has gone round and the boot
process is given pid 2 for a new child: the `pi_ppid` of 3 now names a process
that did not create it, and that process can detach 3.  All these tables can
be reached from `pid_bootstrap`. -/
theorem parent_outlives_record :
    Reachable demo demo_detached_child ∧
    pid_alloc demo demo_detached_child 2 (some 0) = .ok ⟨0, some 3, demo_detached_family⟩ ∧
    pid_exit demo demo_detached_family 2 7 false = .ok demo_orphan ∧
    Reachable demo demo_orphan ∧
    pi_get demo demo_orphan 3 = .ok (some ⟨3, 2, false, 0xbaad, 0⟩) ∧
    pi_get demo demo_orphan 2 = .ok none ∧
    Reachable demo (demo_orphan_at 9) ∧
    pid_alloc demo (demo_orphan_at 9) 1 (some 0) = .ok ⟨0, some 2, demo_reused⟩ ∧
    Reachable demo demo_reused ∧
    pi_get demo demo_reused 3 = .ok (some ⟨3, 2, false, 0xbaad, 0⟩) ∧
    pi_get demo demo_reused 2 = .ok (some ⟨2, 1, false, 0xbaad, 0⟩) ∧
    pid_detach demo demo_reused 2 3 =
      .ok ⟨0, none, demo_reused.store 3 (some ⟨3, 0, false, 0xbaad, 0⟩)⟩ :=
  ⟨demo_detached_child_reachable, by decide, by decide, demo_orphan_reachable, by decide,
   by decide,
   demo_orphan_at_reachable 7 8
      (demo_orphan_at_reachable 5 6
        (demo_orphan_at_reachable 4 4 demo_orphan_reachable (by decide) (by decide) (by decide))
        (by decide) (by decide) (by decide))
      (by decide) (by decide) (by decide),
   by decide, demo_reused_reachable, by decide, by decide, by decide⟩

/-! ## After the wake-up of a blocking `pid_join`

The order in which threads run is not part of this development.  What follows
is about the code of `pid_join` after `cv_wait`, as a function of the table the
woken caller finds. -/

/-- The code of `pid_join` after `cv_wait` copies `pi_exitstatus` out and returns
the pid of the target, whether or not `pi_exited` is set in the record: the
test of the flag before `cv_wait` is an `if`, and is not made again. -/
theorem pid_join_resume_eq (c : Consts) (s : PidState) (targetpid : Int) (nn : Bool)
    (r : pidinfo) (h : pi_get c s targetpid = .ok (some r)) :
    pid_join_resume c s targetpid nn =
      .ok ⟨targetpid, if nn then some r.pi_exitstatus else none, s⟩ := by
  simp only [pid_join_resume, bind, Except.bind, pure, Except.pure, h]

/-- When the record of the target has been reclaimed before the woken caller
runs, the caller reads a record that is no longer there. -/
theorem pid_join_resume_gone (c : Consts) (s : PidState) (targetpid : Int) (nn : Bool)
    (h : pi_get c s targetpid = .ok none) :
    pid_join_resume c s targetpid nn = .error .dangling := by
  simp only [pid_join_resume, bind, Except.bind, throw, throwThe, MonadExceptOf.throw, h]

/-- In `demo`: the boot process is suspended in `pid_join(2, &status, 0)`; process
2 calls `pid_exit(7, false)`; run on the table that call leaves, the rest of
`pid_join` returns 2 and stores 7. -/
theorem blocking_join_then_exit :
    pid_join demo demo_child 1 2 true 0 = .ok (.blocked demo_child) ∧
    pid_exit demo demo_child 2 7 false = .ok demo_exited_child ∧
    pid_join_resume demo demo_exited_child 2 true = .ok ⟨2, some 7, demo_exited_child⟩ := by
  decide

end Pid

/-! # `file_close` and the link count -/

namespace FileTable

/-- The function `file_close` on a descriptor in range whose slot points at a
live object. -/
theorem file_close_eq (c : Consts) (s : FileState) (fd : Int) (p : Nat) (f : openfiles)
    (h0 : 0 ≤ fd) (hlt : fd < (c.OPEN_MAX : Int))
    (hs : s.file[fd.toNat]? = some (some p)) (hp : s.heap[p]? = some (some f)) :
    file_close c s fd = .ok
      { ret := 0, retfd := none,
        st := { release s p { f with links := f.links - 1 } with
          file := (release s p { f with links := f.links - 1 }).file.set fd.toNat none } } := by
  have hck : check_fd c fd = 0 := by
    unfold check_fd
    rw [if_neg (by omega)]
  have hneg : ¬ fd < 0 := by omega
  simp only [file_close, bind, Except.bind, pure, Except.pure, throw, throwThe,
    MonadExceptOf.throw, hck, hneg, hs, hp]
  simp

/-- The statement `if (file->links < 0)` leaves the file table alone. -/
theorem release_file (s : FileState) (p : Nat) (f : openfiles) :
    (release s p f).file = s.file := by
  unfold release
  split
  · split <;> rfl
  · rfl

/-- What a returning `insert_scan` has done. -/
theorem insert_scan_ok (c : Consts) (s : FileState) (p : Nat) :
    ∀ (n i : Nat) (r : Ret), insert_scan c s p n i = .ok r →
      r = { ret := c.EMFILE, retfd := none, st := s } ∨
      ∃ j : Nat, s.file[j]? = some none ∧
        r = { ret := 0, retfd := some (j : Int),
              st := { s with file := s.file.set j (some p) } } := by
  intro n
  induction n with
  | zero =>
    intro i r h
    simp only [insert_scan, Except.ok.injEq] at h
    exact Or.inl h.symm
  | succ n ih =>
    intro i r h
    simp only [insert_scan] at h
    cases hi : s.file[i]? with
    | none => simp [hi] at h
    | some v =>
      cases v with
      | none =>
        simp only [hi, Except.ok.injEq] at h
        exact Or.inr ⟨i, hi, h.symm⟩
      | some q =>
        simp only [hi] at h
        exact ih (i + 1) r h

/-- C29: for a descriptor in range whose slot points at a live entry `f`,
`file_close` returns 0 and empties the slot, leaving the other slots alone; when
`f.links` is at least 1 on entry, and so also when this is the last descriptor
of an entry whose `links` counts its descriptors, no vnode is closed and the
entry stays allocated with `links` one lower; the vnode is closed and the entry
freed only when `f.links` is 0 or less on entry, so that the decrement takes it
below zero. -/
theorem file_close_links (c : Consts) (s : FileState) (fd : Int) (p : Nat) (f : openfiles)
    (h0 : 0 ≤ fd) (hlt : fd < (c.OPEN_MAX : Int))
    (hs : s.file[fd.toNat]? = some (some p)) (hp : s.heap[p]? = some (some f)) :
    ∃ s1, file_close c s fd = .ok { ret := 0, retfd := none, st := s1 } ∧
      s1.file = s.file.set fd.toNat none ∧
      (1 ≤ f.links → s1.closed = s.closed ∧
        s1.heap = s.heap.set p (some { f with links := f.links - 1 })) ∧
      (f.links ≤ 0 → s1.heap = s.heap.set p none ∧
        s1.closed = (match f.vn with
          | some v => s.closed ++ [v]
          | none => s.closed)) := by
  refine ⟨_, file_close_eq c s fd p f h0 hlt hs hp, ?_, ?_, ?_⟩
  · simp only [release_file]
  · intro h1
    have hn : ¬ (f.links - 1 < 0) := by omega
    simp only [release, hn, if_false, and_self]
  · intro h1
    have hn : f.links - 1 < 0 := by omega
    simp only [release, hn, if_true]
    cases f.vn <;> simp [FileState.vfs_close, FileState.kfree]

/-- Witness of C29: in `demo`, `file_open` on a thread with no open file returns
descriptor 0 for an entry with `links == 1`, and `file_close(0)` then returns 0
and empties the slot, but vnode 5 is not closed and the entry stays allocated
with `links == 0`. -/
theorem file_close_links_witness :
    file_open demo demo_empty 1 0 5 true true = .ok ⟨0, some 0, demo_open⟩ ∧
    file_close demo demo_open 0 =
      .ok ⟨0, none, ⟨[some ⟨1, 0, 0, some 5⟩], [none, none, none, none], []⟩⟩ ∧
    ∃ s1, file_close demo demo_open 0 = .ok { ret := 0, retfd := none, st := s1 } ∧
      s1.file = demo_open.file.set (0 : Int).toNat none ∧
      ((1 : Int) ≤ 1 → s1.closed = demo_open.closed ∧
        s1.heap = demo_open.heap.set 0 (some ⟨1, 0, 1 - 1, some 5⟩)) ∧
      ((1 : Int) ≤ 0 → s1.heap = demo_open.heap.set 0 none ∧
        s1.closed = demo_open.closed ++ [5]) :=
  ⟨by decide, by decide,
   file_close_links demo demo_open 0 0 ⟨1, 0, 1, some 5⟩ (by decide) (by decide) rfl rfl⟩

/-- A call of `file_open` that stores a descriptor, followed by `file_close` of
that descriptor: the file table is as before the two calls, no vnode has been
closed, and the entry is still allocated, with `links == 0`. -/
theorem file_open_then_close (c : Consts) (s : FileState) (flags : Int) (vn : Nat)
    (r : Ret) (fd : Int) (hlen : s.file.length = c.OPEN_MAX)
    (h : file_open c s flags 0 vn true true = .ok r) (hfd : r.retfd = some fd) :
    ∃ s2, file_close c r.st fd = .ok { ret := 0, retfd := none, st := s2 } ∧
      s2.file = s.file ∧ s2.closed = s.closed ∧
      s2.heap = s.heap ++ [some ⟨flags, 0, 0, some vn⟩] := by
  simp only [file_open, insert_file, bind, Except.bind, pure, Except.pure] at h
  simp only [ne_eq, not_true_eq_false, if_false, Bool.true_eq_false] at h
  cases hi : insert_scan c { s with heap := s.heap ++ [some ⟨flags, 0, 1, some vn⟩] }
      s.heap.length c.OPEN_MAX 0 with
  | error e => simp [hi] at h
  | ok r1 =>
    simp only [hi] at h
    rcases insert_scan_ok c _ _ _ _ _ hi with e | ⟨j, hj, e⟩
    · subst e
      by_cases hz : c.EMFILE = 0
      · simp only [hz, ne_eq, not_true_eq_false, if_false, Except.ok.injEq] at h
        subst h
        simp at hfd
      · simp only [hz, ne_eq, not_false_eq_true, if_true, Except.ok.injEq] at h
        subst h
        simp at hfd
    · subst e
      simp only [ne_eq, not_true_eq_false, if_false, Except.ok.injEq] at h
      subst h
      simp only [Option.some.injEq] at hfd
      subst hfd
      simp only at hj
      have hjl : j < s.file.length := Pid.getElem?_lt hj
      have hcl := file_close_eq c
        { heap := s.heap ++ [some ⟨flags, 0, 1, some vn⟩], file := s.file.set j (some s.heap.length),
          closed := s.closed } (j : Int) s.heap.length ⟨flags, 0, 1, some vn⟩
        (by omega) (by omega)
        (by simp [List.getElem?_set_self hjl]) (by simp)
      refine ⟨_, hcl, ?_, ?_, ?_⟩
      · simp only [release_file, Int.toNat_ofNat, List.set_set]
        apply List.ext_getElem?
        intro k
        rw [List.getElem?_set]
        by_cases hjk : j = k
        · subst hjk; simp [hjl, hj]
        · simp [hjk]
      · simp [release]
      · simp [release]

/-- An entry shared by two descriptors: after `duplicate_filetable` the entry of
`demo_open` has `links == 2`; `file_close(0)` in the first thread leaves it with
`links == 1`, and `file_close(0)` in the thread that runs with the duplicate
leaves it with `links == 0`; vnode 5 has not been closed by either call. -/
theorem shared_entry_not_closed :
    duplicate_filetable demo demo_open true = .ok (0, [some 0, none, none, none], demo_shared) ∧
    file_close demo demo_shared 0 =
      .ok ⟨0, none, ⟨[some ⟨1, 0, 1, some 5⟩], [none, none, none, none], []⟩⟩ ∧
    file_close demo ⟨[some ⟨1, 0, 1, some 5⟩], [some 0, none, none, none], []⟩ 0 =
      .ok ⟨0, none, ⟨[some ⟨1, 0, 0, some 5⟩], [none, none, none, none], []⟩⟩ := by
  decide

end FileTable
